import Mathlib

/-!
Vectrexy PSG: bus protocol, register dispatch, generators and sampling.

A shallow embedding of `src/src/Psg.cpp` (the AY-3-8912 programmable sound
generator of the Vectrex emulator) together with theorems about its bus state
machine, register dispatch and reset.

Machine integers are natural numbers; an 8-bit quantity is a natural number
below 256.  A float is the rational it denotes, and every float operation is
the exact operation followed by rounding to the nearest float.  The fatal
`default: ASSERT(false)` branches of the register dispatch are modelled by
`none`.
-/

namespace Vectrexy

/-! ## Bit operations (BitOps.h) -/

/-- Modelled from the spec: the header BitOps.h is not among the sources.
`BITS(a, b, ...)` is the mask whose set bits are exactly the listed positions
(the spec's "bit0 ToneA, bit1 ToneB, ..."). -/
def BITS (positions : List Nat) : Nat :=
  positions.foldl (fun acc p => acc ||| (1 <<< p)) 0

/-- Modelled from the spec: the header BitOps.h is not among the sources.
`ReadBits(target, mask)` keeps the bits of `target` selected by `mask`
(the spec's "captures DA's low 4 bits"). -/
def ReadBits (target mask : Nat) : Nat := target &&& mask

/-- Modelled from the spec: the header BitOps.h is not among the sources.
`TestBits(target, mask)` holds when some bit selected by `mask` is set. -/
def TestBits (target mask : Nat) : Bool := (target &&& mask) != 0

/-- Modelled from the spec: the header BitOps.h is not among the sources.
`SetBits(target, mask, enable)` on an 8-bit target sets the masked bits when
`enable` holds and clears them otherwise
(the spec's "value = (busDirection << 1) | busControl1"). -/
def SetBits (target mask : Nat) (enable : Bool) : Nat :=
  if enable then target ||| mask else target &&& (0xFF ^^^ mask)

/-! ## Register addresses (namespace Register in Psg.cpp) -/

namespace Register
def ToneGeneratorALow : Nat := 0
def ToneGeneratorAHigh : Nat := 1
def ToneGeneratorBLow : Nat := 2
def ToneGeneratorBHigh : Nat := 3
def ToneGeneratorCLow : Nat := 4
def ToneGeneratorCHigh : Nat := 5
def NoiseGenerator : Nat := 6
def MixerControl : Nat := 7
def AmplitudeA : Nat := 8
def AmplitudeB : Nat := 9
def AmplitudeC : Nat := 10
def EnvelopePeriodLow : Nat := 11
def EnvelopePeriodHigh : Nat := 12
def EnvelopeShape : Nat := 13
def IOPortADataStore : Nat := 14
def IOPortBDataStore : Nat := 15
end Register

/-! ## Mixer and amplitude register decoding (Psg.cpp lines 31-57) -/

namespace MixerControlRegister
def ToneA : Nat := BITS [0]
def ToneB : Nat := BITS [1]
def ToneC : Nat := BITS [2]
def NoiseA : Nat := BITS [3]
def NoiseB : Nat := BITS [4]
def NoiseC : Nat := BITS [5]

/-- Enabled when the bit is 0. -/
def IsEnabled (reg type : Nat) : Bool := !TestBits reg type
end MixerControlRegister

/-- Modelled from the spec: the enumeration AmplitudeMode is declared in the
header Psg.h, which is not among the sources ("mode {Fixed, Envelope}"). -/
inductive AmplitudeMode where
  | Fixed
  | Envelope
deriving DecidableEq, Repr

namespace AmplitudeControlRegister
def FixedVolume : Nat := BITS [0, 1, 2, 3]
def EnvelopeMode : Nat := BITS [4]
def Unused : Nat := BITS [5, 6, 7]

def GetMode (reg : Nat) : AmplitudeMode :=
  if TestBits reg EnvelopeMode then AmplitudeMode.Envelope else AmplitudeMode.Fixed

def GetFixedVolume (reg : Nat) : Nat := ReadBits reg FixedVolume
end AmplitudeControlRegister

/-! ## Chip mode -/

/-- Modelled from the spec: the enumeration PsgMode is declared in the header
Psg.h, which is not among the sources.  The spec fixes the enumerator values:
"Inactive=0, Read=1 ..., Write=2 ..., LatchAddress=3 when both set". -/
inductive PsgMode where
  | Inactive
  | Read
  | Write
  | LatchAddress
deriving DecidableEq, Repr

/-- The enumerator value of a mode. -/
def PsgMode.toNat : PsgMode → Nat
  | .Inactive => 0
  | .Read => 1
  | .Write => 2
  | .LatchAddress => 3

/-- The conversion `static_cast<Psg::PsgMode>(value)` for the values 0..3, the
only ones `ModeFromBDIRandBC1` produces (higher bits are ignored here). -/
def PsgMode.ofValue (value : Nat) : PsgMode :=
  match value % 4 with
  | 0 => .Inactive
  | 1 => .Read
  | 2 => .Write
  | _ => .LatchAddress

/-- The 2-bit value the lambda `ModeFromBDIRandBC1` builds before the cast. -/
def ModeValueFromBDIRandBC1 (BDIR BC1 : Bool) : Nat :=
  SetBits (SetBits 0 0b10 BDIR) 0b01 BC1

/-- The lambda `ModeFromBDIRandBC1` of `Psg::Clock`. -/
def ModeFromBDIRandBC1 (BDIR BC1 : Bool) : PsgMode :=
  PsgMode.ofValue (ModeValueFromBDIRandBC1 BDIR BC1)

/-! ## Generators (declared in Psg.h) -/

/-- Modelled from the spec: the master divider is declared in the header
Psg.h, which is not among the sources.  It "divides the chip's input clock by
16": its `Clock` reports expiry on every 16th call. -/
structure MasterDivider where
  m_time : Nat := 0
deriving DecidableEq, Repr

/-- Modelled from the spec: the reset of the master divider restarts its count. -/
def MasterDivider.Reset (_d : MasterDivider) : MasterDivider := { m_time := 0 }

/-- Modelled from the spec: one input clock of the master divider; the boolean tells
whether the divider expired ("every 16th call"). -/
def MasterDivider.Clock (d : MasterDivider) : Bool × MasterDivider :=
  if 16 ≤ d.m_time + 1 then (true, { m_time := 0 }) else (false, { m_time := d.m_time + 1 })

/-- Modelled from the spec: the tone generator is declared in the header
Psg.h, which is not among the sources.  "12-bit period (low byte + high
nibble), a down-counter, and a single-bit output level." -/
structure ToneGenerator where
  m_period : Nat := 0
  m_counter : Nat := 0
  m_value : Bool := false
deriving DecidableEq, Repr

namespace ToneGenerator
/-- Modelled from the spec: the setter of the low 8 bits of the 12-bit period. -/
def SetPeriodLow (g : ToneGenerator) (low : Nat) : ToneGenerator :=
  { g with m_period := (g.m_period / 256 % 16) * 256 + low % 256 }

/-- Modelled from the spec: the setter of the high 4 bits of the period ("top 4
bits of the high byte ignored on write"). -/
def SetPeriodHigh (g : ToneGenerator) (high : Nat) : ToneGenerator :=
  { g with m_period := (high % 16) * 256 + g.m_period % 256 }

/-- Modelled from the spec: the low byte of the period. -/
def PeriodLow (g : ToneGenerator) : Nat := g.m_period % 256

/-- Modelled from the spec: the high nibble of the period. -/
def PeriodHigh (g : ToneGenerator) : Nat := g.m_period / 256 % 16

/-- Modelled from the spec: "decrements internal counter; on reaching zero,
reloads it to max(period,1) and flips the single-bit output." -/
def Clock (g : ToneGenerator) : ToneGenerator :=
  let c := g.m_counter - 1
  if c = 0 then { g with m_counter := max g.m_period 1, m_value := !g.m_value }
  else { g with m_counter := c }

/-- Modelled from the spec: the output level as 0 or 1. -/
def Value (g : ToneGenerator) : Nat := if g.m_value then 1 else 0
end ToneGenerator

/-- Modelled from the spec: the noise generator is declared in the header
Psg.h, which is not among the sources.  "5-bit period, a down-counter, and a
17-bit shift register seeded to a non-zero value." -/
structure NoiseGenerator where
  m_period : Nat := 0
  m_counter : Nat := 0
  m_shiftRegister : Nat := 1
deriving DecidableEq, Repr

namespace NoiseGenerator
/-- Modelled from the spec: the setter of the 5-bit period. -/
def SetPeriod (g : NoiseGenerator) (period : Nat) : NoiseGenerator :=
  { g with m_period := period % 32 }

/-- Modelled from the spec: the 5-bit period. -/
def Period (g : NoiseGenerator) : Nat := g.m_period

/-- Modelled from the spec: "feedback bit = XOR of bit0 and bit3 of the 17-bit shift register, shifts
right by one, inserts feedback bit at the top." -/
def ClockShiftRegister (r : Nat) : Nat :=
  let bit0 := r &&& 1
  let bit3 := (r >>> 3) &&& 1
  let feedback := bit0 ^^^ bit3
  ((r % 2 ^ 17) >>> 1) ||| (feedback <<< 16)

/-- Modelled from the spec: "decrements internal counter; on reaching zero,
reloads to max(period,1)" and steps the shift register. -/
def Clock (g : NoiseGenerator) : NoiseGenerator :=
  let c := g.m_counter - 1
  if c = 0 then
    { g with m_counter := max g.m_period 1,
             m_shiftRegister := ClockShiftRegister g.m_shiftRegister }
  else { g with m_counter := c }

/-- Modelled from the spec: "Value() returns bit0 of the register." -/
def Value (g : NoiseGenerator) : Nat := g.m_shiftRegister &&& 1
end NoiseGenerator

/-- Modelled from the spec: the envelope generator is declared in the header
Psg.h, which is not among the sources.  "16-bit period (low+high byte), a
4-bit shape register (bits: continue, attack, alternate, hold), an internal
5-bit step counter (0-31) and direction, and a derived 0-15 output level." -/
structure EnvelopeGenerator where
  m_period : Nat := 0
  m_shape : Nat := 0
  m_counter : Nat := 0
  m_step : Nat := 0
  m_holding : Bool := false
  m_value : Nat := 0
deriving DecidableEq, Repr

namespace EnvelopeGenerator
/-- Modelled from the spec: the continue bit of a shape. -/
def shapeContinue (shape : Nat) : Bool := shape.testBit 3
/-- Modelled from the spec: the attack bit of a shape. -/
def shapeAttack (shape : Nat) : Bool := shape.testBit 2
/-- Modelled from the spec: the alternate bit of a shape. -/
def shapeAlternate (shape : Nat) : Bool := shape.testBit 1
/-- Modelled from the spec: the hold bit of a shape. -/
def shapeHold (shape : Nat) : Bool := shape.testBit 0

/-- Modelled from the spec: the level of a shape at a step of its 32-step cycle: the first 16 steps
ramp in the direction given by attack, the last 16 steps ramp the same way, or
the opposite way for an alternating shape. -/
def levelAt (shape step : Nat) : Nat :=
  let k := step % 16
  let up : Bool := if step % 32 < 16 then shapeAttack shape
                   else (shapeAttack shape != shapeAlternate shape)
  if up then k else 15 - k

/-- Modelled from the spec: the setter of the low byte of the 16-bit period. -/
def SetPeriodLow (g : EnvelopeGenerator) (low : Nat) : EnvelopeGenerator :=
  { g with m_period := (g.m_period / 256 % 256) * 256 + low % 256 }

/-- Modelled from the spec: the setter of the high byte of the 16-bit period. -/
def SetPeriodHigh (g : EnvelopeGenerator) (high : Nat) : EnvelopeGenerator :=
  { g with m_period := (high % 256) * 256 + g.m_period % 256 }

/-- Modelled from the spec: the low byte of the period. -/
def PeriodLow (g : EnvelopeGenerator) : Nat := g.m_period % 256

/-- Modelled from the spec: the high byte of the period. -/
def PeriodHigh (g : EnvelopeGenerator) : Nat := g.m_period / 256 % 256

/-- Modelled from the spec: "SetShape resets step counter to 0 and direction per
shape."  The down-counter restarts with the shape, so that a ramp takes
"exactly 16×period ticks". -/
def SetShape (g : EnvelopeGenerator) (shape : Nat) : EnvelopeGenerator :=
  { g with m_shape := shape % 16, m_step := 0, m_holding := false,
           m_counter := max g.m_period 1, m_value := levelAt (shape % 16) 0 }

/-- Modelled from the spec: the 4-bit shape register. -/
def Shape (g : EnvelopeGenerator) : Nat := g.m_shape

/-- Modelled from the spec: one advance of the step counter, following the shape
rules:
a non-continuing shape holds at 0 (attack = 0) or 15 (attack = 1) once its
single pass completes; a continuing shape with hold freezes at the end of its
first cycle (16 steps, or 32 steps when alternating); otherwise it repeats. -/
def advance (g : EnvelopeGenerator) : EnvelopeGenerator :=
  if g.m_holding then g
  else
    let step := g.m_step + 1
    if !shapeContinue g.m_shape && step == 16 then
      { g with m_step := step, m_holding := true,
               m_value := if shapeAttack g.m_shape then 15 else 0 }
    else if shapeContinue g.m_shape && shapeHold g.m_shape
        && step == (if shapeAlternate g.m_shape then 32 else 16) then
      { g with m_step := step, m_holding := true }
    else
      { g with m_step := step % 32, m_value := levelAt g.m_shape (step % 32) }

/-- Modelled from the spec: "decrements internal counter; on reaching zero,
reloads to max(period,1) and advances the step counter." -/
def Clock (g : EnvelopeGenerator) : EnvelopeGenerator :=
  let c := g.m_counter - 1
  if c = 0 then advance { g with m_counter := max g.m_period 1 }
  else { g with m_counter := c }

/-- Modelled from the spec: the current level, 0..15. -/
def Value (g : EnvelopeGenerator) : Nat := g.m_value
end EnvelopeGenerator

/-! ## Channels (declared in Psg.h) -/

/-- Modelled from the spec: AmplitudeControl is declared in the header Psg.h,
which is not among the sources.  "Mode {Fixed, Envelope} and a 4-bit
fixed-volume value." -/
structure AmplitudeControl where
  m_mode : AmplitudeMode := AmplitudeMode.Fixed
  m_fixedVolume : Nat := 0
deriving DecidableEq, Repr

namespace AmplitudeControl
/-- Modelled from the spec: the setter of the amplitude mode. -/
def SetMode (a : AmplitudeControl) (mode : AmplitudeMode) : AmplitudeControl :=
  { a with m_mode := mode }

/-- Modelled from the spec: the setter of the fixed volume. -/
def SetFixedVolume (a : AmplitudeControl) (volume : Nat) : AmplitudeControl :=
  { a with m_fixedVolume := volume }

/-- Modelled from the spec: "returns the fixed value in Fixed mode, else the shared
EnvelopeGenerator's current Value()." -/
def Volume (a : AmplitudeControl) (envelope : EnvelopeGenerator) : Nat :=
  match a.m_mode with
  | .Fixed => a.m_fixedVolume
  | .Envelope => envelope.Value
end AmplitudeControl

/-! ## Single-precision arithmetic (the C++ type float) -/

namespace Float32

/-- The quotient a / d rounded to the nearest natural number, a tie going to
the even neighbour (the default rounding of IEEE 754). -/
def roundHalfEven (a d : Nat) : Nat :=
  let q := a / d
  let r := a % d
  if 2 * r < d then q
  else if d < 2 * r then q + 1
  else if q % 2 = 0 then q else q + 1

/-- The number of halvings that bring q below 2^24.  With q the integer part
of a magnitude counted in units of 2^-149, this is the binary logarithm of the
spacing of the floats around that magnitude, in the same units: 0 in the
subnormal range and in the lowest normal binade, one more per binade above.
The first argument bounds the recursion. -/
def halvings : Nat → Nat → Nat
  | 0, _ => 0
  | fuel + 1, q => if q < 2 ^ 24 then 0 else halvings fuel (q / 2) + 1

/-- The magnitude a / b, counted in units of 2^-149 (the least positive
float), rounded to the nearest float, in the same units: a float has a
significand of 24 bits, so the magnitude is rounded to the nearest multiple
of the spacing 2^shift. -/
def roundUnits (a b : Nat) : Nat :=
  let shift := halvings (a / b) (a / b)
  roundHalfEven a (b * 2 ^ shift) * 2 ^ shift

/-- The value of type float (IEEE 754 binary32) nearest to the rational x,
a tie going to the even significand.  A float is identified with the rational
it denotes, and an operation of the code on floats is the exact operation
followed by this rounding.  Overflow to infinity is left out: the sums and
quotients of 32-bit volumes rounded in this file are far below the largest
finite float. -/
def round (x : ℚ) : ℚ :=
  ((Int.sign x.num * (roundUnits (x.num.natAbs * 2 ^ 149) x.den : ℤ) : ℤ) : ℚ) / 2 ^ 149

end Float32

/-- Modelled from the spec: PsgChannel is declared in the header Psg.h, which
is not among the sources.  The channel's references to the shared generators
are passed to `Sample` as arguments; the channel owns its amplitude control,
"two independent enable flags" and "two debug-override flags", default false. -/
structure PsgChannel where
  m_toneEnabled : Bool := false
  m_noiseEnabled : Bool := false
  OverrideToneEnabled : Bool := false
  OverrideNoiseEnabled : Bool := false
  m_amplitudeControl : AmplitudeControl := {}
deriving DecidableEq, Repr

namespace PsgChannel
/-- Modelled from the spec: the setter of the register-driven tone enable flag. -/
def SetToneEnabled (c : PsgChannel) (enabled : Bool) : PsgChannel :=
  { c with m_toneEnabled := enabled }

/-- Modelled from the spec: the setter of the register-driven noise enable flag. -/
def SetNoiseEnabled (c : PsgChannel) (enabled : Bool) : PsgChannel :=
  { c with m_noiseEnabled := enabled }

/-- Modelled from the spec: "effective tone bit = ToneGenerator.Value() OR NOT(tone
enabled OR tone-override); effective noise bit likewise; gate = tone AND noise; output =
gate ? +normalizedVolume : -normalizedVolume", with "normalizedVolume =
AmplitudeControl.Volume()/15" and the result a float: the integer volume is
converted to float and divided by 15 in float.  Negation of a float is exact. -/
def Sample (c : PsgChannel) (tone : ToneGenerator) (noise : NoiseGenerator)
    (envelope : EnvelopeGenerator) : ℚ :=
  let toneBit : Bool := (tone.Value != 0) || !(c.m_toneEnabled || c.OverrideToneEnabled)
  let noiseBit : Bool := (noise.Value != 0) || !(c.m_noiseEnabled || c.OverrideNoiseEnabled)
  let volume : ℚ :=
    Float32.round (Float32.round (c.m_amplitudeControl.Volume envelope : ℚ) / 15)
  if toneBit && noiseBit then volume else -volume
end PsgChannel

/-! ## The chip -/

/-- The members of class Psg.  The last field is not a member: it is the
record of the diagnostics raised through `ErrorHandler::Undefined`. -/
structure Psg where
  m_BDIR : Bool
  m_BC1 : Bool
  m_mode : PsgMode
  m_DA : Nat
  m_latchedAddress : Nat
  m_registers : Fin 16 → Nat
  m_masterDivider : MasterDivider
  m_toneGenerators : Fin 3 → ToneGenerator
  m_noiseGenerator : NoiseGenerator
  m_envelopeGenerator : EnvelopeGenerator
  m_channels : Fin 3 → PsgChannel
  undefinedLog : List String

/-- Modelled from the spec: ErrorHandler.h is not among the sources.
`ErrorHandler::Undefined` reports an "unsupported configuration" as "a
non-fatal diagnostic; emulation continues": the message is recorded and
nothing else changes. -/
def ErrorHandler.Undefined (s : Psg) (message : String) : Psg :=
  { s with undefinedLog := s.undefinedLog ++ [message] }

namespace Psg

/-- Modelled from the spec: the state after the constructor `Psg::Psg()`.  The
member initialisers are in the header Psg.h, which is not among the sources;
every member has its default value (the spec gives the override flags as
"default false" and the enable bits as "power-on default disabled"). -/
def construct : Psg where
  m_BDIR := false
  m_BC1 := false
  m_mode := PsgMode.Inactive
  m_DA := 0
  m_latchedAddress := 0
  m_registers := fun _ => 0
  m_masterDivider := {}
  m_toneGenerators := fun _ => {}
  m_noiseGenerator := {}
  m_envelopeGenerator := {}
  m_channels := fun _ => {}
  undefinedLog := []

/-- Modelled from the spec: the inline setter `SetBDIR` is in Psg.h. -/
def SetBDIR (s : Psg) (enable : Bool) : Psg := { s with m_BDIR := enable }

/-- Modelled from the spec: the inline setter `SetBC1` is in Psg.h. -/
def SetBC1 (s : Psg) (enable : Bool) : Psg := { s with m_BC1 := enable }

/-- Member `Psg::WriteDA`: the parameter is a `uint8_t`. -/
def WriteDA (s : Psg) (value : Nat) : Psg := { s with m_DA := value % 256 }

/-- Member `Psg::ReadDA`: the value read and the (unchanged) chip. -/
def ReadDA (s : Psg) : Nat × Psg := (s.m_DA, s)

/-- Member `Psg::Reset`: the seven assignments of lines 103-109. -/
def Reset (s : Psg) : Psg :=
  { s with
    m_mode := PsgMode.Inactive
    m_DA := 0
    m_registers := fun _ => 0
    m_masterDivider := s.m_masterDivider.Reset
    m_toneGenerators := fun _ => {}
    m_noiseGenerator := {}
    m_envelopeGenerator := {} }

/-- Member `Psg::Init`. -/
def Init (s : Psg) : Psg := s.Reset

/-- The access `m_registers[address]`; an index outside the array gives no
value. -/
def registerAt (s : Psg) (address : Nat) : Option Nat :=
  if h : address < 16 then some (s.m_registers ⟨address, h⟩) else none

/-- The assignment `m_registers[address] = value`. -/
def setRegister (s : Psg) (address value : Nat) : Option Psg :=
  if h : address < 16 then
    some { s with m_registers := Function.update s.m_registers ⟨address, h⟩ value }
  else none

/-- Member `Psg::Read`: the switch is on the latched address, the backing array is
indexed by the parameter; `none` is the branch `default: ASSERT(false)`. -/
def Read (s : Psg) (address : Nat) : Option Nat :=
  match s.m_latchedAddress with
  | 0 => some (s.m_toneGenerators 0).PeriodLow
  | 1 => some (s.m_toneGenerators 0).PeriodHigh
  | 2 => some (s.m_toneGenerators 1).PeriodLow
  | 3 => some (s.m_toneGenerators 1).PeriodHigh
  | 4 => some (s.m_toneGenerators 2).PeriodLow
  | 5 => some (s.m_toneGenerators 2).PeriodHigh
  | 6 => some s.m_noiseGenerator.Period
  | 7 => s.registerAt address
  | 8 => s.registerAt address
  | 9 => s.registerAt address
  | 10 => s.registerAt address
  | 11 => some s.m_envelopeGenerator.PeriodLow
  | 12 => some s.m_envelopeGenerator.PeriodHigh
  | 13 => some s.m_envelopeGenerator.Shape
  | 14 => s.registerAt address
  | 15 => s.registerAt address
  | _ => none

/-- The assignment to `m_toneGenerators[index]`. -/
def setToneGenerator (s : Psg) (index : Fin 3) (g : ToneGenerator) : Psg :=
  { s with m_toneGenerators := Function.update s.m_toneGenerators index g }

/-- The assignment to `m_channels[index]`. -/
def setChannel (s : Psg) (index : Fin 3) (c : PsgChannel) : Psg :=
  { s with m_channels := Function.update s.m_channels index c }

/-- The mixer case of `Psg::Write` (lines 300-314), before the store into the
backing array: the diagnostic, then the six calls in source order. -/
def writeMixer (s : Psg) (value : Nat) : Psg :=
  let s0 := if ReadBits value 0b11000000 != 0 then
      ErrorHandler.Undefined s "Not supporting I/O ports on PSG" else s
  let s1 := s0.setChannel 0 ((s0.m_channels 0).SetToneEnabled
    (MixerControlRegister.IsEnabled value MixerControlRegister.ToneA))
  let s2 := s1.setChannel 1 ((s1.m_channels 1).SetToneEnabled
    (MixerControlRegister.IsEnabled value MixerControlRegister.ToneB))
  let s3 := s2.setChannel 2 ((s2.m_channels 2).SetToneEnabled
    (MixerControlRegister.IsEnabled value MixerControlRegister.ToneC))
  let s4 := s3.setChannel 0 ((s3.m_channels 0).SetNoiseEnabled
    (MixerControlRegister.IsEnabled value MixerControlRegister.NoiseA))
  let s5 := s4.setChannel 1 ((s4.m_channels 1).SetNoiseEnabled
    (MixerControlRegister.IsEnabled value MixerControlRegister.NoiseB))
  s5.setChannel 2 ((s5.m_channels 2).SetNoiseEnabled
    (MixerControlRegister.IsEnabled value MixerControlRegister.NoiseC))

/-- The amplitude case of `Psg::Write` (lines 318-323) for the channel with
the given index, before the store into the backing array. -/
def writeAmplitude (s : Psg) (index : Fin 3) (value : Nat) : Psg :=
  let channel := s.m_channels index
  let control := (channel.m_amplitudeControl.SetMode
      (AmplitudeControlRegister.GetMode value)).SetFixedVolume
      (AmplitudeControlRegister.GetFixedVolume value)
  s.setChannel index { channel with m_amplitudeControl := control }

/-- Member `Psg::Write`: the switch is on the latched address, the backing array is
indexed by the parameter; the generator cases return before the store;
`none` is the branch `default: ASSERT(false)`. -/
def Write (s : Psg) (address value : Nat) : Option Psg :=
  match s.m_latchedAddress with
  | 0 => some (s.setToneGenerator 0 ((s.m_toneGenerators 0).SetPeriodLow value))
  | 1 => some (s.setToneGenerator 0 ((s.m_toneGenerators 0).SetPeriodHigh value))
  | 2 => some (s.setToneGenerator 1 ((s.m_toneGenerators 1).SetPeriodLow value))
  | 3 => some (s.setToneGenerator 1 ((s.m_toneGenerators 1).SetPeriodHigh value))
  | 4 => some (s.setToneGenerator 2 ((s.m_toneGenerators 2).SetPeriodLow value))
  | 5 => some (s.setToneGenerator 2 ((s.m_toneGenerators 2).SetPeriodHigh value))
  | 6 => some { s with m_noiseGenerator := s.m_noiseGenerator.SetPeriod value }
  | 7 => (s.writeMixer value).setRegister address value
  | 8 => (s.writeAmplitude 0 value).setRegister address value
  | 9 => (s.writeAmplitude 1 value).setRegister address value
  | 10 => (s.writeAmplitude 2 value).setRegister address value
  | 11 => some { s with m_envelopeGenerator := s.m_envelopeGenerator.SetPeriodLow value }
  | 12 => some { s with m_envelopeGenerator := s.m_envelopeGenerator.SetPeriodHigh value }
  | 13 => some { s with m_envelopeGenerator := s.m_envelopeGenerator.SetShape value }
  | 14 => s.setRegister address value
  | 15 => s.setRegister address value
  | _ => none

/-- The mode handling of `Psg::Clock` (lines 202-223): the new mode is stored,
then the bus action is taken when the previous mode was Inactive. -/
def clockBus (s : Psg) : Option Psg :=
  let lastMode := s.m_mode
  let s1 : Psg := { s with m_mode := ModeFromBDIRandBC1 s.m_BDIR s.m_BC1 }
  match s1.m_mode with
  | .Inactive => some s1
  | .Read =>
    if lastMode = PsgMode.Inactive then
      (s1.Read s1.m_latchedAddress).map (fun value => { s1 with m_DA := value })
    else some s1
  | .Write =>
    if lastMode = PsgMode.Inactive then s1.Write s1.m_latchedAddress s1.m_DA
    else some s1
  | .LatchAddress =>
    if lastMode = PsgMode.Inactive then
      some { s1 with m_latchedAddress := ReadBits s1.m_DA 0b1111 }
    else some s1

/-- The generator clocking of `Psg::Clock` (lines 225-232): "clock generators
every 16 input clocks". -/
def clockGenerators (s : Psg) : Psg :=
  let r := s.m_masterDivider.Clock
  if r.1 then
    { s with
      m_masterDivider := r.2
      m_toneGenerators := fun i => (s.m_toneGenerators i).Clock
      m_noiseGenerator := s.m_noiseGenerator.Clock
      m_envelopeGenerator := s.m_envelopeGenerator.Clock }
  else { s with m_masterDivider := r.2 }

/-- Member `Psg::Clock`: the mode handling, then the generator clocking. -/
def Clock (s : Psg) : Option Psg := s.clockBus.map clockGenerators

/-- Member `Psg::Update`: the loop calls `Clock` once per cycle. -/
def Update : Psg → Nat → Option Psg
  | s, 0 => some s
  | s, cycles + 1 => s.Clock.bind (fun s1 => Update s1 cycles)

/-- Member `Psg::Sample`: the loop adds the sample of each channel (channel i
was constructed with tone generator i and the shared noise and envelope
generators) to the float accumulator `sample`, which starts at `0.f`, and
`sample /= 3.f` divides it by 3; each addition and the division are float
operations, so each is rounded. -/
def Sample (s : Psg) : ℚ :=
  let sample := ([0, 1, 2] : List (Fin 3)).foldl
    (fun acc i => Float32.round (acc + (s.m_channels i).Sample (s.m_toneGenerators i)
      s.m_noiseGenerator s.m_envelopeGenerator)) 0
  Float32.round (sample / 3)

end Psg

/-- The addresses whose register lives in the backing array only: the mixer,
the three amplitude registers and the two I/O ports. -/
def backedAddresses : List Nat := [7, 8, 9, 10, 14, 15]

/-! ## Bus scripts -/

namespace Psg

/-- One tick with the control lines driven to the given levels: `SetBDIR`,
`SetBC1`, then `Update(1)`. -/
def tick (s : Psg) (BDIR BC1 : Bool) : Option Psg :=
  ((s.SetBDIR BDIR).SetBC1 BC1).Update 1

/-- The bus script WriteDA(a); one tick in LatchAddress; one tick in Inactive;
WriteDA(v); one tick in Write; one tick in Inactive; one tick in Read; ReadDA().
The result is the value of the final ReadDA(). -/
def writeReadScript (s : Psg) (a v : Nat) : Option Nat :=
  ((s.WriteDA a).tick true true).bind fun s1 =>
  (s1.tick false false).bind fun s2 =>
  ((s2.WriteDA v).tick true false).bind fun s3 =>
  (s3.tick false false).bind fun s4 =>
  (s4.tick false true).bind fun s5 =>
  some s5.ReadDA.1

/-- The write part of that bus script: WriteDA(a); one tick in LatchAddress;
one tick in Inactive; WriteDA(v); one tick in Write; one tick in Inactive.
The result is the chip after the last tick. -/
def writeScript (s : Psg) (a v : Nat) : Option Psg :=
  ((s.WriteDA a).tick true true).bind fun s1 =>
  (s1.tick false false).bind fun s2 =>
  ((s2.WriteDA v).tick true false).bind fun s3 =>
  s3.tick false false

/-- The bus script with DA overwritten before the read: the write part, then
WriteDA(w); one tick in Read; ReadDA().  The result is the value of the final
ReadDA(). -/
def writeOverwriteReadScript (s : Psg) (a v w : Nat) : Option Nat :=
  (s.writeScript a v).bind fun s4 =>
  ((s4.WriteDA w).tick false true).bind fun s5 =>
  some s5.ReadDA.1

end Psg

/-- The operations of the public interface other than `Update`. -/
inductive HostOp where
  | WriteDA (value : Nat)
  | ReadDA
  | Sample
  | Reset
  | Init
  | SetBDIR (enable : Bool)
  | SetBC1 (enable : Bool)

/-- The chip after an operation of the public interface.  `ReadDA` returns its
value next to the chip; `Sample` is a `const` member function and has no
other effect than its result. -/
def Psg.apply (s : Psg) : HostOp → Psg
  | .WriteDA value => s.WriteDA value
  | .ReadDA => s.ReadDA.2
  | .Sample => s
  | .Reset => s.Reset
  | .Init => s.Init
  | .SetBDIR enable => s.SetBDIR enable
  | .SetBC1 enable => s.SetBC1 enable

/-- The bus script that latches address 7 and writes 0x3E to the mixer, run on
a constructed and initialised chip: WriteDA(7); tick in LatchAddress; tick in
Inactive; WriteDA(0x3E); tick in Write; tick in Inactive. -/
def mixerScript : Option Psg :=
  ((Psg.construct.Init.WriteDA 7).tick true true).bind fun s1 =>
  (s1.tick false false).bind fun s2 =>
  ((s2.WriteDA 0x3E).tick true false).bind fun s3 =>
  s3.tick false false

/-- The instantaneous sample of channel i of the chip, `m_channels[i].Sample()`:
the channel reads tone generator i and the shared noise and envelope
generators. -/
def Psg.channelSample (s : Psg) (i : Fin 3) : ℚ :=
  (s.m_channels i).Sample (s.m_toneGenerators i) s.m_noiseGenerator s.m_envelopeGenerator

/-! ## Scripts and observations -/

/-- An operation of a host script: a bus operation, an `Update` call, or a
`Sample` call whose value is observed. -/
inductive ScriptOp where
  | WriteDA (value : Nat)
  | SetBDIR (enable : Bool)
  | SetBC1 (enable : Bool)
  | Update (cycles : Nat)
  | Sample
deriving DecidableEq

namespace Psg

/-- The chip after a script; `Sample` is `const` and leaves the chip as it
is. -/
def run : Psg → List ScriptOp → Option Psg
  | s, [] => some s
  | s, .WriteDA value :: rest => run (s.WriteDA value) rest
  | s, .SetBDIR enable :: rest => run (s.SetBDIR enable) rest
  | s, .SetBC1 enable :: rest => run (s.SetBC1 enable) rest
  | s, .Update cycles :: rest => (s.Update cycles).bind fun s1 => run s1 rest
  | s, .Sample :: rest => run s rest

/-- The sequence of values returned by the `Sample` calls of a script, in
order. -/
def samples : Psg → List ScriptOp → Option (List ℚ)
  | _, [] => some []
  | s, .WriteDA value :: rest => samples (s.WriteDA value) rest
  | s, .SetBDIR enable :: rest => samples (s.SetBDIR enable) rest
  | s, .SetBC1 enable :: rest => samples (s.SetBC1 enable) rest
  | s, .Update cycles :: rest => (s.Update cycles).bind fun s1 => samples s1 rest
  | s, .Sample :: rest => (samples s rest).map fun values => s.Sample :: values

/-- The chip without the record of diagnostics, which is not a member of the
class. -/
def clearLog (s : Psg) : Psg := { s with undefinedLog := [] }

end Psg

/-- Prior activity on a constructed and initialised chip: latch address 8. -/
def latchAmplitudeA : List ScriptOp :=
  [.WriteDA 8, .SetBDIR true, .SetBC1 true, .Update 1,
   .SetBDIR false, .SetBC1 false, .Update 1]

/-- Prior activity on a constructed and initialised chip: latch address 8 and
write 0x0F (channel A, Fixed mode, volume 15), then release the lines. -/
def writeAmplitudeA : List ScriptOp :=
  latchAmplitudeA ++ [.WriteDA 0x0F, .SetBDIR true, .Update 1, .SetBDIR false, .Update 1]

/-- A bus write with no address latch before it: DA = 0x0F, one tick in Write,
one tick in Inactive. -/
def writeWithoutLatch : List ScriptOp :=
  [.WriteDA 0x0F, .SetBDIR true, .SetBC1 false, .Update 1, .SetBDIR false, .Update 1]

/-! ## Generator clocking -/

/-- The five generators, named in the order in which `Psg::Clock` clocks them
(lines 227-231). -/
inductive GeneratorId where
  | ToneA
  | ToneB
  | ToneC
  | Noise
  | Envelope
deriving DecidableEq, Repr

/-- The order of the calls in the body of `if (m_masterDivider.Clock())`. -/
def generatorClockOrder : List GeneratorId :=
  [.ToneA, .ToneB, .ToneC, .Noise, .Envelope]

namespace Psg

/-- One `Clock()` call on one generator of the chip. -/
def clockGenerator (s : Psg) : GeneratorId → Psg
  | .ToneA => s.setToneGenerator 0 (s.m_toneGenerators 0).Clock
  | .ToneB => s.setToneGenerator 1 (s.m_toneGenerators 1).Clock
  | .ToneC => s.setToneGenerator 2 (s.m_toneGenerators 2).Clock
  | .Noise => { s with m_noiseGenerator := s.m_noiseGenerator.Clock }
  | .Envelope => { s with m_envelopeGenerator := s.m_envelopeGenerator.Clock }

/-- Whether the clock step taken from this state clocks the generators: the
result of `m_masterDivider.Clock()`. -/
def clocksGenerators (s : Psg) : Bool := s.m_masterDivider.Clock.1

/-- A run of ticks, one pair of control-line levels (BDIR, BC1) per tick.  The
result is the final chip and the number of ticks on which the generators were
clocked. -/
def runTicks : Psg → List (Bool × Bool) → Option (Psg × Nat)
  | s, [] => some (s, 0)
  | s, lines :: rest =>
    (s.tick lines.1 lines.2).bind fun s1 =>
      (runTicks s1 rest).map fun r => (r.1, r.2 + (if s.clocksGenerators then 1 else 0))

end Psg

/-! ## Counting toggles -/

/-- The number of clocks, among the first n clocks of a tone generator, on
which its output level flips. -/
def ToneGenerator.toggles : ToneGenerator → Nat → Nat
  | _, 0 => 0
  | g, n + 1 => (if g.Clock.m_value = g.m_value then 0 else 1) + toggles g.Clock n

/-! ## The one-shot decay envelope -/

/-- The envelope generator with period P and a shape with continue = 0 and
attack = 0, at the start of step j of its ramp: the counter has just been
reloaded and the level is 15 - j. -/
def EnvelopeGenerator.decayPhase (P shape j : Nat) : EnvelopeGenerator :=
  { m_period := P, m_shape := shape, m_counter := P, m_step := j,
    m_holding := false, m_value := 15 - j }

/-- The envelope generator with period P and a shape with continue = 0 and
attack = 0 at the moment its single pass completes: it holds at level 0. -/
def EnvelopeGenerator.decayHeld (P shape : Nat) : EnvelopeGenerator :=
  { m_period := P, m_shape := shape, m_counter := P, m_step := 16,
    m_holding := true, m_value := 0 }

/-! ## Reachable states -/

/-- The addresses whose register is the state of a generator: the six tone
period registers, the noise period, the two envelope period registers and the
envelope shape. -/
def generatorAddresses : List Nat := [0, 1, 2, 3, 4, 5, 6, 11, 12, 13]

/-- The states reachable from a start state by the operations of the public
interface: WriteDA, ReadDA, Sample, Reset, Init, the control-line setters, and
`Update` calls that return. -/
inductive Psg.ReachableFrom (start : Psg) : Psg → Prop where
  | start : Psg.ReachableFrom start start
  | apply {s : Psg} (op : HostOp) :
      Psg.ReachableFrom start s → Psg.ReachableFrom start (s.apply op)
  | update {s t : Psg} (cycles : Nat) :
      Psg.ReachableFrom start s → s.Update cycles = some t → Psg.ReachableFrom start t

/-! ## The end-to-end tone scenario -/

/-- The bus script of one register write: WriteDA(address); one tick in
LatchAddress; one tick in Inactive; WriteDA(value); one tick in Write; one
tick in Inactive. -/
def writeRegisterScript (address value : Nat) : List ScriptOp :=
  [.WriteDA address, .SetBDIR true, .SetBC1 true, .Update 1,
   .SetBDIR false, .SetBC1 false, .Update 1,
   .WriteDA value, .SetBDIR true, .Update 1, .SetBDIR false, .Update 1]

/-- A chip whose stored mode is Read, with DA = 0x42, latched address 7 and the
control lines selecting Write. -/
def exampleHeldRead : Psg :=
  { Psg.construct with
    m_mode := PsgMode.Read, m_DA := 0x42, m_latchedAddress := 7,
    m_BDIR := true, m_BC1 := false }

/-- A chip whose stored mode is Inactive, with DA = 0xA7 and the control lines
selecting LatchAddress. -/
def exampleLatch : Psg :=
  { Psg.construct with m_DA := 0xA7, m_BDIR := true, m_BC1 := true }

/-- The chip `exampleLatch` one clock step later: the latched address is 7. -/
def exampleLatched : Psg :=
  Psg.clockGenerators
    { exampleLatch with m_mode := PsgMode.LatchAddress, m_latchedAddress := 7 }

/-- A chip with latched address 7 (the mixer register). -/
def exampleMixer : Psg := { Psg.construct with m_latchedAddress := 7 }

/-- A chip with latched address 9 (the amplitude register of channel B). -/
def exampleAmplitudeB : Psg := { Psg.construct with m_latchedAddress := 9 }

/-- A chip in Inactive mode with latched address 8, backing register 8 holding
0x1F, and the control lines selecting Read. -/
def exampleRead : Psg :=
  { Psg.construct with
    m_latchedAddress := 8, m_BC1 := true,
    m_registers := fun i => if i = 8 then 0x1F else 0 }

/-- A chip with latched address 5 whose stored mode is Write and whose control
lines select Read. -/
def exampleBusy : Psg :=
  { Psg.construct with
    m_mode := PsgMode.Write, m_latchedAddress := 5, m_DA := 0x33, m_BC1 := true }

/-- A chip that differs from a constructed one in the stored mode, DA, the
backing registers, the master divider, the noise generator and the
diagnostics, but not in the channel settings, latched address or lines. -/
def exampleDirty : Psg :=
  { Psg.construct with
    m_mode := PsgMode.Write, m_DA := 0x55, m_registers := fun _ => 7,
    m_masterDivider := { m_time := 5 },
    m_noiseGenerator := { m_period := 3, m_counter := 2, m_shiftRegister := 0x1234 },
    undefinedLog := ["Not supporting I/O ports on PSG"] }

/-- A chip with latched address 1 whose backing array holds 0x7F everywhere and
whose tone generator A has period 0x123. -/
def exampleToneHigh : Psg :=
  { Psg.construct with
    m_latchedAddress := 1, m_registers := fun _ => 0x7F,
    m_toneGenerators := fun _ => { m_period := 0x123 } }

/-- A chip with latched address 8 whose mixer has enabled tone and noise on
every channel, whose tone generator A outputs 1, and whose noise generator is
the default one after one clock (its output bit is 0). -/
def exampleNoiseLow : Psg :=
  { Psg.construct with
    m_latchedAddress := 8,
    m_channels := fun _ => { m_toneEnabled := true, m_noiseEnabled := true },
    m_toneGenerators := fun _ => { m_value := true },
    m_noiseGenerator := ({} : NoiseGenerator).Clock }

/-- The chip `exampleMixer` (latched address 7) with the tone generator of
channel B outputting 1; the default noise generator outputs 1. -/
def exampleToneB : Psg :=
  { exampleMixer with m_toneGenerators := fun _ => { m_value := true } }

/-- A tone generator with period 3 whose counter has just been reloaded. -/
def exampleTone3 : ToneGenerator := { m_period := 3, m_counter := 3, m_value := true }

/-- An envelope generator with period 1 right after a write of shape 0
(continue = 0, attack = 0). -/
def exampleDecay1 : EnvelopeGenerator := ({ m_period := 1 } : EnvelopeGenerator).SetShape 0

/-- An envelope generator with period 3, in the middle of other activity. -/
def exampleEnvelopeBusy : EnvelopeGenerator :=
  { m_period := 3, m_shape := 13, m_counter := 2, m_step := 7, m_holding := false,
    m_value := 7 }

/-- A chip with latched address 7 whose backing mixer register holds 0x3F and
whose channel A has its tone enabled, its noise disabled, its tone override
set, and is in Envelope mode with fixed volume 9. -/
def exampleConfigured : Psg :=
  { Psg.construct with
    m_latchedAddress := 7, m_DA := 0x3F, m_mode := PsgMode.Write,
    m_registers := fun i => if i = 7 then 0x3F else 0,
    m_channels := fun i =>
      if i = 0 then
        { m_toneEnabled := true, m_noiseEnabled := false, OverrideToneEnabled := true,
          OverrideNoiseEnabled := false,
          m_amplitudeControl := { m_mode := AmplitudeMode.Envelope, m_fixedVolume := 9 } }
      else { m_toneEnabled := false, m_noiseEnabled := true } }

/-- A chip whose channels A and B are at Fixed volume 15 with nothing enabled
and whose channel C is as constructed. -/
def exampleLoud : Psg :=
  { Psg.construct with
    m_channels := fun i =>
      if i = 2 then {} else { m_amplitudeControl := { m_fixedVolume := 15 } } }

/-! ## Basic facts -/

/-! ### Float rounding -/

set_option maxRecDepth 100000 in
/-- The float nearest to 1/3 is 11184811 * 2^-25. -/
theorem roundUnits_third : Float32.roundUnits (1 * 2 ^ 149) 3 = 11184811 * 2 ^ 124 := by decide

set_option maxRecDepth 100000 in
theorem roundUnits_one : Float32.roundUnits (1 * 2 ^ 149) 1 = 2 ^ 149 := by decide

set_option maxRecDepth 100000 in
theorem roundUnits_fifteen : Float32.roundUnits (15 * 2 ^ 149) 1 = 15 * 2 ^ 149 := by decide

/-- Zero is a float. -/
theorem float_round_zero : Float32.round 0 = 0 := by
  simp [Float32.round]

/-- One is a float. -/
theorem float_round_one : Float32.round 1 = 1 := by
  simp only [Float32.round, Rat.num_one, Rat.den_one, Int.sign_one, Int.natAbs_one,
    roundUnits_one]
  norm_num

/-- Fifteen is a float. -/
theorem float_round_fifteen : Float32.round 15 = 15 := by
  have hn : (15 : ℚ).num = 15 := rfl
  have hd : (15 : ℚ).den = 1 := rfl
  have hs : Int.sign 15 = 1 := rfl
  have ha : Int.natAbs 15 = 15 := rfl
  simp only [Float32.round, hn, hd]
  rw [hs, ha, roundUnits_fifteen]
  norm_num

/-- One third is not a float: the nearest float is 11184811 / 2^25. -/
theorem float_round_third : Float32.round (1 / 3) = 11184811 / 33554432 := by
  have hn : (1 / 3 : ℚ).num = 1 := by norm_num
  have hd : (1 / 3 : ℚ).den = 3 := by norm_num
  simp only [Float32.round, hn, hd, Int.sign_one, Int.natAbs_one, roundUnits_third]
  norm_num

theorem float_round_third_inv : Float32.round 3⁻¹ = 11184811 / 33554432 := by
  rw [← one_div]
  exact float_round_third

set_option maxRecDepth 100000 in
theorem roundUnits_tenth : Float32.roundUnits (1 * 2 ^ 149) 10 = 13421773 * 2 ^ 122 := by decide

set_option maxRecDepth 100000 in
theorem roundUnits_tie_down :
    Float32.roundUnits (16777217 * 2 ^ 149) 1 = 16777216 * 2 ^ 149 := by decide

set_option maxRecDepth 100000 in
theorem roundUnits_tie_up :
    Float32.roundUnits (16777219 * 2 ^ 149) 1 = 16777220 * 2 ^ 149 := by decide

/-- Known values of the rounding: the float written 0.1f is 13421773 / 2^27,
and the integers 2^24 + 1 and 2^24 + 3, each halfway between two floats, go to
the neighbour with the even significand. -/
theorem float_round_known_values :
    Float32.round (1 / 10) = 13421773 / 134217728
      ∧ Float32.round 16777217 = 16777216
      ∧ Float32.round 16777219 = 16777220 := by
  refine ⟨?_, ?_, ?_⟩
  · have hn : (1 / 10 : ℚ).num = 1 := by norm_num
    have hd : (1 / 10 : ℚ).den = 10 := by norm_num
    simp only [Float32.round, hn, hd, Int.sign_one, Int.natAbs_one, roundUnits_tenth]
    norm_num
  · have hn : (16777217 : ℚ).num = 16777217 := rfl
    have hd : (16777217 : ℚ).den = 1 := rfl
    have hs : Int.sign 16777217 = 1 := rfl
    have ha : Int.natAbs 16777217 = 16777217 := rfl
    simp only [Float32.round, hn, hd]
    rw [hs, ha, roundUnits_tie_down]
    norm_num
  · have hn : (16777219 : ℚ).num = 16777219 := rfl
    have hd : (16777219 : ℚ).den = 1 := rfl
    have hs : Int.sign 16777219 = 1 := rfl
    have ha : Int.natAbs 16777219 = 16777219 := rfl
    simp only [Float32.round, hn, hd]
    rw [hs, ha, roundUnits_tie_up]
    norm_num

set_option maxRecDepth 100000 in
theorem roundUnits_two : Float32.roundUnits (2 * 2 ^ 149) 1 = 2 * 2 ^ 149 := by decide

set_option maxRecDepth 100000 in
theorem roundUnits_two_thirds :
    Float32.roundUnits (2 * 2 ^ 149) 3 = 11184811 * 2 ^ 125 := by decide

/-- Two is a float. -/
theorem float_round_two : Float32.round 2 = 2 := by
  have hn : (2 : ℚ).num = 2 := rfl
  have hd : (2 : ℚ).den = 1 := rfl
  have hs : Int.sign 2 = 1 := rfl
  have ha : Int.natAbs 2 = 2 := rfl
  simp only [Float32.round, hn, hd]
  rw [hs, ha, roundUnits_two]
  norm_num

/-- Two thirds is not a float: the nearest float is 11184811 / 2^24. -/
theorem float_round_two_thirds : Float32.round (2 / 3) = 11184811 / 16777216 := by
  have hn : (2 / 3 : ℚ).num = 2 := by norm_num
  have hd : (2 / 3 : ℚ).den = 3 := by norm_num
  have hs : Int.sign 2 = 1 := rfl
  have ha : Int.natAbs 2 = 2 := rfl
  simp only [Float32.round, hn, hd]
  rw [hs, ha, roundUnits_two_thirds]
  norm_num

theorem halvings_le (fuel : Nat) :
    ∀ q k : Nat, q < 2 ^ (24 + k) → Float32.halvings fuel q ≤ k := by
  induction fuel with
  | zero => intro q k _; simp [Float32.halvings]
  | succ n ih =>
    intro q k h
    unfold Float32.halvings
    by_cases hq : q < 2 ^ 24
    · rw [if_pos hq]
      exact Nat.zero_le _
    · rw [if_neg hq]
      cases k with
      | zero => exact absurd h hq
      | succ k =>
        have h2 : q / 2 < 2 ^ (24 + k) := by
          rw [Nat.div_lt_iff_lt_mul (by norm_num)]
          calc q < 2 ^ (24 + (k + 1)) := h
            _ = 2 ^ (24 + k) * 2 := by rw [← Nat.add_assoc, Nat.pow_succ]
        exact Nat.succ_le_succ (ih _ _ h2)

/-- Rounding to the nearest multiple of d is off by at most d / 2. -/
theorem roundHalfEven_err (a d : Nat) (hd : 0 < d) :
    2 * (Float32.roundHalfEven a d * d) ≤ 2 * a + d
      ∧ 2 * a ≤ 2 * (Float32.roundHalfEven a d * d) + d := by
  have h1 := Nat.div_add_mod a d
  have h2 := Nat.mod_lt a hd
  unfold Float32.roundHalfEven
  generalize a / d = q at *
  generalize a % d = r at *
  have e : (q + 1) * d = d * q + d := by ring
  have e0 : q * d = d * q := by ring
  simp only []
  split_ifs <;> simp only [e, e0] <;> generalize d * q = p at * <;> omega

/-- Rounding does not pass a multiple of d that bounds the argument. -/
theorem roundHalfEven_le (a d m : Nat) (hd : 0 < d) (h : a ≤ m * d) :
    Float32.roundHalfEven a d ≤ m := by
  have hq : a / d ≤ m := Nat.div_le_of_le_mul (by rw [Nat.mul_comm]; exact h)
  have h1 := Nat.div_add_mod a d
  unfold Float32.roundHalfEven
  simp only []
  rcases Nat.lt_or_ge (a / d) m with hlt | hge
  · split_ifs <;> omega
  · have hqm : a / d = m := Nat.le_antisymm hq hge
    have hr : a % d = 0 := by
      rw [hqm] at h1
      have : d * m = m * d := Nat.mul_comm _ _
      omega
    simp [hr, hd, hqm]

theorem roundUnits_le (a b c : Nat) (hb : 0 < b) (hc : c < 2 ^ 24)
    (h : a ≤ c * 2 ^ 149 * b) : Float32.roundUnits a b ≤ c * 2 ^ 149 := by
  have hq : a / b ≤ c * 2 ^ 149 := Nat.div_le_of_le_mul (by rw [Nat.mul_comm]; exact h)
  have hq2 : a / b < 2 ^ (24 + 149) := by
    calc a / b ≤ c * 2 ^ 149 := hq
      _ < 2 ^ 24 * 2 ^ 149 := Nat.mul_lt_mul_of_pos_right hc (by positivity)
      _ = 2 ^ (24 + 149) := (Nat.pow_add 2 24 149).symm
  have hs := halvings_le (a / b) (a / b) 149 hq2
  unfold Float32.roundUnits
  simp only []
  generalize Float32.halvings (a / b) (a / b) = s at hs
  have hK : c * 2 ^ 149 = c * 2 ^ (149 - s) * 2 ^ s := by
    rw [Nat.mul_assoc, ← Nat.pow_add, Nat.sub_add_cancel hs]
  rw [hK]
  apply Nat.mul_le_mul_right
  apply roundHalfEven_le _ _ _ (by positivity)
  calc a ≤ c * 2 ^ 149 * b := h
    _ = c * 2 ^ (149 - s) * (b * 2 ^ s) := by rw [hK]; ring

theorem roundUnits_err (a b k : Nat) (hb : 0 < b) (hq : a / b < 2 ^ (24 + k)) :
    2 * (Float32.roundUnits a b * b) ≤ 2 * a + b * 2 ^ k
      ∧ 2 * a ≤ 2 * (Float32.roundUnits a b * b) + b * 2 ^ k := by
  have hs := halvings_le (a / b) (a / b) k hq
  unfold Float32.roundUnits
  simp only []
  generalize Float32.halvings (a / b) (a / b) = s at hs
  have hd : 0 < b * 2 ^ s := by positivity
  obtain ⟨e1, e2⟩ := roundHalfEven_err a (b * 2 ^ s) hd
  have hle : b * 2 ^ s ≤ b * 2 ^ k :=
    Nat.mul_le_mul_left _ (Nat.pow_le_pow_right (by norm_num) hs)
  have e : Float32.roundHalfEven a (b * 2 ^ s) * 2 ^ s * b
      = Float32.roundHalfEven a (b * 2 ^ s) * (b * 2 ^ s) := by ring
  rw [e]
  omega

theorem float_round_cast (x : ℚ) :
    Float32.round x = (Int.sign x.num : ℚ)
      * ((Float32.roundUnits (x.num.natAbs * 2 ^ 149) x.den : ℕ) : ℚ) / 2 ^ 149 := by
  simp only [Float32.round]
  push_cast
  rfl

theorem rat_sign_natAbs (x : ℚ) :
    x = (Int.sign x.num : ℚ) * ((x.num.natAbs : ℕ) : ℚ) / (x.den : ℚ) := by
  have h1 : (Int.sign x.num : ℚ) * ((x.num.natAbs : ℕ) : ℚ) = (x.num : ℚ) := by
    rw [Nat.cast_natAbs]
    exact_mod_cast Int.sign_mul_abs x.num
  rw [h1]
  exact (Rat.num_div_den x).symm

theorem rat_abs_natAbs (x : ℚ) : |x| = ((x.num.natAbs : ℕ) : ℚ) / (x.den : ℚ) := by
  rw [Rat.abs_def, Rat.divInt_eq_div, @Nat.cast_natAbs ℚ _ x.num]
  push_cast
  rfl

theorem sign_cast_abs_le (n : ℤ) : |(Int.sign n : ℚ)| ≤ 1 := by
  rcases lt_trichotomy n 0 with hn | hn | hn
  · rw [Int.sign_eq_neg_one_of_neg hn]; norm_num
  · rw [hn]; norm_num
  · rw [Int.sign_eq_one_of_pos hn]; norm_num

/-- Rounding stays within an integer bound below 2^24 (such a bound is itself
a float). -/
theorem float_round_abs_le (x : ℚ) (c : ℕ) (hc : c < 2 ^ 24) (h : |x| ≤ c) :
    |Float32.round x| ≤ c := by
  have hden : (0 : ℚ) < x.den := by exact_mod_cast x.den_pos
  rw [rat_abs_natAbs, div_le_iff₀ hden] at h
  have hnat : x.num.natAbs ≤ c * x.den := by exact_mod_cast h
  have hU := roundUnits_le (x.num.natAbs * 2 ^ 149) x.den c x.den_pos hc (by
    calc x.num.natAbs * 2 ^ 149 ≤ c * x.den * 2 ^ 149 := Nat.mul_le_mul_right _ hnat
      _ = c * 2 ^ 149 * x.den := by ring)
  have hUq : ((Float32.roundUnits (x.num.natAbs * 2 ^ 149) x.den : ℕ) : ℚ) ≤ c * 2 ^ 149 := by
    exact_mod_cast hU
  rw [float_round_cast, mul_div_assoc, abs_mul]
  have hs := sign_cast_abs_le x.num
  have hnn : (0 : ℚ)
      ≤ ((Float32.roundUnits (x.num.natAbs * 2 ^ 149) x.den : ℕ) : ℚ) / 2 ^ 149 := by
    positivity
  rw [abs_of_nonneg hnn]
  have hle : ((Float32.roundUnits (x.num.natAbs * 2 ^ 149) x.den : ℕ) : ℚ) / 2 ^ 149 ≤ c := by
    rw [div_le_iff₀ (by positivity)]
    exact hUq
  calc |(Int.sign x.num : ℚ)| * _ ≤ 1 * _ := mul_le_mul_of_nonneg_right hs hnn
    _ ≤ c := by rw [one_mul]; exact hle

/-- Rounding a rational of magnitude at most 3 moves it by at most 2^-23 (half
the spacing of the floats between 2 and 4). -/
theorem float_round_err (x : ℚ) (h : |x| ≤ 3) : |Float32.round x - x| ≤ 1 / 2 ^ 23 := by
  have hden : (0 : ℚ) < x.den := by exact_mod_cast x.den_pos
  rw [rat_abs_natAbs, div_le_iff₀ hden] at h
  have hnat : x.num.natAbs ≤ 3 * x.den := by exact_mod_cast h
  have hq : x.num.natAbs * 2 ^ 149 / x.den < 2 ^ (24 + 127) := by
    have : x.num.natAbs * 2 ^ 149 / x.den ≤ 3 * 2 ^ 149 := Nat.div_le_of_le_mul (by
      calc x.num.natAbs * 2 ^ 149 ≤ 3 * x.den * 2 ^ 149 := Nat.mul_le_mul_right _ hnat
        _ = x.den * (3 * 2 ^ 149) := by ring)
    exact lt_of_le_of_lt this (by norm_num)
  obtain ⟨e1, e2⟩ := roundUnits_err (x.num.natAbs * 2 ^ 149) x.den 127 x.den_pos hq
  have hx := rat_sign_natAbs x
  have key : Float32.round x - x = (Int.sign x.num : ℚ)
      * (((Float32.roundUnits (x.num.natAbs * 2 ^ 149) x.den : ℕ) : ℚ) / 2 ^ 149
          - ((x.num.natAbs : ℕ) : ℚ) / (x.den : ℚ)) := by
    rw [float_round_cast]
    linear_combination (-1 : ℚ) * hx
  rw [key, abs_mul]
  generalize Float32.roundUnits (x.num.natAbs * 2 ^ 149) x.den = U at e1 e2
  have f1 : (2 : ℚ) * ((U : ℚ) * x.den)
      ≤ 2 * ((x.num.natAbs : ℚ) * 2 ^ 149) + x.den * 2 ^ 127 := by
    exact_mod_cast e1
  have f2 : (2 : ℚ) * ((x.num.natAbs : ℚ) * 2 ^ 149)
      ≤ 2 * ((U : ℚ) * x.den) + x.den * 2 ^ 127 := by
    exact_mod_cast e2
  have hE : |(U : ℚ) / 2 ^ 149 - ((x.num.natAbs : ℕ) : ℚ) / (x.den : ℚ)| ≤ 1 / 2 ^ 23 := by
    rw [div_sub_div _ _ (by positivity) (ne_of_gt hden), abs_le]
    constructor
    · rw [le_div_iff₀ (by positivity)]
      nlinarith
    · rw [div_le_iff₀ (by positivity)]
      nlinarith
  calc |(Int.sign x.num : ℚ)| * _ ≤ 1 * _ :=
        mul_le_mul_of_nonneg_right (sign_cast_abs_le x.num) (abs_nonneg _)
    _ ≤ 1 / 2 ^ 23 := by rw [one_mul]; exact hE

/-- The float volume of a channel at level 15 is 1, and at level 0 it is 0. -/
theorem float_volume_full : Float32.round (Float32.round ((15 : Nat) : ℚ) / 15) = 1 := by
  have h : ((15 : Nat) : ℚ) = 15 := by norm_num
  rw [h, float_round_fifteen]
  norm_num
  exact float_round_one

theorem float_volume_zero : Float32.round (Float32.round ((0 : Nat) : ℚ) / 15) = 0 := by
  have h : ((0 : Nat) : ℚ) = 0 := by norm_num
  rw [h, float_round_zero]
  norm_num
  exact float_round_zero

theorem clockGenerators_bus (s : Psg) :
    (s.clockGenerators).m_mode = s.m_mode ∧ (s.clockGenerators).m_DA = s.m_DA
      ∧ (s.clockGenerators).m_latchedAddress = s.m_latchedAddress
      ∧ (s.clockGenerators).m_registers = s.m_registers
      ∧ (s.clockGenerators).m_channels = s.m_channels
      ∧ (s.clockGenerators).undefinedLog = s.undefinedLog
      ∧ (s.clockGenerators).m_BDIR = s.m_BDIR ∧ (s.clockGenerators).m_BC1 = s.m_BC1 := by
  cases h : s.m_masterDivider.Clock.1 <;> simp [Psg.clockGenerators, h]

theorem ModeFromBDIRandBC1_table :
    ModeFromBDIRandBC1 false false = PsgMode.Inactive
      ∧ ModeFromBDIRandBC1 false true = PsgMode.Read
      ∧ ModeFromBDIRandBC1 true false = PsgMode.Write
      ∧ ModeFromBDIRandBC1 true true = PsgMode.LatchAddress := by
  decide

theorem setRegister_eq_some (s t : Psg) (address value : Nat) :
    s.setRegister address value = some t ↔
      ∃ h : address < 16,
        t = { s with m_registers := Function.update s.m_registers ⟨address, h⟩ value } := by
  unfold Psg.setRegister
  by_cases h : address < 16
  · simp only [h, dite_true, Option.some.injEq, exists_true_left]
    exact eq_comm
  · simp [h]

/-- The mixer case touches the channels and the diagnostics only. -/
theorem writeMixer_frame (s : Psg) (value : Nat) :
    (s.writeMixer value).m_mode = s.m_mode
      ∧ (s.writeMixer value).m_latchedAddress = s.m_latchedAddress
      ∧ (s.writeMixer value).m_DA = s.m_DA
      ∧ (s.writeMixer value).m_BDIR = s.m_BDIR ∧ (s.writeMixer value).m_BC1 = s.m_BC1
      ∧ (s.writeMixer value).m_registers = s.m_registers := by
  by_cases h : ReadBits value 0b11000000 = 0 <;>
    simp [Psg.writeMixer, Psg.setChannel, ErrorHandler.Undefined, h]

/-- The amplitude case touches the channels only. -/
theorem writeAmplitude_frame (s : Psg) (index : Fin 3) (value : Nat) :
    (s.writeAmplitude index value).m_mode = s.m_mode
      ∧ (s.writeAmplitude index value).m_latchedAddress = s.m_latchedAddress
      ∧ (s.writeAmplitude index value).m_DA = s.m_DA
      ∧ (s.writeAmplitude index value).m_BDIR = s.m_BDIR
      ∧ (s.writeAmplitude index value).m_BC1 = s.m_BC1
      ∧ (s.writeAmplitude index value).m_registers = s.m_registers
      ∧ (s.writeAmplitude index value).undefinedLog = s.undefinedLog := by
  simp [Psg.writeAmplitude, Psg.setChannel]

/-- A register write changes neither the mode, nor the latched address, nor DA,
nor the control lines. -/
theorem Write_frame (s t : Psg) (address value : Nat) (h : s.Write address value = some t) :
    t.m_mode = s.m_mode ∧ t.m_latchedAddress = s.m_latchedAddress ∧ t.m_DA = s.m_DA
      ∧ t.m_BDIR = s.m_BDIR ∧ t.m_BC1 = s.m_BC1 := by
  unfold Psg.Write at h
  split at h
  all_goals first
    | (cases h; simp [Psg.setToneGenerator])
    | (obtain ⟨_, ht⟩ := (setRegister_eq_some _ _ _ _).mp h
       subst ht
       first
         | (obtain ⟨h1, h2, h3, h4, h5, _⟩ := writeMixer_frame s value
            exact ⟨h1, h2, h3, h4, h5⟩)
         | exact ⟨rfl, rfl, rfl, rfl, rfl⟩)
    | exact absurd h (by simp)

/-- When the stored mode is not Inactive, the mode handling of a clock step
only stores the new mode. -/
theorem clockBus_of_not_inactive (s : Psg) (h : s.m_mode ≠ PsgMode.Inactive) :
    s.clockBus = some { s with m_mode := ModeFromBDIRandBC1 s.m_BDIR s.m_BC1 } := by
  unfold Psg.clockBus
  cases hm : ModeFromBDIRandBC1 s.m_BDIR s.m_BC1 <;> simp [hm, h]

theorem Update_one (s : Psg) : s.Update 1 = s.Clock := by
  cases h : s.Clock <;> simp [Psg.Update, h]

theorem Update_succ (s : Psg) (n : Nat) :
    s.Update (n + 1) = s.Clock.bind (fun s1 => s1.Update n) := rfl

/-- A clock step from a stored mode other than Inactive: the result exists and
keeps the bus state; its stored mode is the one the control lines select. -/
theorem Clock_of_not_inactive (s : Psg) (h : s.m_mode ≠ PsgMode.Inactive) :
    ∃ s1, s.Clock = some s1 ∧ s1.m_mode = ModeFromBDIRandBC1 s.m_BDIR s.m_BC1
      ∧ s1.m_BDIR = s.m_BDIR ∧ s1.m_BC1 = s.m_BC1
      ∧ s1.m_DA = s.m_DA ∧ s1.m_latchedAddress = s.m_latchedAddress
      ∧ s1.m_registers = s.m_registers ∧ s1.m_channels = s.m_channels
      ∧ s1.undefinedLog = s.undefinedLog := by
  refine ⟨_, by rw [Psg.Clock, clockBus_of_not_inactive s h]; rfl, ?_⟩
  obtain ⟨h1, h2, h3, h4, h5, h6, h7, h8⟩ :=
    clockGenerators_bus { s with m_mode := ModeFromBDIRandBC1 s.m_BDIR s.m_BC1 }
  exact ⟨h1, h7, h8, h2, h3, h4, h5, h6⟩

/-- A clock step whose control lines select Inactive: the result exists and
keeps the bus state, whatever the stored mode. -/
theorem Clock_of_lines_inactive (s : Psg)
    (h : ModeFromBDIRandBC1 s.m_BDIR s.m_BC1 = PsgMode.Inactive) :
    ∃ s1, s.Clock = some s1 ∧ s1.m_mode = PsgMode.Inactive
      ∧ s1.m_BDIR = s.m_BDIR ∧ s1.m_BC1 = s.m_BC1
      ∧ s1.m_DA = s.m_DA ∧ s1.m_latchedAddress = s.m_latchedAddress
      ∧ s1.m_registers = s.m_registers ∧ s1.m_channels = s.m_channels
      ∧ s1.undefinedLog = s.undefinedLog := by
  have hb : s.clockBus = some { s with m_mode := PsgMode.Inactive } := by
    simp [Psg.clockBus, h]
  refine ⟨_, by rw [Psg.Clock, hb]; rfl, ?_⟩
  obtain ⟨h1, h2, h3, h4, h5, h6, h7, h8⟩ :=
    clockGenerators_bus { s with m_mode := PsgMode.Inactive }
  exact ⟨h1, h7, h8, h2, h3, h4, h5, h6⟩

/-- With the control lines held fixed, any number of clock steps keeps the bus
state as long as no step goes from Inactive into another mode. -/
theorem Update_held (k : Nat) : ∀ s : Psg,
    (s.m_mode ≠ PsgMode.Inactive ∨ ModeFromBDIRandBC1 s.m_BDIR s.m_BC1 = PsgMode.Inactive) →
    ∃ s1, s.Update k = some s1 ∧ s1.m_DA = s.m_DA
      ∧ s1.m_latchedAddress = s.m_latchedAddress
      ∧ s1.m_registers = s.m_registers ∧ s1.m_channels = s.m_channels
      ∧ s1.undefinedLog = s.undefinedLog := by
  induction k with
  | zero => intro s _; exact ⟨s, rfl, rfl, rfl, rfl, rfl, rfl⟩
  | succ n ih =>
    intro s h
    have step : ∃ s1, s.Clock = some s1 ∧ s1.m_mode = ModeFromBDIRandBC1 s.m_BDIR s.m_BC1
        ∧ s1.m_BDIR = s.m_BDIR ∧ s1.m_BC1 = s.m_BC1
        ∧ s1.m_DA = s.m_DA ∧ s1.m_latchedAddress = s.m_latchedAddress
        ∧ s1.m_registers = s.m_registers ∧ s1.m_channels = s.m_channels
        ∧ s1.undefinedLog = s.undefinedLog := by
      by_cases hl : ModeFromBDIRandBC1 s.m_BDIR s.m_BC1 = PsgMode.Inactive
      · obtain ⟨s1, hc, hm, rest⟩ := Clock_of_lines_inactive s hl
        exact ⟨s1, hc, by rw [hm, hl], rest⟩
      · exact Clock_of_not_inactive s (h.resolve_right hl)
    obtain ⟨s1, hc, hm, hb, hc1, hd, ha, hr, hch, hu⟩ := step
    have inv : s1.m_mode ≠ PsgMode.Inactive
        ∨ ModeFromBDIRandBC1 s1.m_BDIR s1.m_BC1 = PsgMode.Inactive := by
      rw [hm, hb, hc1]
      exact (em _).symm
    obtain ⟨s2, hu2, hd2, ha2, hr2, hch2, hlog2⟩ := ih s1 inv
    refine ⟨s2, by rw [Update_succ, hc]; exact hu2, ?_, ?_, ?_, ?_, ?_⟩
    · rw [hd2, hd]
    · rw [ha2, ha]
    · rw [hr2, hr]
    · rw [hch2, hch]
    · rw [hlog2, hu]

/-- The Inactive to LatchAddress step, with the stored mode of the result. -/
theorem Clock_latch_step (s : Psg) (hmode : s.m_mode = PsgMode.Inactive)
    (hlines : ModeFromBDIRandBC1 s.m_BDIR s.m_BC1 = PsgMode.LatchAddress) :
    ∃ s1, s.Clock = some s1 ∧ s1.m_mode = PsgMode.LatchAddress
      ∧ s1.m_latchedAddress = s.m_DA % 16 ∧ s1.m_DA = s.m_DA
      ∧ s1.m_registers = s.m_registers ∧ s1.m_channels = s.m_channels
      ∧ s1.undefinedLog = s.undefinedLog := by
  have hb : s.clockBus = some
      { s with m_mode := PsgMode.LatchAddress, m_latchedAddress := ReadBits s.m_DA 0b1111 } := by
    simp [Psg.clockBus, hlines, hmode]
  have hr : ReadBits s.m_DA 0b1111 = s.m_DA % 16 :=
    Nat.and_pow_two_sub_one_eq_mod s.m_DA 4
  refine ⟨_, by rw [Psg.Clock, hb]; rfl, ?_⟩
  obtain ⟨h1, h2, h3, h4, h5, h6, _, _⟩ := clockGenerators_bus
    { s with m_mode := PsgMode.LatchAddress, m_latchedAddress := ReadBits s.m_DA 0b1111 }
  exact ⟨h1, by rw [h3]; exact hr, h2, h4, h5, h6⟩

/-! ## The bus state machine -/

/-- C1 (edge-triggered bus actions): from every chip state whose stored mode is
not Inactive, and for every setting of the two control lines, one `Clock` step
returns and performs no register read, no register write and no address latch:
DA, the latched address, the 16 backing registers, the channel settings (enable
flags, amplitude mode, fixed volume) and the diagnostics are unchanged.  The
same holds for any number of further ticks with the lines held, so that a mode
held for `k + 1` ticks (the first tick leads from `s0` to `s`) leaves exactly
what its first tick left. -/
theorem Clock_edge_triggered (s : Psg) (h : s.m_mode ≠ PsgMode.Inactive) :
    (∃ s1, s.Clock = some s1 ∧ s1.m_DA = s.m_DA
        ∧ s1.m_latchedAddress = s.m_latchedAddress
        ∧ s1.m_registers = s.m_registers ∧ s1.m_channels = s.m_channels
        ∧ s1.undefinedLog = s.undefinedLog)
    ∧ (∀ k, ∃ sk, s.Update k = some sk ∧ sk.m_DA = s.m_DA
        ∧ sk.m_latchedAddress = s.m_latchedAddress
        ∧ sk.m_registers = s.m_registers ∧ sk.m_channels = s.m_channels
        ∧ sk.undefinedLog = s.undefinedLog)
    ∧ (∀ s0 : Psg, s0.Clock = some s → ∀ k, ∃ sk, s0.Update (k + 1) = some sk
        ∧ sk.m_DA = s.m_DA ∧ sk.m_latchedAddress = s.m_latchedAddress
        ∧ sk.m_registers = s.m_registers ∧ sk.m_channels = s.m_channels
        ∧ sk.undefinedLog = s.undefinedLog) := by
  refine ⟨?_, fun k => Update_held k s (Or.inl h), ?_⟩
  · obtain ⟨s1, hc, _, _, _, rest⟩ := Clock_of_not_inactive s h
    exact ⟨s1, hc, rest⟩
  · intro s0 h0 k
    obtain ⟨sk, hk, rest⟩ := Update_held k s (Or.inl h)
    exact ⟨sk, by rw [Update_succ, h0]; exact hk, rest⟩

/-- Witness of C1 at a chip holding Read while the lines select Write with
latched address 7: the step returns and DA stays 0x42. -/
theorem Clock_edge_triggered_witness :
    exampleHeldRead.m_mode ≠ PsgMode.Inactive
      ∧ ∃ s1, exampleHeldRead.Clock = some s1 ∧ s1.m_DA = 0x42
          ∧ s1.m_latchedAddress = 7 ∧ s1.m_registers = exampleHeldRead.m_registers :=
  ⟨by decide,
    match (Clock_edge_triggered exampleHeldRead (by decide)).1 with
    | ⟨s1, hc, hd, ha, hr, _, _⟩ => ⟨s1, hc, hd, ha, hr⟩⟩

/-- C2 (mode derivation): after a `Clock` step the stored mode is the image of
the two control lines sampled in that step under `ModeFromBDIRandBC1`, whatever
the rest of the state; the lambda computes the value `BDIR * 2 + BC1`, the mode
with that enumerator value, and is a bijection from the four line settings onto
the four modes: (0,0) Inactive, (0,1) Read, (1,0) Write, (1,1) LatchAddress. -/
theorem Clock_mode_derivation (s s1 : Psg) (h : s.Clock = some s1) :
    s1.m_mode = ModeFromBDIRandBC1 s.m_BDIR s.m_BC1
    ∧ (∀ BDIR BC1 : Bool,
        ModeValueFromBDIRandBC1 BDIR BC1 = BDIR.toNat * 2 + BC1.toNat
        ∧ (ModeFromBDIRandBC1 BDIR BC1).toNat = BDIR.toNat * 2 + BC1.toNat)
    ∧ ModeFromBDIRandBC1 false false = PsgMode.Inactive
    ∧ ModeFromBDIRandBC1 false true = PsgMode.Read
    ∧ ModeFromBDIRandBC1 true false = PsgMode.Write
    ∧ ModeFromBDIRandBC1 true true = PsgMode.LatchAddress
    ∧ PsgMode.Inactive.toNat = 0 ∧ PsgMode.Read.toNat = 1
    ∧ PsgMode.Write.toNat = 2 ∧ PsgMode.LatchAddress.toNat = 3
    ∧ Function.Bijective (fun p : Bool × Bool => ModeFromBDIRandBC1 p.1 p.2) := by
  refine ⟨?_, by decide, by decide, by decide, by decide, by decide,
    rfl, rfl, rfl, rfl, ?_, ?_⟩
  · unfold Psg.Clock at h
    cases hb : s.clockBus with
    | none => rw [hb] at h; exact absurd h (by simp)
    | some t =>
      rw [hb] at h
      have hs : s1 = t.clockGenerators := by simpa using h.symm
      rw [hs, (clockGenerators_bus t).1]
      unfold Psg.clockBus at hb
      revert hb
      cases hm : ModeFromBDIRandBC1 s.m_BDIR s.m_BC1 <;> simp only [hm]
      · intro hb; rw [← Option.some.inj hb]
      · split
        · intro hb
          obtain ⟨v, _, hv⟩ := Option.map_eq_some'.mp hb
          rw [← hv]
        · intro hb; rw [← Option.some.inj hb]
      · split
        · intro hb
          rw [(Write_frame _ _ _ _ hb).1]
        · intro hb; rw [← Option.some.inj hb]
      · split <;> (intro hb; rw [← Option.some.inj hb])
  · intro p q hpq
    rcases p with ⟨a, b⟩
    rcases q with ⟨c, d⟩
    revert hpq
    cases a <;> cases b <;> cases c <;> cases d <;> decide
  · intro m
    cases m
    · exact ⟨(false, false), by decide⟩
    · exact ⟨(false, true), by decide⟩
    · exact ⟨(true, false), by decide⟩
    · exact ⟨(true, true), by decide⟩

/-- Witness of C2: the clock step of `exampleLatch`, whose lines are both high,
stores LatchAddress. -/
theorem Clock_mode_derivation_witness :
    exampleLatch.Clock = some exampleLatched
      ∧ exampleLatched.m_mode = PsgMode.LatchAddress :=
  ⟨rfl, (Clock_mode_derivation exampleLatch exampleLatched rfl).1.trans (by decide)⟩

/-- C3 (address latch): from every state whose stored mode is Inactive, a
`Clock` step whose control lines select LatchAddress returns, sets the latched
address to DA mod 16 (the low 4 bits of DA, a value in 0..15) and leaves DA,
the 16 backing registers, the channel settings and the diagnostics unchanged. -/
theorem Clock_latches_address (s : Psg) (hmode : s.m_mode = PsgMode.Inactive)
    (hlines : ModeFromBDIRandBC1 s.m_BDIR s.m_BC1 = PsgMode.LatchAddress) :
    ∃ s1, s.Clock = some s1 ∧ s1.m_latchedAddress = s.m_DA % 16
      ∧ s1.m_latchedAddress < 16 ∧ s1.m_DA = s.m_DA
      ∧ s1.m_registers = s.m_registers ∧ s1.m_channels = s.m_channels
      ∧ s1.undefinedLog = s.undefinedLog := by
  obtain ⟨s1, hc, _, ha, rest⟩ := Clock_latch_step s hmode hlines
  exact ⟨s1, hc, ha, ha ▸ Nat.mod_lt _ (by decide), rest⟩

/-- Witness of C3: `exampleLatch` has DA = 0xA7 and latches address 7. -/
theorem Clock_latches_address_witness :
    exampleLatch.m_mode = PsgMode.Inactive
      ∧ ModeFromBDIRandBC1 exampleLatch.m_BDIR exampleLatch.m_BC1 = PsgMode.LatchAddress
      ∧ ∃ s1, exampleLatch.Clock = some s1 ∧ s1.m_latchedAddress = 0xA7 % 16 :=
  ⟨rfl, by decide,
    match Clock_latches_address exampleLatch rfl (by decide) with
    | ⟨s1, hc, ha, _⟩ => ⟨s1, hc, ha⟩⟩

/-! ## Register dispatch through the bus -/

theorem tick_eq_Clock (s : Psg) (BDIR BC1 : Bool) :
    s.tick BDIR BC1 = ((s.SetBDIR BDIR).SetBC1 BC1).Clock := Update_one _

/-- The Inactive to Read step: DA receives the result of the register read. -/
theorem Clock_read_step (s : Psg) (hmode : s.m_mode = PsgMode.Inactive)
    (hlines : ModeFromBDIRandBC1 s.m_BDIR s.m_BC1 = PsgMode.Read) :
    s.Clock = (s.Read s.m_latchedAddress).map
      (fun value => Psg.clockGenerators { s with m_mode := PsgMode.Read, m_DA := value }) := by
  have hr : Psg.Read { s with m_mode := PsgMode.Read } s.m_latchedAddress
      = s.Read s.m_latchedAddress := rfl
  simp only [Psg.Clock, Psg.clockBus, hlines, hmode, if_true, hr, Option.map_map]
  rfl

/-- The Inactive to Write step: the register write receives DA. -/
theorem Clock_write_step (s : Psg) (hmode : s.m_mode = PsgMode.Inactive)
    (hlines : ModeFromBDIRandBC1 s.m_BDIR s.m_BC1 = PsgMode.Write) :
    s.Clock = (Psg.Write { s with m_mode := PsgMode.Write } s.m_latchedAddress s.m_DA).map
      Psg.clockGenerators := by
  simp only [Psg.Clock, Psg.clockBus, hlines, hmode, if_true]

theorem Read_backed (s : Psg) (a : Nat) (ha : a ∈ backedAddresses)
    (hl : s.m_latchedAddress = a) : s.Read a = s.registerAt a := by
  simp only [backedAddresses, List.mem_cons, List.mem_singleton, List.not_mem_nil,
    or_false] at ha
  rcases ha with rfl | rfl | rfl | rfl | rfl | rfl <;> simp [Psg.Read, hl]

theorem Write_backed (s : Psg) (a v : Nat) (ha : a ∈ backedAddresses)
    (hl : s.m_latchedAddress = a) :
    ∃ t, s.Write a v = some t ∧ t.registerAt a = some v := by
  simp only [backedAddresses, List.mem_cons, List.mem_singleton, List.not_mem_nil,
    or_false] at ha
  rcases ha with rfl | rfl | rfl | rfl | rfl | rfl <;>
    simp [Psg.Write, hl, Psg.setRegister, Psg.registerAt]

theorem registerAt_congr (s t : Psg) (a : Nat) (h : t.m_registers = s.m_registers) :
    t.registerAt a = s.registerAt a := by
  unfold Psg.registerAt
  rw [h]

/-- The Inactive to Write step on a backing-array register: the register
receives DA. -/
theorem Clock_write_backed (s : Psg) (a : Nat) (ha : a ∈ backedAddresses)
    (hmode : s.m_mode = PsgMode.Inactive)
    (hlines : ModeFromBDIRandBC1 s.m_BDIR s.m_BC1 = PsgMode.Write)
    (hl : s.m_latchedAddress = a) :
    ∃ s1, s.Clock = some s1 ∧ s1.m_mode = PsgMode.Write ∧ s1.m_latchedAddress = a
      ∧ s1.registerAt a = some s.m_DA := by
  subst hl
  obtain ⟨t, ht, hreg⟩ :=
    Write_backed { s with m_mode := PsgMode.Write } s.m_latchedAddress s.m_DA ha rfl
  obtain ⟨hm, hla, _, _, _⟩ := Write_frame _ _ _ _ ht
  obtain ⟨g1, _, g3, g4, _⟩ := clockGenerators_bus t
  refine ⟨t.clockGenerators, ?_, by rw [g1, hm], by rw [g3, hla], ?_⟩
  · rw [Clock_write_step s hmode hlines]
    exact congrArg (Option.map Psg.clockGenerators) ht
  · rw [registerAt_congr _ _ _ g4]; exact hreg

/-- The Inactive to Read step on a backing-array register: DA receives the
register. -/
theorem Clock_read_backed (s : Psg) (a v : Nat) (ha : a ∈ backedAddresses)
    (hmode : s.m_mode = PsgMode.Inactive)
    (hlines : ModeFromBDIRandBC1 s.m_BDIR s.m_BC1 = PsgMode.Read)
    (hl : s.m_latchedAddress = a) (hreg : s.registerAt a = some v) :
    ∃ s1, s.Clock = some s1 ∧ s1.m_DA = v := by
  refine ⟨Psg.clockGenerators { s with m_mode := PsgMode.Read, m_DA := v }, ?_, ?_⟩
  · rw [Clock_read_step s hmode hlines, hl, Read_backed s a ha hl, hreg]
    rfl
  · exact (clockGenerators_bus _).2.1

/-- A register write leaves every backing entry other than the indexed one as
it was. -/
theorem Write_other_registers (s t : Psg) (address v : Nat)
    (h : s.Write address v = some t) (i : Fin 16) (hi : i.val ≠ address) :
    t.m_registers i = s.m_registers i := by
  have hne : ∀ hlt : address < 16, i ≠ ⟨address, hlt⟩ := by
    intro hlt heq
    exact hi (congrArg Fin.val heq)
  unfold Psg.Write at h
  split at h
  all_goals first
    | (cases h; rfl)
    | (obtain ⟨hlt, ht⟩ := (setRegister_eq_some _ _ _ _).mp h
       subst ht
       refine (Function.update_noteq (hne hlt) _ _).trans ?_
       first
         | rfl
         | exact congrFun (writeMixer_frame s v).2.2.2.2.2 i)
    | exact absurd h (by simp)

/-- C4 (register round trip through the bus): for every address a in
{7, 8, 9, 10, 14, 15}, every 8-bit value v and every state whose stored mode is
Inactive, the script WriteDA(a); tick in LatchAddress; tick in Inactive;
WriteDA(v); tick in Write; tick in Inactive; tick in Read runs to its end and
the final ReadDA() returns v, all 8 bits preserved.  The value travels through
the backing array: after the write part of the script the latched address is a
and `m_registers[a]` holds v, the other backing registers are as before, and
the tick in Read loads v into DA whatever DA held before it. -/
theorem writeReadScript_roundtrip (s : Psg) (a v : Nat) (ha : a ∈ backedAddresses)
    (hv : v < 256) (hmode : s.m_mode = PsgMode.Inactive) :
    s.writeReadScript a v = some v
      ∧ (∃ s4, s.writeScript a v = some s4 ∧ s4.m_mode = PsgMode.Inactive
          ∧ s4.m_latchedAddress = a ∧ s4.registerAt a = some v
          ∧ ∀ i : Fin 16, i.val ≠ a → s4.m_registers i = s.m_registers i)
      ∧ (∀ w, s.writeOverwriteReadScript a v w = some v) := by
  have ha16 : a < 16 := by
    simp only [backedAddresses, List.mem_cons, List.mem_singleton, List.not_mem_nil,
      or_false] at ha
    omega
  -- latch the address
  obtain ⟨s1, h1, m1, l1, _, g1, _, _⟩ :=
    Clock_latch_step (((s.WriteDA a).SetBDIR true).SetBC1 true) hmode ModeFromBDIRandBC1_table.2.2.2
  have l1a : s1.m_latchedAddress = a := by
    rw [l1]
    show a % 256 % 16 = a
    omega
  -- back to Inactive
  obtain ⟨s2, h2, m2, _, _, _, l2, g2, _, _⟩ :=
    Clock_of_lines_inactive ((s1.SetBDIR false).SetBC1 false) ModeFromBDIRandBC1_table.1
  have l2a : s2.m_latchedAddress = a := l2.trans l1a
  -- write the value
  have hlines3 : ModeFromBDIRandBC1 (((s2.WriteDA v).SetBDIR true).SetBC1 false).m_BDIR
      (((s2.WriteDA v).SetBDIR true).SetBC1 false).m_BC1 = PsgMode.Write :=
    ModeFromBDIRandBC1_table.2.2.1
  obtain ⟨s3, h3, m3, l3, r3⟩ :=
    Clock_write_backed (((s2.WriteDA v).SetBDIR true).SetBC1 false) a ha m2 hlines3 l2a
  have r3v : s3.registerAt a = some v := by
    rw [r3]
    show some (v % 256) = some v
    rw [Nat.mod_eq_of_lt hv]
  have g3 : ∀ i : Fin 16, i.val ≠ a → s3.m_registers i = s2.m_registers i := by
    intro i hi
    have hstep := Clock_write_step (((s2.WriteDA v).SetBDIR true).SetBC1 false) m2 hlines3
    rw [h3] at hstep
    cases hw : Psg.Write { ((s2.WriteDA v).SetBDIR true).SetBC1 false with
        m_mode := PsgMode.Write }
      (((s2.WriteDA v).SetBDIR true).SetBC1 false).m_latchedAddress
      (((s2.WriteDA v).SetBDIR true).SetBC1 false).m_DA with
    | none => rw [hw] at hstep; exact absurd hstep (by simp)
    | some w =>
      rw [hw] at hstep
      simp only [Option.map_some', Option.some.injEq] at hstep
      rw [hstep, (clockGenerators_bus w).2.2.2.1]
      exact Write_other_registers _ w _ _ hw i (by
        show i.val ≠ s2.m_latchedAddress
        rw [l2a]; exact hi)
  -- back to Inactive
  obtain ⟨s4, h4, m4, _, _, _, l4, g4, _, _⟩ :=
    Clock_of_lines_inactive ((s3.SetBDIR false).SetBC1 false) ModeFromBDIRandBC1_table.1
  have r4v : s4.registerAt a = some v := (registerAt_congr _ _ a g4).trans r3v
  have l4a : s4.m_latchedAddress = a := l4.trans l3
  -- read it back
  obtain ⟨s5, h5, d5⟩ :=
    Clock_read_backed ((s4.SetBDIR false).SetBC1 true) a v ha m4
      ModeFromBDIRandBC1_table.2.1 l4a r4v
  rw [← tick_eq_Clock] at h1 h2 h3 h4 h5
  have hws : s.writeScript a v = some s4 := by
    simp only [Psg.writeScript, h1, h2, h3, h4, Option.some_bind]
  refine ⟨?_, ⟨s4, hws, m4, l4a, r4v, fun i hi => ?_⟩, fun w => ?_⟩
  · simp only [Psg.writeReadScript, h1, h2, h3, h4, h5, Option.some_bind, Psg.ReadDA, d5]
  · rw [show s4.m_registers = s3.m_registers from g4, g3 i hi,
      show s2.m_registers = s1.m_registers from g2]
    exact congrFun g1 i
  · obtain ⟨s6, h6, d6⟩ :=
      Clock_read_backed (((s4.WriteDA w).SetBDIR false).SetBC1 true) a v ha m4
        ModeFromBDIRandBC1_table.2.1 l4a r4v
    rw [← tick_eq_Clock] at h6
    simp only [Psg.writeOverwriteReadScript, hws, h6, Option.some_bind, Psg.ReadDA, d6]

/-- Witness of C4: the mixer register keeps 0xFF, bits 6 and 7 included, and
the tick in Read returns it after DA was overwritten with 0. -/
theorem writeReadScript_roundtrip_witness :
    7 ∈ backedAddresses ∧ 0xFF < 256 ∧ Psg.construct.m_mode = PsgMode.Inactive
      ∧ Psg.construct.writeReadScript 7 0xFF = some 0xFF
      ∧ Psg.construct.writeOverwriteReadScript 7 0xFF 0 = some 0xFF
      ∧ ∃ s4, Psg.construct.writeScript 7 0xFF = some s4 ∧ s4.registerAt 7 = some 0xFF :=
  ⟨by decide, by decide, rfl,
    (writeReadScript_roundtrip Psg.construct 7 0xFF (by decide) (by decide) rfl).1,
    (writeReadScript_roundtrip Psg.construct 7 0xFF (by decide) (by decide) rfl).2.2 0,
    match (writeReadScript_roundtrip Psg.construct 7 0xFF (by decide) (by decide) rfl).2.1 with
    | ⟨s4, h4, _, _, r4, _⟩ => ⟨s4, h4, r4⟩⟩

/-! ## Mixer and amplitude writes -/

theorem TestBits_two_pow (v k : Nat) : TestBits v (2 ^ k) = v.testBit k := by
  unfold TestBits
  cases h : v.testBit k
  · have hz : v &&& 2 ^ k = 0 := by
      apply Nat.eq_of_testBit_eq
      intro i
      rw [Nat.testBit_and, Nat.testBit_two_pow, Nat.zero_testBit]
      by_cases hki : k = i
      · subst hki; simp [h]
      · simp [hki]
    simp [hz]
  · have hb : (v &&& 2 ^ k).testBit k = true := by
      rw [Nat.testBit_and, Nat.testBit_two_pow_self, h]; rfl
    have hne : v &&& 2 ^ k ≠ 0 := by
      intro hz
      rw [hz, Nat.zero_testBit] at hb
      exact Bool.noConfusion hb
    simpa using hne

/-- The mixer decoding of each of the six masks: enabled when the bit is 0. -/
theorem IsEnabled_masks (v : Nat) :
    MixerControlRegister.IsEnabled v MixerControlRegister.ToneA = !v.testBit 0
      ∧ MixerControlRegister.IsEnabled v MixerControlRegister.ToneB = !v.testBit 1
      ∧ MixerControlRegister.IsEnabled v MixerControlRegister.ToneC = !v.testBit 2
      ∧ MixerControlRegister.IsEnabled v MixerControlRegister.NoiseA = !v.testBit 3
      ∧ MixerControlRegister.IsEnabled v MixerControlRegister.NoiseB = !v.testBit 4
      ∧ MixerControlRegister.IsEnabled v MixerControlRegister.NoiseC = !v.testBit 5 :=
  ⟨congrArg (!·) (TestBits_two_pow v 0), congrArg (!·) (TestBits_two_pow v 1),
    congrArg (!·) (TestBits_two_pow v 2), congrArg (!·) (TestBits_two_pow v 3),
    congrArg (!·) (TestBits_two_pow v 4), congrArg (!·) (TestBits_two_pow v 5)⟩

/-- The channels after the mixer case: each channel gets its two enable flags
from the inverted bits of the value and keeps everything else. -/
theorem writeMixer_channels (s : Psg) (v : Nat) (i : Fin 3) :
    (s.writeMixer v).m_channels i =
      { s.m_channels i with
        m_toneEnabled := !v.testBit i.val, m_noiseEnabled := !v.testBit (3 + i.val) } := by
  obtain ⟨hA, hB, hC, nA, nB, nC⟩ := IsEnabled_masks v
  by_cases hd : ReadBits v 0b11000000 = 0 <;> fin_cases i <;>
    simp [Psg.writeMixer, hd, hA, hB, hC, nA, nB, nC,
      Psg.setChannel, Function.update, ErrorHandler.Undefined,
      PsgChannel.SetToneEnabled, PsgChannel.SetNoiseEnabled]

/-- The diagnostics after the mixer case. -/
theorem writeMixer_log (s : Psg) (v : Nat) :
    (s.writeMixer v).undefinedLog =
      if v &&& 0xC0 ≠ 0 then s.undefinedLog ++ ["Not supporting I/O ports on PSG"]
      else s.undefinedLog := by
  by_cases hd : v &&& 0xC0 = 0 <;>
    simp [Psg.writeMixer, ReadBits, hd, Psg.setChannel, ErrorHandler.Undefined]

/-- A register write with latched address 7 is the mixer case followed by the
store into the backing array. -/
theorem Write_mixer_eq (s : Psg) (v : Nat) (hl : s.m_latchedAddress = 7) :
    s.Write s.m_latchedAddress v = some
      { s.writeMixer v with m_registers := Function.update (s.writeMixer v).m_registers 7 v } := by
  simp [Psg.Write, hl, Psg.setRegister]

/-- Bits 0..5 of a value survive the mask 0x3F. -/
theorem testBit_and_0x3F (v k : Nat) (hk : k < 6) : (v &&& 0x3F).testBit k = v.testBit k := by
  have h : (0x3F : Nat) = 2 ^ 6 - 1 := by decide
  rw [Nat.testBit_and, h, Nat.testBit_two_pow_sub_one]
  simp [hk]

/-- C5 (the mixer write decodes inverted enable bits): after a register write
of a value v with latched address 7, for each channel i in {0, 1, 2} the
tone-enabled flag is true iff bit i of v is 0 and the noise-enabled flag is
true iff bit 3 + i of v is 0. -/
theorem Write_mixer_enable_flags (s : Psg) (v : Nat) (hv : v < 256)
    (hl : s.m_latchedAddress = 7) :
    ∃ t, s.Write s.m_latchedAddress v = some t ∧ ∀ i : Fin 3,
      ((t.m_channels i).m_toneEnabled = true ↔ v.testBit i.val = false)
      ∧ ((t.m_channels i).m_noiseEnabled = true ↔ v.testBit (3 + i.val) = false) := by
  have _ := hv
  refine ⟨_, Write_mixer_eq s v hl, fun i => ?_⟩
  show (((s.writeMixer v).m_channels i).m_toneEnabled = true ↔ _)
    ∧ (((s.writeMixer v).m_channels i).m_noiseEnabled = true ↔ _)
  rw [writeMixer_channels]
  simp

/-- Witness of C5: the value 0x3E (bit 0 clear) written with latched address 7
enables the tone of channel A. -/
theorem Write_mixer_enable_flags_witness :
    0x3E < 256 ∧ exampleMixer.m_latchedAddress = 7
      ∧ ∃ t, exampleMixer.Write exampleMixer.m_latchedAddress 0x3E = some t
          ∧ (t.m_channels 0).m_toneEnabled = true :=
  ⟨by decide, rfl,
    match Write_mixer_enable_flags exampleMixer 0x3E (by decide) rfl with
    | ⟨t, ht, hflags⟩ => ⟨t, ht, (hflags 0).1.mpr (by decide)⟩⟩

/-- C6 (unsupported mixer bits are a non-fatal don't-care): a register write of
a value v with latched address 7 completes; it raises the diagnostic iff
(v AND 0xC0) is not 0 (and otherwise leaves the diagnostics as they were); the
channels it leaves, the six enable flags among them, are those left by writing
(v AND 0x3F), namely the inverted bits 0..5 of v; and the backing register 7
holds v afterwards. -/
theorem Write_mixer_unsupported_bits (s : Psg) (v : Nat) (hv : v < 256)
    (hl : s.m_latchedAddress = 7) :
    ∃ t u, s.Write s.m_latchedAddress v = some t
      ∧ s.Write s.m_latchedAddress (v &&& 0x3F) = some u
      ∧ (t.undefinedLog = s.undefinedLog ++ ["Not supporting I/O ports on PSG"]
          ↔ v &&& 0xC0 ≠ 0)
      ∧ (t.undefinedLog = s.undefinedLog ↔ v &&& 0xC0 = 0)
      ∧ t.m_channels = u.m_channels
      ∧ (∀ i : Fin 3, (t.m_channels i).m_toneEnabled = (!v.testBit i.val)
          ∧ (t.m_channels i).m_noiseEnabled = (!v.testBit (3 + i.val)))
      ∧ t.registerAt 7 = some v := by
  have _ := hv
  refine ⟨_, _, Write_mixer_eq s v hl, Write_mixer_eq s (v &&& 0x3F) hl, ?_, ?_, ?_, ?_, ?_⟩
  · show (s.writeMixer v).undefinedLog = _ ↔ _
    rw [writeMixer_log]
    by_cases hd : v &&& 0xC0 = 0 <;> simp [hd]
  · show (s.writeMixer v).undefinedLog = _ ↔ _
    rw [writeMixer_log]
    by_cases hd : v &&& 0xC0 = 0 <;> simp [hd]
  · show (s.writeMixer v).m_channels = (s.writeMixer (v &&& 0x3F)).m_channels
    funext i
    rw [writeMixer_channels, writeMixer_channels,
      testBit_and_0x3F v i.val (by omega), testBit_and_0x3F v (3 + i.val) (by omega)]
  · intro i
    show ((s.writeMixer v).m_channels i).m_toneEnabled = _
      ∧ ((s.writeMixer v).m_channels i).m_noiseEnabled = _
    rw [writeMixer_channels]
    exact ⟨rfl, rfl⟩
  · simp [Psg.registerAt]

/-- Witness of C6: writing 0xFE with latched address 7 raises the diagnostic
and still stores 0xFE in backing register 7. -/
theorem Write_mixer_unsupported_bits_witness :
    0xFE < 256 ∧ exampleMixer.m_latchedAddress = 7
      ∧ ∃ t, exampleMixer.Write exampleMixer.m_latchedAddress 0xFE = some t
          ∧ t.undefinedLog = exampleMixer.undefinedLog ++ ["Not supporting I/O ports on PSG"]
          ∧ t.registerAt 7 = some 0xFE :=
  ⟨by decide, rfl,
    match Write_mixer_unsupported_bits exampleMixer 0xFE (by decide) rfl with
    | ⟨t, _, ht, _, hlog, _, _, _, hreg⟩ => ⟨t, ht, hlog.mpr (by decide), hreg⟩⟩

/-- The amplitude decoding of a value: bit 4 selects the mode, the low four
bits are the fixed volume. -/
theorem amplitude_decoding (v : Nat) :
    AmplitudeControlRegister.GetMode v
        = (if v.testBit 4 then AmplitudeMode.Envelope else AmplitudeMode.Fixed)
      ∧ AmplitudeControlRegister.GetFixedVolume v = v % 16 := by
  constructor
  · have h : TestBits v AmplitudeControlRegister.EnvelopeMode = v.testBit 4 :=
      TestBits_two_pow v 4
    simp [AmplitudeControlRegister.GetMode, h]
  · exact Nat.and_pow_two_sub_one_eq_mod v 4

/-- A register write with latched address 8 + i is the amplitude case of
channel i followed by the store into the backing array. -/
theorem Write_amplitude_eq (s : Psg) (i : Fin 3) (v : Nat)
    (hl : s.m_latchedAddress = 8 + i.val) :
    ∃ t, s.Write s.m_latchedAddress v = some t
      ∧ t.m_channels = (s.writeAmplitude i v).m_channels
      ∧ t.registerAt (8 + i.val) = some v := by
  fin_cases i <;> simp at hl <;>
    simp [Psg.Write, hl, Psg.setRegister, Psg.registerAt]

/-- The channels after the amplitude case of channel i. -/
theorem writeAmplitude_channels (s : Psg) (i : Fin 3) (v : Nat) :
    (s.writeAmplitude i v).m_channels = Function.update s.m_channels i
      { s.m_channels i with
        m_amplitudeControl :=
          { m_mode := if v.testBit 4 then AmplitudeMode.Envelope else AmplitudeMode.Fixed,
            m_fixedVolume := v % 16 } } := by
  obtain ⟨hm, hf⟩ := amplitude_decoding v
  simp [Psg.writeAmplitude, Psg.setChannel, AmplitudeControl.SetMode,
    AmplitudeControl.SetFixedVolume, hm, hf]

/-- C7 (the amplitude write decodes mode and volume for exactly one channel):
for every channel i in {0, 1, 2} and every value v, a register write of v with
latched address 8 + i sets the amplitude mode of channel i to Envelope iff bit
4 of v is 1 (else Fixed) and its fixed volume to v AND 0x0F, a value in 0..15;
bits 5-7 are ignored (writing v AND 0x1F leaves the same channels); the other
two channels and all enable and override flags are unchanged. -/
theorem Write_amplitude_decodes (s : Psg) (i : Fin 3) (v : Nat) (hv : v < 256)
    (hl : s.m_latchedAddress = 8 + i.val) :
    ∃ t, s.Write s.m_latchedAddress v = some t
      ∧ ((t.m_channels i).m_amplitudeControl.m_mode = AmplitudeMode.Envelope
          ↔ v.testBit 4 = true)
      ∧ ((t.m_channels i).m_amplitudeControl.m_mode = AmplitudeMode.Fixed
          ↔ v.testBit 4 = false)
      ∧ (t.m_channels i).m_amplitudeControl.m_fixedVolume = v &&& 0x0F
      ∧ (t.m_channels i).m_amplitudeControl.m_fixedVolume < 16
      ∧ (∀ j : Fin 3, j ≠ i → t.m_channels j = s.m_channels j)
      ∧ (∀ j : Fin 3, (t.m_channels j).m_toneEnabled = (s.m_channels j).m_toneEnabled
          ∧ (t.m_channels j).m_noiseEnabled = (s.m_channels j).m_noiseEnabled
          ∧ (t.m_channels j).OverrideToneEnabled = (s.m_channels j).OverrideToneEnabled
          ∧ (t.m_channels j).OverrideNoiseEnabled = (s.m_channels j).OverrideNoiseEnabled)
      ∧ (∃ u, s.Write s.m_latchedAddress (v &&& 0x1F) = some u
          ∧ u.m_channels = t.m_channels) := by
  have _ := hv
  obtain ⟨t, ht, hc, _⟩ := Write_amplitude_eq s i v hl
  obtain ⟨u, hu, huc, _⟩ := Write_amplitude_eq s i (v &&& 0x1F) hl
  rw [writeAmplitude_channels] at hc huc
  have hand : v &&& 0x0F = v % 16 := Nat.and_pow_two_sub_one_eq_mod v 4
  refine ⟨t, ht, ?_, ?_, ?_, ?_, ?_, ?_, u, hu, ?_⟩
  · rw [hc]; cases v.testBit 4 <;> simp
  · rw [hc]; cases v.testBit 4 <;> simp
  · rw [hc, hand]; simp
  · rw [hc]; simp only [Function.update_same]; exact Nat.mod_lt _ (by decide)
  · intro j hj
    rw [hc, Function.update_noteq hj]
  · intro j
    rw [hc]
    by_cases hj : j = i
    · subst hj; simp
    · rw [Function.update_noteq hj]; exact ⟨rfl, rfl, rfl, rfl⟩
  · have h31 : (0x1F : Nat) = 2 ^ 5 - 1 := by decide
    have hbit : (v &&& 0x1F).testBit 4 = v.testBit 4 := by
      rw [Nat.testBit_and, h31, Nat.testBit_two_pow_sub_one]; simp
    have hvol : (v &&& 0x1F) % 16 = v % 16 := by
      rw [h31, Nat.and_pow_two_sub_one_eq_mod]
      omega
    rw [huc, hc, hbit, hvol]

/-- Witness of C7: writing 0xF5 with latched address 9 puts channel B in
Envelope mode with fixed volume 5. -/
theorem Write_amplitude_decodes_witness :
    0xF5 < 256 ∧ exampleAmplitudeB.m_latchedAddress = 8 + (1 : Fin 3).val
      ∧ ∃ t, exampleAmplitudeB.Write exampleAmplitudeB.m_latchedAddress 0xF5 = some t
          ∧ (t.m_channels 1).m_amplitudeControl.m_mode = AmplitudeMode.Envelope
          ∧ (t.m_channels 1).m_amplitudeControl.m_fixedVolume = 0xF5 &&& 0x0F :=
  ⟨by decide, rfl,
    match Write_amplitude_decodes exampleAmplitudeB 1 0xF5 (by decide) rfl with
    | ⟨t, ht, hmode, _, hvol, _⟩ => ⟨t, ht, hmode.mpr (by decide), hvol⟩⟩

/-! ## The read transition -/

/-- C8 (the read transition loads the data bus): from every state whose stored
mode is Inactive and whose latched address a is in 0..15, a `Clock` step whose
control lines select Read returns and sets DA to the value r the register
dispatch `Read` returns for a: the backing register for a in
{7, 8, 9, 10, 14, 15}, the period or shape accessor of the generator otherwise.
The latched address, the backing registers, the channel settings and the
diagnostics are unchanged. -/
theorem Clock_read_loads_DA (s : Psg) (hmode : s.m_mode = PsgMode.Inactive)
    (hlines : ModeFromBDIRandBC1 s.m_BDIR s.m_BC1 = PsgMode.Read)
    (ha : s.m_latchedAddress < 16) :
    ∃ r s1, s.Read s.m_latchedAddress = some r ∧ s.Clock = some s1 ∧ s1.m_DA = r
      ∧ s1.m_latchedAddress = s.m_latchedAddress ∧ s1.m_registers = s.m_registers
      ∧ s1.m_channels = s.m_channels ∧ s1.undefinedLog = s.undefinedLog
      ∧ (s.m_latchedAddress ∈ backedAddresses → s.registerAt s.m_latchedAddress = some r)
      ∧ (s.m_latchedAddress = 0 → r = (s.m_toneGenerators 0).PeriodLow)
      ∧ (s.m_latchedAddress = 1 → r = (s.m_toneGenerators 0).PeriodHigh)
      ∧ (s.m_latchedAddress = 2 → r = (s.m_toneGenerators 1).PeriodLow)
      ∧ (s.m_latchedAddress = 3 → r = (s.m_toneGenerators 1).PeriodHigh)
      ∧ (s.m_latchedAddress = 4 → r = (s.m_toneGenerators 2).PeriodLow)
      ∧ (s.m_latchedAddress = 5 → r = (s.m_toneGenerators 2).PeriodHigh)
      ∧ (s.m_latchedAddress = 6 → r = s.m_noiseGenerator.Period)
      ∧ (s.m_latchedAddress = 11 → r = s.m_envelopeGenerator.PeriodLow)
      ∧ (s.m_latchedAddress = 12 → r = s.m_envelopeGenerator.PeriodHigh)
      ∧ (s.m_latchedAddress = 13 → r = s.m_envelopeGenerator.Shape) := by
  have hread : ∃ r, s.Read s.m_latchedAddress = some r := by
    generalize hA : s.m_latchedAddress = a at ha
    interval_cases a <;> simp [Psg.Read, hA, Psg.registerAt]
  obtain ⟨r, hr⟩ := hread
  obtain ⟨_, h2, h3, h4, h5, h6, _, _⟩ :=
    clockGenerators_bus { s with m_mode := PsgMode.Read, m_DA := r }
  refine ⟨r, Psg.clockGenerators { s with m_mode := PsgMode.Read, m_DA := r }, hr,
    by rw [Clock_read_step s hmode hlines, hr]; rfl, h2, h3, h4, h5, h6, ?_⟩
  refine ⟨fun hb => by rw [← Read_backed s _ hb rfl, hr], ?_⟩
  refine ⟨?_, ?_, ?_, ?_, ?_, ?_, ?_, ?_, ?_, ?_⟩ <;>
    (intro hA
     simp only [Psg.Read, hA] at hr
     exact (Option.some.inj hr).symm)

/-- Witness of C8: `exampleRead` has latched address 8 and backing register 8
holding 0x1F; the step puts 0x1F on the data bus. -/
theorem Clock_read_loads_DA_witness :
    exampleRead.m_mode = PsgMode.Inactive
      ∧ ModeFromBDIRandBC1 exampleRead.m_BDIR exampleRead.m_BC1 = PsgMode.Read
      ∧ exampleRead.m_latchedAddress < 16
      ∧ ∃ s1, exampleRead.Clock = some s1 ∧ s1.m_DA = 0x1F :=
  ⟨rfl, by decide, by decide,
    match Clock_read_loads_DA exampleRead rfl (by decide) (by decide) with
    | ⟨r, s1, hr, hc, hd, _⟩ =>
      ⟨s1, hc, hd.trans (Option.some.inj (hr.symm.trans (by rfl)))⟩⟩

/-! ## The latched address and Reset -/

/-- A register read or write that is dispatched returns when the latched
address is in 0..15 and the array index is the latched address. -/
theorem Read_Write_total (s : Psg) (v : Nat) (ha : s.m_latchedAddress < 16) :
    (∃ r, s.Read s.m_latchedAddress = some r)
      ∧ ∃ t, s.Write s.m_latchedAddress v = some t := by
  generalize hA : s.m_latchedAddress = a at ha
  interval_cases a <;> simp [Psg.Read, Psg.Write, hA, Psg.registerAt, Psg.setRegister]

/-- C9 (the latched address is set only on an Inactive to LatchAddress
transition): WriteDA, ReadDA, Sample, Reset (and Init and the control-line
setters) leave the latched address unchanged, and so does every `Clock` step
that is not a step from stored mode Inactive into LatchAddress; such a step
returns whenever the latched address is in 0..15. -/
theorem latchedAddress_set_only_on_latch (s : Psg) :
    (∀ op : HostOp, (s.apply op).m_latchedAddress = s.m_latchedAddress)
    ∧ (∀ value, (s.WriteDA value).m_latchedAddress = s.m_latchedAddress)
    ∧ s.ReadDA.2.m_latchedAddress = s.m_latchedAddress
    ∧ s.Reset.m_latchedAddress = s.m_latchedAddress
    ∧ (∀ s1, s.Clock = some s1 →
        ¬ (s.m_mode = PsgMode.Inactive
            ∧ ModeFromBDIRandBC1 s.m_BDIR s.m_BC1 = PsgMode.LatchAddress) →
        s1.m_latchedAddress = s.m_latchedAddress)
    ∧ (s.m_latchedAddress < 16 → ∃ s1, s.Clock = some s1) := by
  refine ⟨fun op => by cases op <;> rfl, fun _ => rfl, rfl, rfl, ?_, ?_⟩
  · intro s1 hc hno
    by_cases hmode : s.m_mode = PsgMode.Inactive
    · cases hl : ModeFromBDIRandBC1 s.m_BDIR s.m_BC1 with
      | Inactive =>
        obtain ⟨s2, h2, _, _, _, _, ha, _⟩ := Clock_of_lines_inactive s hl
        rw [h2] at hc
        rw [← Option.some.inj hc, ha]
      | Read =>
        rw [Clock_read_step s hmode hl] at hc
        obtain ⟨r, _, hr⟩ := Option.map_eq_some'.mp hc
        rw [← hr, (clockGenerators_bus _).2.2.1]
      | Write =>
        rw [Clock_write_step s hmode hl] at hc
        obtain ⟨t, ht, hr⟩ := Option.map_eq_some'.mp hc
        rw [← hr, (clockGenerators_bus _).2.2.1, (Write_frame _ _ _ _ ht).2.1]
      | LatchAddress => exact absurd ⟨hmode, hl⟩ hno
    · obtain ⟨s2, h2, _, _, _, _, ha, _⟩ := Clock_of_not_inactive s hmode
      rw [h2] at hc
      rw [← Option.some.inj hc, ha]
  · intro ha
    by_cases hmode : s.m_mode = PsgMode.Inactive
    · cases hl : ModeFromBDIRandBC1 s.m_BDIR s.m_BC1 with
      | Inactive =>
        obtain ⟨s2, h2, _⟩ := Clock_of_lines_inactive s hl
        exact ⟨s2, h2⟩
      | Read =>
        obtain ⟨r, hr⟩ := (Read_Write_total s 0 ha).1
        exact ⟨_, by rw [Clock_read_step s hmode hl, hr]; rfl⟩
      | Write =>
        obtain ⟨t, ht⟩ :=
          (Read_Write_total { s with m_mode := PsgMode.Write } s.m_DA ha).2
        exact ⟨t.clockGenerators, by
          rw [Clock_write_step s hmode hl]
          exact congrArg (Option.map Psg.clockGenerators) ht⟩
      | LatchAddress =>
        obtain ⟨s2, h2, _⟩ := Clock_latch_step s hmode hl
        exact ⟨s2, h2⟩
    · obtain ⟨s2, h2, _⟩ := Clock_of_not_inactive s hmode
      exact ⟨s2, h2⟩

/-- Witness of C9: `exampleBusy` (stored mode Write, lines selecting Read,
latched address 5) steps and keeps latched address 5. -/
theorem latchedAddress_set_only_on_latch_witness :
    exampleBusy.m_latchedAddress < 16
      ∧ ¬ (exampleBusy.m_mode = PsgMode.Inactive
          ∧ ModeFromBDIRandBC1 exampleBusy.m_BDIR exampleBusy.m_BC1 = PsgMode.LatchAddress)
      ∧ ∃ s1, exampleBusy.Clock = some s1 ∧ s1.m_latchedAddress = 5 :=
  ⟨by decide, by decide,
    match (latchedAddress_set_only_on_latch exampleBusy).2.2.2.2.2 (by decide) with
    | ⟨s1, hc⟩ =>
      ⟨s1, hc, (latchedAddress_set_only_on_latch exampleBusy).2.2.2.2.1 s1 hc (by decide)⟩⟩

/-- C10, as stated, fails: on the chip reached from a constructed and
initialised instance by latching address 7 and writing 0x3E to the mixer,
`Reset` leaves the latched address at 7 and the tone flag of channel A set,
while a freshly constructed instance has latched address 0 and the flag
clear. -/
theorem Reset_not_fresh_counterexample :
    ∃ s, mixerScript = some s
      ∧ s.Reset.m_latchedAddress = 7 ∧ Psg.construct.m_latchedAddress = 0
      ∧ Psg.construct.Init.m_latchedAddress = 0
      ∧ (s.Reset.m_channels 0).m_toneEnabled = true
      ∧ (Psg.construct.m_channels 0).m_toneEnabled = false
      ∧ (Psg.construct.Init.m_channels 0).m_toneEnabled = false
      ∧ s.Reset.m_latchedAddress ≠ Psg.construct.m_latchedAddress
      ∧ s.Reset.m_channels 0 ≠ Psg.construct.m_channels 0 :=
  ⟨_, rfl, rfl, rfl, rfl, rfl, rfl, rfl, by decide, by decide⟩

/-- C10, amended: for every prior state, after `Reset` the mode is Inactive, DA
is 0, all 16 backing registers are 0, the master divider is reset, and the
three tone generators, the noise generator and the envelope generator equal
their default-constructed values, so that each of these members equals its
value in a freshly constructed instance; the latched address is the one from
before the call. -/
theorem Reset_restores_assigned_members (s : Psg) :
    s.Reset.m_mode = PsgMode.Inactive ∧ s.Reset.m_DA = 0
      ∧ (∀ i : Fin 16, s.Reset.m_registers i = 0)
      ∧ s.Reset.m_masterDivider = s.m_masterDivider.Reset
      ∧ s.Reset.m_masterDivider.m_time = 0
      ∧ (∀ i : Fin 3, s.Reset.m_toneGenerators i = ({} : ToneGenerator))
      ∧ s.Reset.m_noiseGenerator = ({} : NoiseGenerator)
      ∧ s.Reset.m_envelopeGenerator = ({} : EnvelopeGenerator)
      ∧ s.Reset.m_mode = Psg.construct.m_mode ∧ s.Reset.m_DA = Psg.construct.m_DA
      ∧ s.Reset.m_registers = Psg.construct.m_registers
      ∧ s.Reset.m_masterDivider = Psg.construct.m_masterDivider
      ∧ s.Reset.m_toneGenerators = Psg.construct.m_toneGenerators
      ∧ s.Reset.m_noiseGenerator = Psg.construct.m_noiseGenerator
      ∧ s.Reset.m_envelopeGenerator = Psg.construct.m_envelopeGenerator
      ∧ s.Reset.m_latchedAddress = s.m_latchedAddress :=
  ⟨rfl, rfl, fun _ => rfl, rfl, rfl, fun _ => rfl, rfl, rfl, rfl, rfl, rfl, rfl, rfl, rfl,
    rfl, rfl⟩

/-! ## Reset and reconstruction -/

/-- A script prefix without `Sample` calls contributes no value. -/
theorem samples_of_run (pre : List ScriptOp) (hpre : ∀ op ∈ pre, op ≠ ScriptOp.Sample) :
    ∀ (s t : Psg), s.run pre = some t → ∀ post, s.samples (pre ++ post) = t.samples post := by
  induction pre with
  | nil => intro s t h post; simp only [Psg.run, Option.some.injEq] at h; subst h; rfl
  | cons op rest ih =>
    intro s t h post
    have hrest : ∀ op ∈ rest, op ≠ ScriptOp.Sample :=
      fun o ho => hpre o (List.mem_cons_of_mem _ ho)
    cases op with
    | WriteDA value => exact ih hrest _ t h post
    | SetBDIR enable => exact ih hrest _ t h post
    | SetBC1 enable => exact ih hrest _ t h post
    | Update cycles =>
      simp only [Psg.run] at h
      cases hu : s.Update cycles with
      | none => rw [hu] at h; exact absurd h (by simp)
      | some s1 =>
        rw [hu] at h
        simp only [List.cons_append, Psg.samples, hu, Option.some_bind]
        exact ih hrest s1 t h post
    | Sample => exact absurd rfl (hpre _ (List.mem_cons_self _ _))

/-- The sample of a chip whose channel A is in Fixed mode at volume 15 with
its enable flags clear, and whose channels B and C are as constructed. -/
theorem Sample_of_channelA_full (s : Psg)
    (h0 : s.m_channels 0 = { m_amplitudeControl := { m_fixedVolume := 15 } })
    (h1 : s.m_channels 1 = {}) (h2 : s.m_channels 2 = {}) :
    s.Sample = 11184811 / 33554432 := by
  simp only [Psg.Sample, List.foldl, h0, h1, h2, PsgChannel.Sample, AmplitudeControl.Volume,
    float_volume_full, float_volume_zero]
  simp only [Bool.or_true, Bool.or_false, Bool.not_false, Bool.and_self, if_true, zero_add,
    add_zero, float_round_one]
  exact float_round_third

/-- The sample of a chip whose three channels are as constructed. -/
theorem Sample_of_silent (s : Psg) (h0 : s.m_channels 0 = {})
    (h1 : s.m_channels 1 = {}) (h2 : s.m_channels 2 = {}) : s.Sample = 0 := by
  simp only [Psg.Sample, List.foldl, h0, h1, h2, PsgChannel.Sample, AmplitudeControl.Volume,
    float_volume_zero]
  simp [float_round_zero]

theorem clearLog_clockGenerators (s : Psg) :
    s.clockGenerators.clearLog = s.clearLog.clockGenerators := by
  cases h : s.m_masterDivider.Clock.1 <;> simp [Psg.clockGenerators, Psg.clearLog, h]

theorem clearLog_writeMixer (s : Psg) (v : Nat) :
    (s.writeMixer v).clearLog = (s.clearLog.writeMixer v).clearLog := by
  by_cases hd : ReadBits v 0b11000000 = 0 <;>
    simp [Psg.writeMixer, hd, Psg.setChannel, ErrorHandler.Undefined, Psg.clearLog]

theorem clearLog_setRegister (s : Psg) (a v : Nat) :
    (s.setRegister a v).map Psg.clearLog = (s.clearLog.setRegister a v).map Psg.clearLog := by
  by_cases h : a < 16 <;> simp [Psg.setRegister, h, Psg.clearLog]

theorem clearLog_setRegister_of_eq (s t : Psg) (a v : Nat) (h : s.clearLog = t.clearLog) :
    (s.setRegister a v).map Psg.clearLog = (t.setRegister a v).map Psg.clearLog := by
  rw [clearLog_setRegister s, clearLog_setRegister t, h]

/-- The register write does not read the diagnostics. -/
theorem clearLog_Write (s : Psg) (a v : Nat) :
    (s.Write a v).map Psg.clearLog = (s.clearLog.Write a v).map Psg.clearLog := by
  have hl : s.clearLog.m_latchedAddress = s.m_latchedAddress := rfl
  unfold Psg.Write
  rw [hl]
  split
  all_goals first
    | rfl
    | exact clearLog_setRegister_of_eq _ _ a v (clearLog_writeMixer s v)
    | exact clearLog_setRegister s a v
    | exact clearLog_setRegister_of_eq _ _ a v rfl

/-- The clock step does not read the diagnostics. -/
theorem clearLog_Clock (s : Psg) :
    s.Clock.map Psg.clearLog = s.clearLog.Clock.map Psg.clearLog := by
  have hg : ∀ o : Option Psg, (o.map Psg.clockGenerators).map Psg.clearLog
      = (o.map Psg.clearLog).map Psg.clockGenerators := by
    intro o
    cases o with
    | none => rfl
    | some u => exact congrArg some (clearLog_clockGenerators u)
  have hb : s.clockBus.map Psg.clearLog = s.clearLog.clockBus.map Psg.clearLog := by
    unfold Psg.clockBus
    have hB : s.clearLog.m_BDIR = s.m_BDIR := rfl
    have hC : s.clearLog.m_BC1 = s.m_BC1 := rfl
    have hM : s.clearLog.m_mode = s.m_mode := rfl
    simp only [hB, hC, hM]
    cases ModeFromBDIRandBC1 s.m_BDIR s.m_BC1 <;> simp only
    · rfl
    · split
      · have key : ∀ o : Option Nat,
            (o.map fun value => ({ s with m_mode := PsgMode.Read, m_DA := value } : Psg)).map
              Psg.clearLog
            = (o.map fun value =>
                ({ s.clearLog with m_mode := PsgMode.Read, m_DA := value } : Psg)).map
              Psg.clearLog := by
          intro o
          cases o <;> rfl
        exact key _
      · rfl
    · split
      · exact clearLog_Write { s with m_mode := PsgMode.Write } s.m_latchedAddress s.m_DA
      · rfl
    · split <;> rfl
  unfold Psg.Clock
  rw [hg, hg, hb]

/-- Two chips that differ in the diagnostics only stay so under `Update`. -/
theorem clearLog_Update (n : Nat) : ∀ s t : Psg, s.clearLog = t.clearLog →
    (s.Update n).map Psg.clearLog = (t.Update n).map Psg.clearLog := by
  induction n with
  | zero => intro s t h; exact congrArg some h
  | succ n ih =>
    intro s t h
    have hc : s.Clock.map Psg.clearLog = t.Clock.map Psg.clearLog := by
      rw [clearLog_Clock s, clearLog_Clock t, h]
    rw [Update_succ, Update_succ]
    cases hs : s.Clock with
    | none =>
      rw [hs] at hc
      cases ht : t.Clock with
      | none => rfl
      | some t1 => rw [ht] at hc; exact absurd hc (by simp)
    | some s1 =>
      rw [hs] at hc
      cases ht : t.Clock with
      | none => rw [ht] at hc; exact absurd hc (by simp)
      | some t1 =>
        rw [ht] at hc
        exact ih s1 t1 (Option.some.inj hc)

/-- Two chips that differ in the diagnostics only produce the same samples. -/
theorem samples_of_clearLog_eq (script : List ScriptOp) : ∀ s t : Psg,
    s.clearLog = t.clearLog → s.samples script = t.samples script := by
  induction script with
  | nil => intro s t _; rfl
  | cons op rest ih =>
    intro s t h
    cases op with
    | WriteDA value =>
      exact ih _ _ (congrArg (fun u : Psg => { u with m_DA := value % 256 }) h)
    | SetBDIR enable =>
      exact ih _ _ (congrArg (fun u : Psg => { u with m_BDIR := enable }) h)
    | SetBC1 enable =>
      exact ih _ _ (congrArg (fun u : Psg => { u with m_BC1 := enable }) h)
    | Update cycles =>
      have hu := clearLog_Update cycles s t h
      simp only [Psg.samples]
      cases hs : s.Update cycles with
      | none =>
        rw [hs] at hu
        cases ht : t.Update cycles with
        | none => rfl
        | some t1 => rw [ht] at hu; exact absurd hu (by simp)
      | some s1 =>
        rw [hs] at hu
        cases ht : t.Update cycles with
        | none => rw [ht] at hu; exact absurd hu (by simp)
        | some t1 =>
          rw [ht] at hu
          exact ih s1 t1 (Option.some.inj hu)
    | Sample =>
      have hS : s.clearLog.Sample = t.clearLog.Sample := congrArg (fun u : Psg => u.Sample) h
      have hS : s.Sample = t.Sample := hS
      simp only [Psg.samples, ih s t h, hS]

/-- After `Reset`, the chip is determined, up to the diagnostics, by the channel
settings, the latched address and the control lines it had before. -/
theorem clearLog_Reset_eq (s t : Psg) (hch : s.m_channels = t.m_channels)
    (hla : s.m_latchedAddress = t.m_latchedAddress) (hb : s.m_BDIR = t.m_BDIR)
    (hc : s.m_BC1 = t.m_BC1) : s.Reset.clearLog = t.Reset.clearLog := by
  simp [Psg.Reset, Psg.clearLog, hch, hla, hb, hc, MasterDivider.Reset]

/-- C11, as stated, fails.  After latching address 8 on a constructed and
initialised chip, `Reset` followed by a bus write with no address latch and a
`Sample` call yields the float nearest to 1/3, which is 11184811 / 2^25 (the
write reaches the amplitude register of channel A), where a fresh chip yields
0 (the write reaches register 0).  After latching address 8 and writing 0x0F,
`Reset` followed by `Sample` yields the same nonzero value, where a fresh
chip yields 0. -/
theorem Reset_not_observationally_fresh_counterexample :
    (∃ s, Psg.construct.Init.run latchAmplitudeA = some s
        ∧ s.Reset.samples (writeWithoutLatch ++ [ScriptOp.Sample])
            = some [11184811 / 33554432])
    ∧ Psg.construct.Init.samples (writeWithoutLatch ++ [ScriptOp.Sample]) = some [0]
    ∧ (∃ s, Psg.construct.Init.run writeAmplitudeA = some s
        ∧ s.Reset.samples [ScriptOp.Sample] = some [11184811 / 33554432])
    ∧ Psg.construct.Init.samples [ScriptOp.Sample] = some [0]
    ∧ (11184811 / 33554432 : ℚ) ≠ 0 := by
  refine ⟨?_, ?_, ?_, ?_, by norm_num⟩
  · have key : ∃ s, Psg.construct.Init.run latchAmplitudeA = some s
        ∧ ∃ t, s.Reset.run writeWithoutLatch = some t
          ∧ t.m_channels 0 = { m_amplitudeControl := { m_fixedVolume := 15 } }
          ∧ t.m_channels 1 = {} ∧ t.m_channels 2 = {} :=
      ⟨_, rfl, _, rfl, rfl, rfl, rfl⟩
    obtain ⟨s, hs, t, ht, h0, h1, h2⟩ := key
    refine ⟨s, hs, ?_⟩
    rw [samples_of_run writeWithoutLatch (by decide) _ t ht]
    simp only [Psg.samples, Option.map_some', Sample_of_channelA_full t h0 h1 h2]
  · have key : ∃ t, Psg.construct.Init.run writeWithoutLatch = some t
        ∧ t.m_channels 0 = {} ∧ t.m_channels 1 = {} ∧ t.m_channels 2 = {} :=
      ⟨_, rfl, rfl, rfl, rfl⟩
    obtain ⟨t, ht, h0, h1, h2⟩ := key
    rw [samples_of_run writeWithoutLatch (by decide) _ t ht]
    simp only [Psg.samples, Option.map_some', Sample_of_silent t h0 h1 h2]
  · have key : ∃ s, Psg.construct.Init.run writeAmplitudeA = some s
        ∧ s.Reset.m_channels 0 = { m_amplitudeControl := { m_fixedVolume := 15 } }
        ∧ s.Reset.m_channels 1 = {} ∧ s.Reset.m_channels 2 = {} :=
      ⟨_, rfl, rfl, rfl, rfl⟩
    obtain ⟨s, hs, h0, h1, h2⟩ := key
    refine ⟨s, hs, ?_⟩
    simp only [Psg.samples, Option.map_some', Sample_of_channelA_full _ h0 h1 h2]
  · simp only [Psg.samples, Option.map_some',
      Sample_of_silent Psg.construct.Init rfl rfl rfl]

/-- C11, amended: for every chip whose channel settings, latched address and
control lines are those of a freshly constructed instance, and for every
subsequent script of WriteDA, control-line changes, Update and Sample calls,
the sequence of Sample() values produced after Reset() equals the sequence
produced by the same script on a freshly constructed and initialised
instance (the script fails on the one iff it fails on the other). -/
theorem Reset_observationally_fresh (s : Psg)
    (hch : s.m_channels = Psg.construct.m_channels)
    (hla : s.m_latchedAddress = Psg.construct.m_latchedAddress)
    (hb : s.m_BDIR = Psg.construct.m_BDIR) (hc : s.m_BC1 = Psg.construct.m_BC1)
    (script : List ScriptOp) :
    s.Reset.samples script = Psg.construct.Init.samples script :=
  samples_of_clearLog_eq script _ _ (clearLog_Reset_eq s Psg.construct hch hla hb hc)

/-- Witness of C11 amended: a chip that differs from a fresh one in the stored
mode, DA, the backing registers, the master divider, the noise generator and
the diagnostics. -/
theorem Reset_observationally_fresh_witness :
    exampleDirty.m_channels = Psg.construct.m_channels
      ∧ exampleDirty.m_latchedAddress = Psg.construct.m_latchedAddress
      ∧ exampleDirty.m_BDIR = Psg.construct.m_BDIR
      ∧ exampleDirty.m_BC1 = Psg.construct.m_BC1
      ∧ exampleDirty.Reset.samples (writeWithoutLatch ++ [ScriptOp.Sample])
        = Psg.construct.Init.samples (writeWithoutLatch ++ [ScriptOp.Sample]) :=
  ⟨rfl, rfl, rfl, rfl, Reset_observationally_fresh exampleDirty rfl rfl rfl rfl _⟩

/-! ## Update -/

/-- The four outcomes of the mode handling of a clock step. -/
theorem clockBus_cases (s t : Psg) (h : s.clockBus = some t) :
    t = { s with m_mode := ModeFromBDIRandBC1 s.m_BDIR s.m_BC1 }
    ∨ (s.m_mode = PsgMode.Inactive
        ∧ ModeFromBDIRandBC1 s.m_BDIR s.m_BC1 = PsgMode.Read
        ∧ ∃ r, s.Read s.m_latchedAddress = some r
          ∧ t = { s with m_mode := PsgMode.Read, m_DA := r })
    ∨ (s.m_mode = PsgMode.Inactive
        ∧ ModeFromBDIRandBC1 s.m_BDIR s.m_BC1 = PsgMode.Write
        ∧ Psg.Write { s with m_mode := PsgMode.Write } s.m_latchedAddress s.m_DA = some t)
    ∨ (s.m_mode = PsgMode.Inactive
        ∧ ModeFromBDIRandBC1 s.m_BDIR s.m_BC1 = PsgMode.LatchAddress
        ∧ t = { s with m_mode := PsgMode.LatchAddress,
                       m_latchedAddress := ReadBits s.m_DA 0b1111 }) := by
  by_cases hmode : s.m_mode = PsgMode.Inactive
  · unfold Psg.clockBus at h
    cases hl : ModeFromBDIRandBC1 s.m_BDIR s.m_BC1 with
    | Inactive =>
      simp only [hl] at h
      exact Or.inl (Option.some.inj h).symm
    | Read =>
      simp only [hl, hmode, if_true] at h
      obtain ⟨r, hr, ht⟩ := Option.map_eq_some'.mp h
      exact Or.inr (Or.inl ⟨hmode, rfl, r, hr, ht.symm⟩)
    | Write =>
      simp only [hl, hmode, if_true] at h
      exact Or.inr (Or.inr (Or.inl ⟨hmode, rfl, h⟩))
    | LatchAddress =>
      simp only [hl, hmode, if_true] at h
      exact Or.inr (Or.inr (Or.inr ⟨hmode, rfl, (Option.some.inj h).symm⟩))
  · rw [clockBus_of_not_inactive s hmode] at h
    exact Or.inl (Option.some.inj h).symm

/-- A register write touches neither the master divider, nor the output level
of a tone generator, nor the shift register of the noise generator. -/
theorem Write_keeps_clocked_state (s t : Psg) (address value : Nat)
    (h : s.Write address value = some t) :
    t.m_masterDivider = s.m_masterDivider
      ∧ (∀ i, (t.m_toneGenerators i).m_value = (s.m_toneGenerators i).m_value)
      ∧ (∀ i, (t.m_toneGenerators i).m_counter = (s.m_toneGenerators i).m_counter)
      ∧ t.m_noiseGenerator.m_shiftRegister = s.m_noiseGenerator.m_shiftRegister := by
  unfold Psg.Write at h
  split at h
  all_goals first
    | (cases h
       refine ⟨rfl, fun i => ?_, fun i => ?_, rfl⟩ <;>
         (simp only [Psg.setToneGenerator, Function.update]
          split
          · rename_i hi; subst hi; rfl
          · rfl))
    | (cases h; exact ⟨rfl, fun _ => rfl, fun _ => rfl, rfl⟩)
    | (obtain ⟨_, ht⟩ := (setRegister_eq_some _ _ _ _).mp h
       subst ht
       first
         | exact ⟨rfl, fun _ => rfl, fun _ => rfl, rfl⟩
         | (by_cases hd : ReadBits value 0b11000000 = 0 <;>
              simp [Psg.writeMixer, hd, Psg.setChannel, ErrorHandler.Undefined]))
    | exact absurd h (by simp)

/-- What the mode handling of a clock step never changes, and what it does to
the latched address. -/
theorem clockBus_frame (s t : Psg) (h : s.clockBus = some t) :
    t.m_mode = ModeFromBDIRandBC1 s.m_BDIR s.m_BC1
      ∧ t.m_BDIR = s.m_BDIR ∧ t.m_BC1 = s.m_BC1
      ∧ t.m_masterDivider = s.m_masterDivider
      ∧ (t.m_latchedAddress = s.m_latchedAddress ∨ t.m_latchedAddress = s.m_DA % 16)
      ∧ (∀ i, (t.m_toneGenerators i).m_value = (s.m_toneGenerators i).m_value)
      ∧ (∀ i, (t.m_toneGenerators i).m_counter = (s.m_toneGenerators i).m_counter)
      ∧ t.m_noiseGenerator.m_shiftRegister = s.m_noiseGenerator.m_shiftRegister := by
  rcases clockBus_cases s t h with ht | ⟨_, hl, r, _, ht⟩ | ⟨_, hl, hw⟩ | ⟨_, hl, ht⟩
  · subst ht
    exact ⟨rfl, rfl, rfl, rfl, Or.inl rfl, fun _ => rfl, fun _ => rfl, rfl⟩
  · subst ht
    exact ⟨hl.symm, rfl, rfl, rfl, Or.inl rfl, fun _ => rfl, fun _ => rfl, rfl⟩
  · obtain ⟨f1, f2, _, f4, f5⟩ := Write_frame _ _ _ _ hw
    obtain ⟨g1, g2, g3, g4⟩ := Write_keeps_clocked_state _ _ _ _ hw
    exact ⟨f1.trans hl.symm, f4, f5, g1, Or.inl f2, g2, g3, g4⟩
  · subst ht
    exact ⟨hl.symm, rfl, rfl, rfl,
      Or.inr (Nat.and_pow_two_sub_one_eq_mod s.m_DA 4), fun _ => rfl, fun _ => rfl, rfl⟩

/-- The mode handling of a clock step returns when the latched address is in
0..15. -/
theorem clockBus_total (s : Psg) (ha : s.m_latchedAddress < 16) :
    ∃ t, s.clockBus = some t := by
  by_cases hmode : s.m_mode = PsgMode.Inactive
  · unfold Psg.clockBus
    cases hl : ModeFromBDIRandBC1 s.m_BDIR s.m_BC1 with
    | Inactive => exact ⟨_, rfl⟩
    | Read =>
      obtain ⟨r, hr⟩ := (Read_Write_total s 0 ha).1
      have hr1 : Psg.Read { s with m_mode := PsgMode.Read } s.m_latchedAddress = some r := hr
      simp only [hmode, if_true, hr1]
      exact ⟨_, rfl⟩
    | Write =>
      obtain ⟨t, ht⟩ := (Read_Write_total { s with m_mode := PsgMode.Write } s.m_DA ha).2
      simp only [hmode, if_true]
      exact ⟨t, ht⟩
    | LatchAddress =>
      simp only [hmode, if_true]
      exact ⟨_, rfl⟩
  · exact ⟨_, clockBus_of_not_inactive s hmode⟩

/-- A clock step returns when the latched address is in 0..15, and the latched
address stays in 0..15. -/
theorem Clock_total (s : Psg) (ha : s.m_latchedAddress < 16) :
    ∃ s1, s.Clock = some s1 ∧ s1.m_latchedAddress < 16
      ∧ s1.m_BDIR = s.m_BDIR ∧ s1.m_BC1 = s.m_BC1 := by
  obtain ⟨t, ht⟩ := clockBus_total s ha
  obtain ⟨_, hb, hc, _, hla, _⟩ := clockBus_frame s t ht
  obtain ⟨_, _, g3, _, _, _, g7, g8⟩ := clockGenerators_bus t
  refine ⟨t.clockGenerators, by rw [Psg.Clock, ht]; rfl, ?_, g7.trans hb, g8.trans hc⟩
  rw [g3]
  rcases hla with h | h
  · rw [h]; exact ha
  · rw [h]; exact Nat.mod_lt _ (by decide)

/-- The loop of `Update` is the iteration of the clock step. -/
theorem iterate_bind_Clock (n : Nat) : ∀ o : Option Psg,
    (fun o : Option Psg => o.bind Psg.Clock)^[n] o = o.bind (fun s => s.Update n) := by
  induction n with
  | zero => intro o; cases o <;> rfl
  | succ n ih =>
    intro o
    rw [Function.iterate_succ_apply, ih]
    cases o with
    | none => rfl
    | some s => rfl

/-- Splitting the cycle count of `Update`. -/
theorem Update_add (a b : Nat) : ∀ s : Psg,
    s.Update (a + b) = (s.Update a).bind (fun t => t.Update b) := by
  induction a with
  | zero => intro s; rw [Nat.zero_add]; rfl
  | succ a ih =>
    intro s
    rw [Nat.succ_add, Update_succ, Update_succ]
    cases s.Clock with
    | none => rfl
    | some s1 => exact ih s1

/-- With the latched address in 0..15, `Update` returns, keeps the latched
address in 0..15 and keeps the control lines. -/
theorem Update_total (n : Nat) : ∀ s : Psg, s.m_latchedAddress < 16 →
    ∃ t, s.Update n = some t ∧ t.m_latchedAddress < 16
      ∧ t.m_BDIR = s.m_BDIR ∧ t.m_BC1 = s.m_BC1 := by
  induction n with
  | zero => intro s ha; exact ⟨s, rfl, ha, rfl, rfl⟩
  | succ n ih =>
    intro s ha
    obtain ⟨s1, h1, ha1, hb1, hc1⟩ := Clock_total s ha
    obtain ⟨t, ht, hat, hbt, hct⟩ := ih s1 ha1
    exact ⟨t, by rw [Update_succ, h1]; exact ht, hat, hbt.trans hb1, hct.trans hc1⟩

/-- C12 (Update is n sequential clock steps): for every state and every cycle
count n, `Update(n)` is the n-fold iteration of the per-clock step, applied in
order (a failed step stops the run); `Update(0)` leaves the state unchanged and
`Update(a + b)` is `Update(a)` followed by `Update(b)`.  The control lines are
not changed by `Update`, and when the latched address is in 0..15 (as in every
state reachable from a constructed chip) `Update(n)` returns a state. -/
theorem Update_is_iterated_Clock (s : Psg) (n a b : Nat) :
    s.Update n = (fun o : Option Psg => o.bind Psg.Clock)^[n] (some s)
      ∧ s.Update 0 = some s
      ∧ s.Update (n + 1) = (s.Update n).bind Psg.Clock
      ∧ s.Update (a + b) = (s.Update a).bind (fun t => t.Update b)
      ∧ (s.m_latchedAddress < 16 →
          ∃ t, s.Update n = some t ∧ t.m_BDIR = s.m_BDIR ∧ t.m_BC1 = s.m_BC1) := by
  refine ⟨(iterate_bind_Clock n (some s)).symm, rfl, ?_, Update_add a b s, ?_⟩
  · rw [Update_add n 1 s]
    congr 1
    funext t
    exact Update_one t
  · intro ha
    obtain ⟨t, ht, _, hb, hc⟩ := Update_total n s ha
    exact ⟨t, ht, hb, hc⟩

/-- Witness of C12: 40 cycles on the chip `exampleRead` return a state. -/
theorem Update_is_iterated_Clock_witness :
    exampleRead.m_latchedAddress < 16
      ∧ ∃ t, exampleRead.Update 40 = some t ∧ t.m_BDIR = exampleRead.m_BDIR
          ∧ t.m_BC1 = exampleRead.m_BC1 :=
  ⟨by decide, (Update_is_iterated_Clock exampleRead 40 0 0).2.2.2.2 (by decide)⟩

/-! ## The master divider -/

/-- A clock step advances the master divider by one input clock, whatever the
bus does. -/
theorem Clock_divider (s s1 : Psg) (h : s.Clock = some s1) :
    s1.m_masterDivider = s.m_masterDivider.Clock.2 := by
  unfold Psg.Clock at h
  obtain ⟨t, ht, hs⟩ := Option.map_eq_some'.mp h
  obtain ⟨_, _, _, hd, _⟩ := clockBus_frame s t ht
  rw [← hs, ← hd]
  cases hc : t.m_masterDivider.Clock.1 <;> simp [Psg.clockGenerators, hc]

/-- The count of generator clockings over a run of ticks, from any phase of
the master divider. -/
theorem runTicks_count (lines : List (Bool × Bool)) : ∀ s : Psg,
    s.m_latchedAddress < 16 → s.m_masterDivider.m_time < 16 →
    ∃ t, s.runTicks lines = some (t, (s.m_masterDivider.m_time + lines.length) / 16)
      ∧ t.m_masterDivider.m_time = (s.m_masterDivider.m_time + lines.length) % 16
      ∧ t.m_latchedAddress < 16 := by
  induction lines with
  | nil =>
    intro s ha hc
    refine ⟨s, ?_, ?_, ha⟩
    · simp only [Psg.runTicks, List.length_nil, Nat.add_zero]
      rw [Nat.div_eq_of_lt hc]
    · simp only [List.length_nil, Nat.add_zero]
      exact (Nat.mod_eq_of_lt hc).symm
  | cons l rest ih =>
    intro s ha hc
    obtain ⟨s1, h1, ha1, _, _⟩ := Clock_total ((s.SetBDIR l.1).SetBC1 l.2) ha
    have hd : s1.m_masterDivider = s.m_masterDivider.Clock.2 :=
      Clock_divider ((s.SetBDIR l.1).SetBC1 l.2) s1 h1
    have htime : s1.m_masterDivider.m_time
        = if s.m_masterDivider.m_time = 15 then 0 else s.m_masterDivider.m_time + 1 := by
      rw [hd]
      unfold MasterDivider.Clock
      by_cases h15 : s.m_masterDivider.m_time = 15
      · simp [h15]
      · have : ¬ (16 ≤ s.m_masterDivider.m_time + 1) := by omega
        simp [h15, this]
    have hexp : s.clocksGenerators = decide (s.m_masterDivider.m_time = 15) := by
      unfold Psg.clocksGenerators MasterDivider.Clock
      by_cases h15 : s.m_masterDivider.m_time = 15
      · simp [h15]
      · have : ¬ (16 ≤ s.m_masterDivider.m_time + 1) := by omega
        simp [h15, this]
    have hc1 : s1.m_masterDivider.m_time < 16 := by
      rw [htime]; split <;> omega
    obtain ⟨t, ht, htt, hat⟩ := ih s1 ha1 hc1
    refine ⟨t, ?_, ?_, hat⟩
    · rw [Psg.runTicks, tick_eq_Clock, h1]
      simp only [Option.some_bind, ht, Option.map_some', hexp, htime, List.length_cons]
      congr 2
      by_cases h15 : s.m_masterDivider.m_time = 15
      · simp only [h15, if_true, decide_True]
        omega
      · simp only [h15, if_false, decide_False, Bool.false_eq_true]
        omega
    · rw [htt, htime, List.length_cons]
      by_cases h15 : s.m_masterDivider.m_time = 15
      · simp only [h15, if_true]; omega
      · simp only [h15, if_false]; omega

/-- The expiry branch of the generator clocking is the sequence of calls in
source order. -/
theorem clockGenerators_in_order (s : Psg) (h : s.clocksGenerators = true) :
    s.clockGenerators = generatorClockOrder.foldl Psg.clockGenerator
      { s with m_masterDivider := s.m_masterDivider.Clock.2 } := by
  unfold Psg.clocksGenerators at h
  simp only [Psg.clockGenerators, h, if_true, generatorClockOrder, List.foldl,
    Psg.clockGenerator, Psg.setToneGenerator]
  congr 1
  funext i
  fin_cases i <;> simp [Function.update]

/-- C13 (divide-by-16 generator clocking): starting from a reset state, for
every n and every choice of control-line levels on each tick, a run of 16 * n
ticks returns and clocks the generators on exactly n of its ticks, leaving the
divider at the start of a period.  On such a tick the five generators are
clocked once each in the order tone A, tone B, tone C, noise, envelope; on
every other tick none is clocked.  Whether a tick clocks them is decided by
the master divider alone: the mode handling of the step never changes it. -/
theorem generators_clocked_every_16 (u : Psg) (lines : List (Bool × Bool)) (n : Nat)
    (hu : u.m_latchedAddress < 16) (hlen : lines.length = 16 * n) :
    (∃ t, u.Reset.runTicks lines = some (t, n) ∧ t.m_masterDivider.m_time = 0)
    ∧ (∀ s : Psg, s.clocksGenerators = true →
        s.clockGenerators = generatorClockOrder.foldl Psg.clockGenerator
          { s with m_masterDivider := s.m_masterDivider.Clock.2 })
    ∧ (∀ s : Psg, s.clocksGenerators = false →
        s.clockGenerators.m_toneGenerators = s.m_toneGenerators
          ∧ s.clockGenerators.m_noiseGenerator = s.m_noiseGenerator
          ∧ s.clockGenerators.m_envelopeGenerator = s.m_envelopeGenerator)
    ∧ (∀ s s1 : Psg, s.Clock = some s1 →
        ∃ t, s.clockBus = some t ∧ s1 = t.clockGenerators
          ∧ t.clocksGenerators = s.clocksGenerators)
    ∧ (∀ s s1 : Psg, s.m_masterDivider = s1.m_masterDivider →
        s.clocksGenerators = s1.clocksGenerators) := by
  refine ⟨?_, clockGenerators_in_order, ?_, ?_, ?_⟩
  · obtain ⟨t, ht, htt, _⟩ :=
      runTicks_count lines u.Reset hu (show (0 : Nat) < 16 by decide)
    have h0 : u.Reset.m_masterDivider.m_time = 0 := rfl
    rw [h0, hlen, Nat.zero_add] at ht htt
    refine ⟨t, ?_, ?_⟩
    · rw [ht, Nat.mul_div_cancel_left n (by decide)]
    · rw [htt, Nat.mul_mod_right]
  · intro s h
    unfold Psg.clocksGenerators at h
    simp [Psg.clockGenerators, h]
  · intro s s1 h
    unfold Psg.Clock at h
    obtain ⟨t, ht, hs⟩ := Option.map_eq_some'.mp h
    obtain ⟨_, _, _, hd, _⟩ := clockBus_frame s t ht
    exact ⟨t, ht, hs.symm, by unfold Psg.clocksGenerators; rw [hd]⟩
  · intro s s1 h
    unfold Psg.clocksGenerators
    rw [h]

/-- Witness of C13: 32 ticks with the lines held at Write, from the reset of a
constructed chip, clock the generators on 2 ticks. -/
theorem generators_clocked_every_16_witness :
    Psg.construct.m_latchedAddress < 16
      ∧ (List.replicate 32 (true, false)).length = 16 * 2
      ∧ ∃ t, Psg.construct.Reset.runTicks (List.replicate 32 (true, false)) = some (t, 2)
          ∧ t.m_masterDivider.m_time = 0 :=
  ⟨by decide, rfl,
    (generators_clocked_every_16 Psg.construct (List.replicate 32 (true, false)) 2
      (by decide) rfl).1⟩

/-! ## Generator-backed registers -/

/-- A register write with a generator address latched returns and leaves the
backing array, the channels and the diagnostics as they were. -/
theorem Write_generator_address (s : Psg) (address v : Nat)
    (hl : s.m_latchedAddress ∈ generatorAddresses) :
    ∃ t, s.Write address v = some t ∧ t.m_registers = s.m_registers
      ∧ t.m_channels = s.m_channels ∧ t.undefinedLog = s.undefinedLog := by
  simp only [generatorAddresses, List.mem_cons, List.mem_singleton, List.not_mem_nil,
    or_false] at hl
  rcases hl with h | h | h | h | h | h | h | h | h | h <;>
    simp [Psg.Write, h, Psg.setToneGenerator]

/-- A register read with a generator address latched does not look at the
backing array. -/
theorem Read_generator_address (s : Psg) (address : Nat)
    (hl : s.m_latchedAddress ∈ generatorAddresses) (registers : Fin 16 → Nat) :
    (∃ r, s.Read address = some r)
      ∧ Psg.Read { s with m_registers := registers } address = s.Read address := by
  simp only [generatorAddresses, List.mem_cons, List.mem_singleton, List.not_mem_nil,
    or_false] at hl
  rcases hl with h | h | h | h | h | h | h | h | h | h <;>
    simp [Psg.Read, h]

/-- A clock step keeps the backing entries at the generator addresses. -/
theorem Clock_generator_registers (s s1 : Psg) (h : s.Clock = some s1) (i : Fin 16)
    (hi : i.val ∈ generatorAddresses) : s1.m_registers i = s.m_registers i := by
  unfold Psg.Clock at h
  obtain ⟨t, ht, hs⟩ := Option.map_eq_some'.mp h
  rw [← hs, (clockGenerators_bus t).2.2.2.1]
  rcases clockBus_cases s t ht with ht | ⟨_, _, r, _, ht⟩ | ⟨_, _, hw⟩ | ⟨_, _, ht⟩
  · rw [ht]
  · rw [ht]
  · by_cases hg : s.m_latchedAddress ∈ generatorAddresses
    · obtain ⟨t1, ht1, hr, _⟩ :=
        Write_generator_address { s with m_mode := PsgMode.Write } s.m_latchedAddress s.m_DA hg
      rw [ht1] at hw
      rw [← Option.some.inj hw, hr]
    · have hne : i.val ≠ s.m_latchedAddress := fun heq => hg (heq ▸ hi)
      exact Write_other_registers _ t _ _ hw i hne
  · rw [ht]

/-- `Update` keeps the backing entries at the generator addresses. -/
theorem Update_generator_registers (n : Nat) (i : Fin 16)
    (hi : i.val ∈ generatorAddresses) : ∀ s t : Psg, s.Update n = some t →
    t.m_registers i = s.m_registers i := by
  induction n with
  | zero =>
    intro s t hu
    simp only [Psg.Update, Option.some.injEq] at hu
    rw [← hu]
  | succ n ihn =>
    intro s t hu
    rw [Update_succ] at hu
    cases hc : s.Clock with
    | none => rw [hc] at hu; exact absurd hu (by simp)
    | some s1 =>
      rw [hc] at hu
      exact (ihn s1 t hu).trans (Clock_generator_registers s s1 hc i hi)

/-- The states reachable from a reset state have 0 in the backing entries at
the generator addresses. -/
theorem reachable_generator_registers (u s : Psg) (h : Psg.ReachableFrom u.Reset s)
    (i : Fin 16) (hi : i.val ∈ generatorAddresses) : s.m_registers i = 0 := by
  induction h with
  | start => rfl
  | apply op _ ih => cases op <;> first | exact ih | rfl
  | update cycles _ hu ih =>
    exact (Update_generator_registers cycles i hi _ _ hu).trans ih

/-- C14 (generator-backed registers never use the backing array): with a
latched address a in {0, 1, 2, 3, 4, 5, 6, 11, 12, 13}, a register write of any
value returns and leaves all 16 backing entries unchanged, and a register read
returns the period or shape of the generator, the same for every content of
the backing array; consequently, in every state reachable from a reset state
the backing entries at those ten indices are 0. -/
theorem generator_registers_bypass_backing (s : Psg) (v : Nat)
    (hl : s.m_latchedAddress ∈ generatorAddresses) :
    (∃ t, s.Write s.m_latchedAddress v = some t ∧ ∀ i : Fin 16, t.m_registers i = s.m_registers i)
    ∧ (∃ r, s.Read s.m_latchedAddress = some r
        ∧ (∀ registers : Fin 16 → Nat,
            Psg.Read { s with m_registers := registers } s.m_latchedAddress = some r)
        ∧ (s.m_latchedAddress = 0 → r = (s.m_toneGenerators 0).PeriodLow)
        ∧ (s.m_latchedAddress = 1 → r = (s.m_toneGenerators 0).PeriodHigh)
        ∧ (s.m_latchedAddress = 2 → r = (s.m_toneGenerators 1).PeriodLow)
        ∧ (s.m_latchedAddress = 3 → r = (s.m_toneGenerators 1).PeriodHigh)
        ∧ (s.m_latchedAddress = 4 → r = (s.m_toneGenerators 2).PeriodLow)
        ∧ (s.m_latchedAddress = 5 → r = (s.m_toneGenerators 2).PeriodHigh)
        ∧ (s.m_latchedAddress = 6 → r = s.m_noiseGenerator.Period)
        ∧ (s.m_latchedAddress = 11 → r = s.m_envelopeGenerator.PeriodLow)
        ∧ (s.m_latchedAddress = 12 → r = s.m_envelopeGenerator.PeriodHigh)
        ∧ (s.m_latchedAddress = 13 → r = s.m_envelopeGenerator.Shape))
    ∧ (∀ u t : Psg, Psg.ReachableFrom u.Reset t →
        ∀ i : Fin 16, i.val ∈ generatorAddresses → t.m_registers i = 0) := by
  refine ⟨?_, ?_, fun u t h i hi => reachable_generator_registers u t h i hi⟩
  · obtain ⟨t, ht, hr, _⟩ := Write_generator_address s s.m_latchedAddress v hl
    exact ⟨t, ht, fun i => congrFun hr i⟩
  · obtain ⟨⟨r, hr⟩, _⟩ := Read_generator_address s s.m_latchedAddress hl s.m_registers
    refine ⟨r, hr, fun registers => ?_, ?_⟩
    · rw [← hr]
      exact (Read_generator_address s s.m_latchedAddress hl registers).2
    · refine ⟨?_, ?_, ?_, ?_, ?_, ?_, ?_, ?_, ?_, ?_⟩ <;>
        (intro hA
         simp only [Psg.Read, hA] at hr
         exact (Option.some.inj hr).symm)

/-- Witness of C14: with latched address 1 and a backing array full of 0x7F,
the read returns the high nibble of the period of tone generator A. -/
theorem generator_registers_bypass_backing_witness :
    exampleToneHigh.m_latchedAddress ∈ generatorAddresses
      ∧ ∃ r, exampleToneHigh.Read exampleToneHigh.m_latchedAddress = some r
          ∧ r = (exampleToneHigh.m_toneGenerators 0).PeriodHigh :=
  ⟨by decide,
    match (generator_registers_bypass_backing exampleToneHigh 0 (by decide)).2.1 with
    | ⟨r, hr, _, _, h1, _⟩ => ⟨r, hr, h1 rfl⟩⟩

/-! ## The data bus accessors -/

/-- The generator clocking does not look at DA. -/
theorem clockGenerators_WriteDA (s : Psg) (v : Nat) :
    (s.WriteDA v).clockGenerators = s.clockGenerators.WriteDA v := by
  cases h : s.m_masterDivider.Clock.1 <;> simp [Psg.clockGenerators, Psg.WriteDA, h]

/-- A clock step that makes no transition out of Inactive carries DA along. -/
theorem Clock_WriteDA_no_transition (s : Psg) (v : Nat)
    (h : s.m_mode ≠ PsgMode.Inactive
      ∨ ModeFromBDIRandBC1 s.m_BDIR s.m_BC1 = PsgMode.Inactive) :
    (s.WriteDA v).Clock = s.Clock.map (fun t => t.WriteDA v) := by
  have hb : ∀ u : Psg, (u.m_mode ≠ PsgMode.Inactive
      ∨ ModeFromBDIRandBC1 u.m_BDIR u.m_BC1 = PsgMode.Inactive) →
      u.clockBus = some { u with m_mode := ModeFromBDIRandBC1 u.m_BDIR u.m_BC1 } := by
    intro u hu
    by_cases hm : u.m_mode = PsgMode.Inactive
    · have hl := hu.resolve_left (fun hne => hne hm)
      simp [Psg.clockBus, hl]
    · exact clockBus_of_not_inactive u hm
  rw [Psg.Clock, Psg.Clock, hb s h, hb (s.WriteDA v) h]
  exact congrArg some
    (clockGenerators_WriteDA { s with m_mode := ModeFromBDIRandBC1 s.m_BDIR s.m_BC1 } v)

/-- The Inactive to Read step overwrites DA without using it. -/
theorem Clock_WriteDA_read (s : Psg) (v : Nat) (hmode : s.m_mode = PsgMode.Inactive)
    (hlines : ModeFromBDIRandBC1 s.m_BDIR s.m_BC1 = PsgMode.Read) :
    (s.WriteDA v).Clock = s.Clock := by
  rw [Clock_read_step s hmode hlines, Clock_read_step (s.WriteDA v) hmode hlines]
  rfl

/-- C15 (data bus accessors): `WriteDA(v)` with an 8-bit value v changes only
DA (every other member and the diagnostics are as before), `ReadDA()` right
after it returns v, and `ReadDA()` changes no state.  The written value has no
further effect (on `Sample`, or on a clock step) until a clock step makes an
Inactive to Write or Inactive to LatchAddress transition: a step that makes no
transition out of Inactive carries it along unchanged, and an Inactive to Read
step overwrites it without using it. -/
theorem DA_accessors (s : Psg) (v : Nat) (hv : v < 256) :
    s.WriteDA v = { s with m_DA := v }
    ∧ (s.WriteDA v).ReadDA.1 = v
    ∧ s.ReadDA = (s.m_DA, s)
    ∧ (s.WriteDA v).Sample = s.Sample
    ∧ ((s.m_mode ≠ PsgMode.Inactive
          ∨ ModeFromBDIRandBC1 s.m_BDIR s.m_BC1 = PsgMode.Inactive) →
        (s.WriteDA v).Clock = s.Clock.map (fun t => t.WriteDA v))
    ∧ (s.m_mode = PsgMode.Inactive →
        ModeFromBDIRandBC1 s.m_BDIR s.m_BC1 = PsgMode.Read →
        (s.WriteDA v).Clock = s.Clock) := by
  have hmod : v % 256 = v := Nat.mod_eq_of_lt hv
  refine ⟨?_, ?_, rfl, rfl, Clock_WriteDA_no_transition s v, Clock_WriteDA_read s v⟩
  · simp [Psg.WriteDA, hmod]
  · simp [Psg.WriteDA, Psg.ReadDA, hmod]

/-- Witness of C15: on `exampleHeldRead` (stored mode Read), writing 0x99 to DA
and stepping is stepping and then writing 0x99. -/
theorem DA_accessors_witness :
    0x99 < 256 ∧ exampleHeldRead.m_mode ≠ PsgMode.Inactive
      ∧ (exampleHeldRead.WriteDA 0x99).ReadDA.1 = 0x99
      ∧ (exampleHeldRead.WriteDA 0x99).Clock
          = exampleHeldRead.Clock.map (fun t => t.WriteDA 0x99) :=
  ⟨by decide, by decide, (DA_accessors exampleHeldRead 0x99 (by decide)).2.1,
    (DA_accessors exampleHeldRead 0x99 (by decide)).2.2.2.2.1 (Or.inl (by decide))⟩

/-! ## Sample -/

/-- The accumulator loop of `Sample`, unfolded: three rounded additions and
a rounded division. -/
theorem Sample_eq_rounded (s : Psg) :
    s.Sample = Float32.round (Float32.round (Float32.round (Float32.round
      (0 + s.channelSample 0) + s.channelSample 1) + s.channelSample 2) / 3) := rfl

/-- Three rounded additions of values within [-1, 1] and a rounded division by
3 stay within [-1, 1] and within 2^-22 of the exact mean. -/
theorem float_mean_bound (a b c : ℚ) (ha : |a| ≤ 1) (hb : |b| ≤ 1) (hc : |c| ≤ 1) :
    |Float32.round (Float32.round (Float32.round (Float32.round (0 + a) + b) + c) / 3)| ≤ 1
      ∧ |Float32.round (Float32.round (Float32.round (Float32.round (0 + a) + b) + c) / 3)
          - (a + b + c) / 3| ≤ 1 / 2 ^ 22 := by
  have b1 : |0 + a| ≤ 1 := by rw [zero_add]; exact ha
  have n1 : |Float32.round (0 + a)| ≤ 1 := by
    have h := float_round_abs_le (0 + a) 1 (by norm_num) (by rw [Nat.cast_one]; exact b1)
    rw [Nat.cast_one] at h
    exact h
  have e1 := float_round_err (0 + a) (by linarith)
  generalize Float32.round (0 + a) = r1 at n1 e1 ⊢
  have b2 : |r1 + b| ≤ 2 := (abs_add _ _).trans (by linarith)
  have n2 : |Float32.round (r1 + b)| ≤ 2 := by
    have h := float_round_abs_le (r1 + b) 2 (by norm_num) (by rw [Nat.cast_ofNat]; exact b2)
    rw [Nat.cast_ofNat] at h
    exact h
  have e2 := float_round_err (r1 + b) (by linarith)
  generalize Float32.round (r1 + b) = r2 at n2 e2 ⊢
  have b3 : |r2 + c| ≤ 3 := (abs_add _ _).trans (by linarith)
  have n3 : |Float32.round (r2 + c)| ≤ 3 := by
    have h := float_round_abs_le (r2 + c) 3 (by norm_num) (by rw [Nat.cast_ofNat]; exact b3)
    rw [Nat.cast_ofNat] at h
    exact h
  have e3 := float_round_err (r2 + c) b3
  generalize Float32.round (r2 + c) = r3 at n3 e3 ⊢
  have b4 : |r3 / 3| ≤ 1 := by
    rw [abs_div, abs_of_pos (by norm_num : (0 : ℚ) < 3), div_le_iff₀ (by norm_num)]
    linarith
  have n4 : |Float32.round (r3 / 3)| ≤ 1 := by
    have h := float_round_abs_le (r3 / 3) 1 (by norm_num) (by rw [Nat.cast_one]; exact b4)
    rw [Nat.cast_one] at h
    exact h
  have e4 := float_round_err (r3 / 3) (by linarith)
  generalize Float32.round (r3 / 3) = r4 at n4 e4 ⊢
  refine ⟨n4, ?_⟩
  have q1 := abs_le.mp e1
  have q2 := abs_le.mp e2
  have q3 := abs_le.mp e3
  have q4 := abs_le.mp e4
  have hε : (1 : ℚ) / 2 ^ 22 = 2 * (1 / 2 ^ 23) := by norm_num
  rw [hε, abs_le]
  constructor <;> linarith [q1.1, q1.2, q2.1, q2.2, q3.1, q3.2, q4.1, q4.2]

/-- C16, as stated, fails.  After the bus writes that latch address 8 and store
0x0F on a constructed and initialised chip, the channel samples are 1, 0 and 0
and `Sample()` returns 11184811 / 2^25, the float nearest to 1/3: the division
by 3 is a float division, and the exact mean 1/3 is not a float. -/
theorem Sample_not_exact_mean_counterexample :
    ∃ s, Psg.construct.Init.run writeAmplitudeA = some s
      ∧ s.channelSample 0 = 1 ∧ s.channelSample 1 = 0 ∧ s.channelSample 2 = 0
      ∧ s.Sample = 11184811 / 33554432
      ∧ s.Sample ≠ (s.channelSample 0 + s.channelSample 1 + s.channelSample 2) / 3 := by
  have key : ∃ s, Psg.construct.Init.run writeAmplitudeA = some s
      ∧ s.m_channels 0 = { m_amplitudeControl := { m_fixedVolume := 15 } }
      ∧ s.m_channels 1 = {} ∧ s.m_channels 2 = {} :=
    ⟨_, rfl, rfl, rfl, rfl⟩
  obtain ⟨s, hs, h0, h1, h2⟩ := key
  have e0 : s.channelSample 0 = 1 := by
    simp only [Psg.channelSample, h0, PsgChannel.Sample, AmplitudeControl.Volume,
      float_volume_full]
    simp
  have e1 : s.channelSample 1 = 0 := by
    simp only [Psg.channelSample, h1, PsgChannel.Sample, AmplitudeControl.Volume,
      float_volume_zero]
    simp
  have e2 : s.channelSample 2 = 0 := by
    simp only [Psg.channelSample, h2, PsgChannel.Sample, AmplitudeControl.Volume,
      float_volume_zero]
    simp
  have hS := Sample_of_channelA_full s h0 h1 h2
  refine ⟨s, hs, e0, e1, e2, hS, ?_⟩
  rw [hS, e0, e1, e2]
  norm_num

/-- C16, amended: for every state, `Sample()` is the float obtained by adding
the three channel samples sA, sB, sC in turn to 0 and dividing the sum by 3,
each of the four operations rounded to the nearest float; the call leaves the
chip as it is; and when each channel sample lies in [-1, 1], the result lies
in [-1, 1] and differs from the exact mean (sA + sB + sC) / 3 by at most
2^-22. -/
theorem Sample_is_rounded_mean (s : Psg) :
    s.Sample = Float32.round (Float32.round (Float32.round (Float32.round
        (0 + s.channelSample 0) + s.channelSample 1) + s.channelSample 2) / 3)
      ∧ s.apply HostOp.Sample = s
      ∧ ((∀ i : Fin 3, -1 ≤ s.channelSample i ∧ s.channelSample i ≤ 1) →
          -1 ≤ s.Sample ∧ s.Sample ≤ 1
            ∧ |s.Sample - (s.channelSample 0 + s.channelSample 1 + s.channelSample 2) / 3|
                ≤ 1 / 2 ^ 22) := by
  refine ⟨rfl, rfl, fun h => ?_⟩
  obtain ⟨n, e⟩ := float_mean_bound (s.channelSample 0) (s.channelSample 1)
    (s.channelSample 2) (abs_le.mpr (h 0)) (abs_le.mpr (h 1)) (abs_le.mpr (h 2))
  rw [← Sample_eq_rounded] at n e
  exact ⟨(abs_le.mp n).1, (abs_le.mp n).2, e⟩

/-- The channel samples of a constructed chip are 0. -/
theorem construct_channelSample (i : Fin 3) : Psg.construct.channelSample i = 0 := by
  simp [Psg.channelSample, Psg.construct, PsgChannel.Sample, AmplitudeControl.Volume,
    float_round_zero]

/-- The channel samples of `exampleLoud` are 1, 1 and 0. -/
theorem exampleLoud_channelSample :
    exampleLoud.channelSample 0 = 1 ∧ exampleLoud.channelSample 1 = 1
      ∧ exampleLoud.channelSample 2 = 0 := by
  refine ⟨?_, ?_, ?_⟩
  · have h : exampleLoud.m_channels 0 = { m_amplitudeControl := { m_fixedVolume := 15 } } := rfl
    simp only [Psg.channelSample, h, PsgChannel.Sample, AmplitudeControl.Volume,
      float_volume_full]
    simp
  · have h : exampleLoud.m_channels 1 = { m_amplitudeControl := { m_fixedVolume := 15 } } := rfl
    simp only [Psg.channelSample, h, PsgChannel.Sample, AmplitudeControl.Volume,
      float_volume_full]
    simp
  · have h : exampleLoud.m_channels 2 = {} := rfl
    simp only [Psg.channelSample, h, PsgChannel.Sample, AmplitudeControl.Volume,
      float_volume_zero]
    simp

/-- The sample of `exampleLoud` is the float nearest to 2/3. -/
theorem exampleLoud_Sample : exampleLoud.Sample = 11184811 / 16777216 := by
  obtain ⟨e0, e1, e2⟩ := exampleLoud_channelSample
  rw [Sample_eq_rounded, e0, e1, e2]
  simp only [zero_add, add_zero, float_round_one]
  rw [show (1 : ℚ) + 1 = 2 by norm_num, float_round_two, float_round_two]
  exact float_round_two_thirds

/-- Witness of C16 amended: on `exampleLoud` the channel samples are 1, 1 and
0, all within [-1, 1]; its sample is 11184811 / 2^24, the float nearest to
2/3, which is within [-1, 1] and within 2^-22 of the mean. -/
theorem Sample_is_rounded_mean_witness :
    (∀ i : Fin 3, -1 ≤ exampleLoud.channelSample i ∧ exampleLoud.channelSample i ≤ 1)
      ∧ exampleLoud.channelSample 0 = 1 ∧ exampleLoud.channelSample 1 = 1
      ∧ exampleLoud.Sample = 11184811 / 16777216
      ∧ -1 ≤ exampleLoud.Sample ∧ exampleLoud.Sample ≤ 1
      ∧ |exampleLoud.Sample - (exampleLoud.channelSample 0 + exampleLoud.channelSample 1
          + exampleLoud.channelSample 2) / 3| ≤ 1 / 2 ^ 22 :=
  have hall : ∀ i : Fin 3,
      -1 ≤ exampleLoud.channelSample i ∧ exampleLoud.channelSample i ≤ 1 := by
    obtain ⟨e0, e1, e2⟩ := exampleLoud_channelSample
    intro i
    fin_cases i
    · show -1 ≤ exampleLoud.channelSample 0 ∧ exampleLoud.channelSample 0 ≤ 1
      rw [e0]; norm_num
    · show -1 ≤ exampleLoud.channelSample 1 ∧ exampleLoud.channelSample 1 ≤ 1
      rw [e1]; norm_num
    · show -1 ≤ exampleLoud.channelSample 2 ∧ exampleLoud.channelSample 2 ≤ 1
      rw [e2]; norm_num
  ⟨hall, exampleLoud_channelSample.1, exampleLoud_channelSample.2.1, exampleLoud_Sample,
    (Sample_is_rounded_mean exampleLoud).2.2 hall⟩

/-! ## Channel output -/

/-- The sample of a channel with tone and noise enabled, in Fixed mode at
volume 15: the gate is the conjunction of the tone bit and the noise bit. -/
theorem channelSample_enabled_full (t : Psg) (i : Fin 3)
    (ht : (t.m_channels i).m_toneEnabled = true) (hn : (t.m_channels i).m_noiseEnabled = true)
    (hm : (t.m_channels i).m_amplitudeControl.m_mode = AmplitudeMode.Fixed)
    (hv : (t.m_channels i).m_amplitudeControl.m_fixedVolume = 15) :
    t.channelSample i
      = if (t.m_toneGenerators i).Value = 1 ∧ t.m_noiseGenerator.Value = 1 then 1 else -1 := by
  have htv : (t.m_toneGenerators i).Value = 1 ↔ (t.m_toneGenerators i).m_value = true := by
    unfold ToneGenerator.Value
    cases (t.m_toneGenerators i).m_value <;> simp
  have hnv : t.m_noiseGenerator.Value = 0 ∨ t.m_noiseGenerator.Value = 1 := by
    unfold NoiseGenerator.Value
    rw [Nat.and_one_is_mod]
    omega
  have hT : (t.m_toneGenerators i).Value = 0 ∨ (t.m_toneGenerators i).Value = 1 := by
    unfold ToneGenerator.Value
    cases (t.m_toneGenerators i).m_value <;> simp
  simp only [Psg.channelSample, PsgChannel.Sample, AmplitudeControl.Volume, ht, hn, hm, hv,
    Bool.true_or, Bool.not_true, Bool.or_false, float_volume_full]
  rcases hT with hT | hT <;> rcases hnv with hN | hN <;> simp [hT, hN]

/-- C18, as stated, fails: on a chip whose mixer has enabled tone and noise on
channel A, after an amplitude write of 0x0F (Fixed mode, volume 15) with
latched address 8, the tone bit of channel A is 1 but its sample is -1, because
the noise output bit is 0 (the default noise generator after one clock). -/
theorem channel_follows_tone_counterexample :
    ∃ t, exampleNoiseLow.Write exampleNoiseLow.m_latchedAddress 0x0F = some t
      ∧ (t.m_channels 0).m_toneEnabled = true ∧ (t.m_channels 0).m_noiseEnabled = true
      ∧ (t.m_channels 0).m_amplitudeControl.m_mode = AmplitudeMode.Fixed
      ∧ (t.m_channels 0).m_amplitudeControl.m_fixedVolume = 15
      ∧ (t.m_toneGenerators 0).Value = 1
      ∧ t.m_noiseGenerator.Value = 0
      ∧ t.channelSample 0 = -1 := by
  have key : ∃ t, exampleNoiseLow.Write exampleNoiseLow.m_latchedAddress 0x0F = some t
      ∧ (t.m_channels 0).m_toneEnabled = true ∧ (t.m_channels 0).m_noiseEnabled = true
      ∧ (t.m_channels 0).m_amplitudeControl.m_mode = AmplitudeMode.Fixed
      ∧ (t.m_channels 0).m_amplitudeControl.m_fixedVolume = 15
      ∧ (t.m_toneGenerators 0).Value = 1
      ∧ t.m_noiseGenerator.Value = 0 :=
    ⟨_, rfl, rfl, rfl, rfl, rfl, rfl, rfl⟩
  obtain ⟨t, hw, h1, h2, h3, h4, h5, h6⟩ := key
  refine ⟨t, hw, h1, h2, h3, h4, h5, h6, ?_⟩
  rw [channelSample_enabled_full t 0 h1 h2 h3 h4, h5, h6]
  simp

/-- C18, amended: for every channel i, after a mixer write whose bits i and
3 + i are both 0 and an amplitude write selecting Fixed mode with volume 15 for
channel i (whatever happens in between to the rest of the chip), the sample of
that channel is +1 exactly when the output bit of its tone generator is 1 and
the output bit of the noise generator is 1, and -1 otherwise; so for every
state of the noise generator whose output bit is 1 the sample is +1 when the
tone bit is 1 and -1 when it is 0.  The sample is a function of the settings
of channel i, of tone generator i and of the shared noise and envelope
generators only. -/
theorem channel_output_tone_and_noise (s : Psg) (i : Fin 3) (v w : Nat)
    (hl : s.m_latchedAddress = 7)
    (hv1 : v.testBit i.val = false) (hv2 : v.testBit (3 + i.val) = false)
    (hw1 : w.testBit 4 = false) (hw2 : w &&& 0x0F = 15) :
    ∃ s1, s.Write s.m_latchedAddress v = some s1 ∧
      ∀ s2 : Psg, s2.m_channels i = s1.m_channels i → s2.m_latchedAddress = 8 + i.val →
        ∃ s3, s2.Write s2.m_latchedAddress w = some s3 ∧
          ∀ t : Psg, t.m_channels i = s3.m_channels i →
            (t.channelSample i = 1 ↔
              ((t.m_toneGenerators i).Value = 1 ∧ t.m_noiseGenerator.Value = 1))
            ∧ (t.channelSample i = -1 ↔
              ¬ ((t.m_toneGenerators i).Value = 1 ∧ t.m_noiseGenerator.Value = 1))
            ∧ (t.m_noiseGenerator.Value = 1 →
                (t.channelSample i = 1 ↔ (t.m_toneGenerators i).Value = 1)
                ∧ (t.channelSample i = -1 ↔ (t.m_toneGenerators i).Value = 0))
            ∧ (∀ t1 : Psg, t1.m_channels i = t.m_channels i →
                t1.m_toneGenerators i = t.m_toneGenerators i →
                t1.m_noiseGenerator = t.m_noiseGenerator →
                t1.m_envelopeGenerator = t.m_envelopeGenerator →
                t1.channelSample i = t.channelSample i) := by
  refine ⟨_, Write_mixer_eq s v hl, fun s2 h2 hl2 => ?_⟩
  have h1c : ∀ u : Psg, u.m_channels i = (s.writeMixer v).m_channels i →
      (u.m_channels i).m_toneEnabled = true ∧ (u.m_channels i).m_noiseEnabled = true := by
    intro u hu
    rw [hu, writeMixer_channels, hv1, hv2]
    exact ⟨rfl, rfl⟩
  obtain ⟨s3, h3, h3c, _⟩ := Write_amplitude_eq s2 i w hl2
  rw [writeAmplitude_channels] at h3c
  refine ⟨s3, h3, fun t ht => ?_⟩
  have hand : w &&& 0x0F = w % 16 := Nat.and_pow_two_sub_one_eq_mod w 4
  have hch : t.m_channels i = { s2.m_channels i with
      m_amplitudeControl := { m_mode := AmplitudeMode.Fixed, m_fixedVolume := 15 } } := by
    rw [ht, h3c, Function.update_same, hw1, ← hand, hw2]
    rfl
  obtain ⟨e1, e2⟩ := h1c s2 h2
  have f1 : (t.m_channels i).m_toneEnabled = true := by rw [hch]; exact e1
  have f2 : (t.m_channels i).m_noiseEnabled = true := by rw [hch]; exact e2
  have f3 : (t.m_channels i).m_amplitudeControl.m_mode = AmplitudeMode.Fixed := by rw [hch]
  have f4 : (t.m_channels i).m_amplitudeControl.m_fixedVolume = 15 := by rw [hch]
  have hs := channelSample_enabled_full t i f1 f2 f3 f4
  have hT : (t.m_toneGenerators i).Value = 0 ∨ (t.m_toneGenerators i).Value = 1 := by
    unfold ToneGenerator.Value
    cases (t.m_toneGenerators i).m_value <;> simp
  refine ⟨?_, ?_, ?_, ?_⟩
  · rw [hs]
    by_cases hc : (t.m_toneGenerators i).Value = 1 ∧ t.m_noiseGenerator.Value = 1
    · simp [hc]
    · simp only [hc, if_false, iff_false]
      norm_num
  · rw [hs]
    by_cases hc : (t.m_toneGenerators i).Value = 1 ∧ t.m_noiseGenerator.Value = 1
    · simp only [hc, if_true, and_self, not_true_eq_false, iff_false]
      norm_num
    · simp [hc]
  · intro hN
    rw [hs]
    rcases hT with h0 | h1
    · simp only [h0, hN, and_true]
      norm_num
    · simp only [h1, hN, and_self, if_true]
      norm_num
  · intro t1 c1 c2 c3 c4
    simp only [Psg.channelSample, c1, c2, c3, c4]

/-- Witness of C18 amended: mixer value 0 and amplitude value 0x0F on channel
B; with the tone bit at 1 and the default noise generator (output bit 1) the
sample of channel B is +1. -/
theorem channel_output_tone_and_noise_witness :
    exampleToneB.m_latchedAddress = 7
      ∧ (0 : Nat).testBit (1 : Fin 3).val = false
      ∧ (0 : Nat).testBit (3 + (1 : Fin 3).val) = false
      ∧ (0x0F : Nat).testBit 4 = false ∧ 0x0F &&& 0x0F = 15
      ∧ ∃ s1, exampleToneB.Write exampleToneB.m_latchedAddress 0 = some s1
          ∧ ∃ s3, Psg.Write { s1 with m_latchedAddress := 9 } 9 0x0F = some s3
            ∧ s3.channelSample 1 = 1 :=
  ⟨rfl, by decide, by decide, by decide, by decide,
    match channel_output_tone_and_noise exampleToneB 1 0 0x0F rfl (by decide) (by decide)
      (by decide) (by decide) with
    | ⟨s1, h1, hrest⟩ =>
      ⟨s1, h1,
        match hrest { s1 with m_latchedAddress := 9 } rfl rfl with
        | ⟨s3, h3, hsample⟩ =>
          ⟨s3, h3, (hsample s3 rfl).1.mpr (by
            have hw := Write_keeps_clocked_state _ _ _ _ h3
            have hw1 := Write_keeps_clocked_state _ _ _ _ h1
            refine ⟨?_, ?_⟩
            · unfold ToneGenerator.Value
              rw [hw.2.1 1]
              show (if (s1.m_toneGenerators 1).m_value = true then 1 else 0) = 1
              rw [hw1.2.1 1]
              rfl
            · unfold NoiseGenerator.Value
              rw [hw.2.2.2]
              show s1.m_noiseGenerator.m_shiftRegister &&& 1 = 1
              rw [hw1.2.2.2]
              rfl)⟩⟩⟩

/-! ## Tone generator -/

theorem toggles_add (a b : Nat) : ∀ g : ToneGenerator,
    g.toggles (a + b) = g.toggles a + (ToneGenerator.Clock^[a] g).toggles b := by
  induction a with
  | zero => intro g; simp [ToneGenerator.toggles]
  | succ a ih =>
    intro g
    rw [Nat.succ_add, ToneGenerator.toggles, ToneGenerator.toggles, ih g.Clock,
      Function.iterate_succ_apply, Nat.add_assoc]

/-- While the counter is above 1 a clock only decrements it. -/
theorem tone_countdown (k : Nat) : ∀ g : ToneGenerator, k + 1 ≤ g.m_counter →
    ToneGenerator.Clock^[k] g = { g with m_counter := g.m_counter - k }
      ∧ g.toggles k = 0 := by
  induction k with
  | zero => intro g _; exact ⟨rfl, rfl⟩
  | succ k ih =>
    intro g hk
    have hne : ¬ (g.m_counter - 1 = 0) := by omega
    have hclock : g.Clock = { g with m_counter := g.m_counter - 1 } := by
      simp [ToneGenerator.Clock, hne]
    have hk1 : k + 1 ≤ g.Clock.m_counter := by rw [hclock]; show k + 1 ≤ g.m_counter - 1; omega
    obtain ⟨h1, h2⟩ := ih g.Clock hk1
    refine ⟨?_, ?_⟩
    · rw [Function.iterate_succ_apply, h1, hclock]
      show ({ g with m_counter := g.m_counter - 1 - k } : ToneGenerator) = _
      rw [Nat.sub_sub, Nat.add_comm 1 k]
    · rw [ToneGenerator.toggles, h2, hclock]
      simp

/-- From a counter c of at least 1, the c-th clock is the first to flip the
output, and it reloads the counter. -/
theorem tone_expiry (g : ToneGenerator) (hc : 1 ≤ g.m_counter) :
    ToneGenerator.Clock^[g.m_counter] g
        = { g with m_counter := max g.m_period 1, m_value := !g.m_value }
      ∧ g.toggles g.m_counter = 1
      ∧ ∀ k, k < g.m_counter → (ToneGenerator.Clock^[k] g).m_value = g.m_value := by
  obtain ⟨c, hcc⟩ : ∃ c, g.m_counter = c + 1 := ⟨g.m_counter - 1, by omega⟩
  obtain ⟨h1, h2⟩ := tone_countdown c g (by omega)
  have hlast : ({ g with m_counter := g.m_counter - c } : ToneGenerator).Clock
      = { g with m_counter := max g.m_period 1, m_value := !g.m_value } := by
    have : g.m_counter - c - 1 = 0 := by omega
    simp [ToneGenerator.Clock, this]
  refine ⟨?_, ?_, ?_⟩
  · rw [hcc, Function.iterate_succ_apply', h1, hlast]
  · rw [hcc, toggles_add c 1 g, h2, h1, ToneGenerator.toggles, ToneGenerator.toggles, hlast]
    cases g.m_value <;> simp
  · intro k hk
    obtain ⟨h3, _⟩ := tone_countdown k g (by omega)
    rw [h3]

/-- A clock of two generators that differ only in having period 0 and period 1
leaves them so. -/
theorem tone_period_zero_one_step (g0 g1 : ToneGenerator) (h0 : g0.m_period = 0)
    (h1 : g1.m_period = 1) (hc : g0.m_counter = g1.m_counter) (hv : g0.m_value = g1.m_value) :
    g0.Clock.m_period = 0 ∧ g1.Clock.m_period = 1
      ∧ g0.Clock.m_counter = g1.Clock.m_counter ∧ g0.Clock.m_value = g1.Clock.m_value := by
  by_cases hz : g1.m_counter - 1 = 0 <;>
    simp [ToneGenerator.Clock, h0, h1, hc, hv, hz]

theorem tone_period_zero_one (n : Nat) : ∀ g0 g1 : ToneGenerator, g0.m_period = 0 →
    g1.m_period = 1 → g0.m_counter = g1.m_counter → g0.m_value = g1.m_value →
    (ToneGenerator.Clock^[n] g0).m_value = (ToneGenerator.Clock^[n] g1).m_value
      ∧ (ToneGenerator.Clock^[n] g0).m_counter = (ToneGenerator.Clock^[n] g1).m_counter
      ∧ g0.toggles n = g1.toggles n := by
  induction n with
  | zero => intro g0 g1 _ _ hc hv; exact ⟨hv, hc, rfl⟩
  | succ n ih =>
    intro g0 g1 h0 h1 hc hv
    obtain ⟨s0, s1, sc, sv⟩ := tone_period_zero_one_step g0 g1 h0 h1 hc hv
    obtain ⟨i1, i2, i3⟩ := ih g0.Clock g1.Clock s0 s1 sc sv
    refine ⟨by rw [Function.iterate_succ_apply, Function.iterate_succ_apply]; exact i1,
      by rw [Function.iterate_succ_apply, Function.iterate_succ_apply]; exact i2, ?_⟩
    rw [ToneGenerator.toggles, ToneGenerator.toggles, i3, sv, hv]

/-- With period 0 or 1 and a counter of at most 1, every clock flips the
output. -/
theorem tone_toggles_every_clock (n : Nat) : ∀ g : ToneGenerator, g.m_period ≤ 1 →
    g.m_counter ≤ 1 → g.toggles n = n := by
  induction n with
  | zero => intro g _ _; rfl
  | succ n ih =>
    intro g hp hc
    have hz : g.m_counter - 1 = 0 := by omega
    have hclock : g.Clock = { g with m_counter := max g.m_period 1, m_value := !g.m_value } := by
      simp [ToneGenerator.Clock, hz]
    have hm : max g.m_period 1 = 1 := by omega
    rw [ToneGenerator.toggles, ih g.Clock (by rw [hclock]; exact hp)
      (by rw [hclock]; show max g.m_period 1 ≤ 1; omega), hclock]
    cases g.m_value <;> simp <;> omega

/-- C19 (tone periodicity): for every 12-bit period p > 0 and every tone
generator with that period whose counter has just been reloaded, 2p clocks
flip the output exactly twice (on the p-th and on the 2p-th clock) and bring
the generator back to the state it started from, the output level included.
A generator with period 0 behaves as one with period 1: from equal counters
and output levels their outputs agree after any number of clocks, and after a
reload both flip on every clock. -/
theorem tone_periodicity (g : ToneGenerator) (p : Nat) (hp : 0 < p) (hp12 : p < 4096)
    (hper : g.m_period = p) (hrel : g.m_counter = max g.m_period 1) :
    g.toggles (2 * p) = 2
    ∧ ToneGenerator.Clock^[2 * p] g = g
    ∧ (ToneGenerator.Clock^[2 * p] g).m_value = g.m_value
    ∧ (∀ k, k < p → (ToneGenerator.Clock^[k] g).m_value = g.m_value)
    ∧ (∀ k, p ≤ k → k < 2 * p → (ToneGenerator.Clock^[k] g).m_value = !g.m_value)
    ∧ (∀ g0 g1 : ToneGenerator, g0.m_period = 0 → g1.m_period = 1 →
        g0.m_counter = g1.m_counter → g0.m_value = g1.m_value →
        ∀ n, (ToneGenerator.Clock^[n] g0).m_value = (ToneGenerator.Clock^[n] g1).m_value
          ∧ g0.toggles n = g1.toggles n)
    ∧ (∀ g0 : ToneGenerator, g0.m_period = 0 → g0.m_counter = max g0.m_period 1 →
        ∀ n, g0.toggles n = n) := by
  have _ := hp12
  have hc : g.m_counter = p := by rw [hrel, hper]; omega
  have hmax : max g.m_period 1 = p := by rw [hper]; omega
  obtain ⟨e1, e2, e3⟩ := tone_expiry g (by omega)
  rw [hc, hmax] at e1
  rw [hc] at e2 e3
  -- the generator after the first half period
  have hhalf : ({ g with m_counter := p, m_value := !g.m_value } : ToneGenerator).m_counter = p :=
    rfl
  obtain ⟨f1, f2, f3⟩ := tone_expiry
    ({ g with m_counter := p, m_value := !g.m_value } : ToneGenerator) (by rw [hhalf]; omega)
  rw [hhalf] at f1 f2 f3
  have hback : ToneGenerator.Clock^[2 * p] g = g := by
    rw [Nat.two_mul, Function.iterate_add_apply, e1, f1]
    show ({ g with m_counter := max g.m_period 1, m_value := !(!g.m_value) } : ToneGenerator) = g
    rw [hmax, Bool.not_not, ← hc]
  refine ⟨?_, hback, by rw [hback], e3, ?_, ?_, ?_⟩
  · rw [Nat.two_mul, toggles_add p p g, e2, e1, f2]
  · intro k hk1 hk2
    obtain ⟨j, hj⟩ : ∃ j, k = j + p := ⟨k - p, by omega⟩
    rw [hj, Function.iterate_add_apply, e1, f3 j (by omega)]
  · intro g0 g1 h0 h1 hcc hv n
    obtain ⟨i1, _, i3⟩ := tone_period_zero_one n g0 g1 h0 h1 hcc hv
    exact ⟨i1, i3⟩
  · intro g0 h0 hr n
    exact tone_toggles_every_clock n g0 (by omega) (by rw [hr, h0]; decide)

/-- Witness of C19: a generator with period 3, just reloaded, flips exactly
twice in 6 clocks. -/
theorem tone_periodicity_witness :
    0 < 3 ∧ 3 < 4096 ∧ exampleTone3.m_period = 3
      ∧ exampleTone3.m_counter = max exampleTone3.m_period 1
      ∧ exampleTone3.toggles (2 * 3) = 2
      ∧ ToneGenerator.Clock^[2 * 3] exampleTone3 = exampleTone3 :=
  ⟨by decide, by decide, rfl, rfl,
    (tone_periodicity exampleTone3 3 (by decide) (by decide) rfl rfl).1,
    (tone_periodicity exampleTone3 3 (by decide) (by decide) rfl rfl).2.1⟩

/-! ## Noise generator -/

theorem xor_of_bits (a b : Nat) (ha : a < 2) (hb : b < 2) : a ^^^ b = (a + b) % 2 := by
  interval_cases a <;> interval_cases b <;> rfl

/-- The step of the shift register on a 17-bit value, in arithmetic form: the
value is halved and the feedback bit is put at bit 16. -/
theorem ClockShiftRegister_arith (r : Nat) (hr : r < 2 ^ 17) :
    NoiseGenerator.ClockShiftRegister r = r / 2 + 65536 * ((r % 2 + r / 8 % 2) % 2) := by
  have h0 : r &&& 1 = r % 2 := Nat.and_one_is_mod r
  have h3 : (r >>> 3) &&& 1 = r / 8 % 2 := by
    rw [Nat.and_one_is_mod, Nat.shiftRight_eq_div_pow]
  have hx : (r % 2) ^^^ (r / 8 % 2) = (r % 2 + r / 8 % 2) % 2 :=
    xor_of_bits _ _ (Nat.mod_lt _ (by decide)) (Nat.mod_lt _ (by decide))
  have hlow : r / 2 < 2 ^ 16 := by omega
  show ((r % 2 ^ 17) >>> 1) ||| (((r &&& 1) ^^^ ((r >>> 3) &&& 1)) <<< 16) = _
  rw [h0, h3, hx, Nat.mod_eq_of_lt hr, Nat.shiftRight_eq_div_pow, Nat.shiftLeft_eq,
    Nat.pow_one, Nat.or_comm, Nat.mul_comm, ← Nat.mul_add_lt_is_or hlow]
  omega

theorem ClockShiftRegister_lt (r : Nat) (hr : r < 2 ^ 17) :
    NoiseGenerator.ClockShiftRegister r < 2 ^ 17 := by
  rw [ClockShiftRegister_arith r hr]
  have hf : (r % 2 + r / 8 % 2) % 2 < 2 := Nat.mod_lt _ (by decide)
  generalize (r % 2 + r / 8 % 2) % 2 = f at hf
  omega

theorem ClockShiftRegister_ne_zero (r : Nat) (hr : r < 2 ^ 17) (h0 : r ≠ 0) :
    NoiseGenerator.ClockShiftRegister r ≠ 0 := by
  rw [ClockShiftRegister_arith r hr]
  rcases Nat.lt_or_ge r 2 with h | h
  · have h1 : r = 1 := by omega
    subst h1
    decide
  · have h2 : 1 ≤ r / 2 := by omega
    generalize (r % 2 + r / 8 % 2) % 2 = f
    omega

theorem ClockShiftRegister_injOn (r1 r2 : Nat) (h1 : r1 < 2 ^ 17) (h2 : r2 < 2 ^ 17)
    (h : NoiseGenerator.ClockShiftRegister r1 = NoiseGenerator.ClockShiftRegister r2) : r1 = r2 := by
  rw [ClockShiftRegister_arith r1 h1, ClockShiftRegister_arith r2 h2] at h
  have hf1 : (r1 % 2 + r1 / 8 % 2) % 2 < 2 := Nat.mod_lt _ (by decide)
  have hf2 : (r2 % 2 + r2 / 8 % 2) % 2 < 2 := Nat.mod_lt _ (by decide)
  have hq1 : r1 / 2 < 65536 := by omega
  have hq2 : r2 / 2 < 65536 := by omega
  have hq : r1 / 2 = r2 / 2 ∧ (r1 % 2 + r1 / 8 % 2) % 2 = (r2 % 2 + r2 / 8 % 2) % 2 := by
    generalize (r1 % 2 + r1 / 8 % 2) % 2 = f1 at h hf1
    generalize (r2 % 2 + r2 / 8 % 2) % 2 = f2 at h hf2
    generalize r1 / 2 = q1 at h hq1
    generalize r2 / 2 = q2 at h hq2
    omega
  obtain ⟨hq, hf⟩ := hq
  have e1 : r1 / 8 = r1 / 2 / 4 := by rw [Nat.div_div_eq_div_mul]
  have e2 : r2 / 8 = r2 / 2 / 4 := by rw [Nat.div_div_eq_div_mul]
  have h8 : r1 / 8 % 2 = r2 / 8 % 2 := by rw [e1, e2, hq]
  rw [h8] at hf
  have hb : r1 % 2 = r2 % 2 := by
    have b1 : r1 % 2 < 2 := Nat.mod_lt _ (by decide)
    have b2 : r2 % 2 < 2 := Nat.mod_lt _ (by decide)
    have c : r2 / 8 % 2 < 2 := Nat.mod_lt _ (by decide)
    generalize r1 % 2 = x1 at hf b1
    generalize r2 % 2 = x2 at hf b2
    generalize r2 / 8 % 2 = y at hf c
    omega
  omega

theorem bit2_mod_65536 (y : Nat) : y % 65536 / 4 % 2 = y / 4 % 2 := by
  omega

/-- Every 17-bit value is the step of a 17-bit value. -/
theorem ClockShiftRegister_surjOn (y : Nat) (hy : y < 2 ^ 17) :
    ∃ r, r < 2 ^ 17 ∧ NoiseGenerator.ClockShiftRegister r = y := by
  have hb : (y / 65536 + y / 4 % 2) % 2 < 2 := Nat.mod_lt _ (by decide)
  have hlt : 2 * (y % 65536) + (y / 65536 + y / 4 % 2) % 2 < 2 ^ 17 := by
    generalize (y / 65536 + y / 4 % 2) % 2 = b at hb
    omega
  refine ⟨2 * (y % 65536) + (y / 65536 + y / 4 % 2) % 2, hlt, ?_⟩
  rw [ClockShiftRegister_arith _ hlt]
  have hr2 : (2 * (y % 65536) + (y / 65536 + y / 4 % 2) % 2) / 2 = y % 65536 := by
    generalize (y / 65536 + y / 4 % 2) % 2 = b at hb
    omega
  have hrm : (2 * (y % 65536) + (y / 65536 + y / 4 % 2) % 2) % 2
      = (y / 65536 + y / 4 % 2) % 2 := by
    generalize (y / 65536 + y / 4 % 2) % 2 = b at hb
    omega
  have hr8 : (2 * (y % 65536) + (y / 65536 + y / 4 % 2) % 2) / 8 % 2 = y / 4 % 2 := by
    have e : (2 * (y % 65536) + (y / 65536 + y / 4 % 2) % 2) / 8
        = (2 * (y % 65536) + (y / 65536 + y / 4 % 2) % 2) / 2 / 4 := by
      rw [Nat.div_div_eq_div_mul]
    rw [e, hr2]
    exact bit2_mod_65536 y
  rw [hr2, hrm, hr8]
  have hf : ((y / 65536 + y / 4 % 2) % 2 + y / 4 % 2) % 2 = y / 65536 := by
    have c : y / 4 % 2 < 2 := Nat.mod_lt _ (by decide)
    have d : y / 65536 < 2 := by omega
    generalize y / 4 % 2 = c0 at c
    generalize y / 65536 = d0 at d
    omega
  rw [hf]
  omega

/-- The iterates of the step stay among the non-zero 17-bit values. -/
theorem ClockShiftRegister_iterate_mem (n : Nat) : ∀ r : Nat, r < 2 ^ 17 → r ≠ 0 →
    NoiseGenerator.ClockShiftRegister^[n] r < 2 ^ 17
      ∧ NoiseGenerator.ClockShiftRegister^[n] r ≠ 0 := by
  induction n with
  | zero => intro r hr h0; exact ⟨hr, h0⟩
  | succ n ih =>
    intro r hr h0
    rw [Function.iterate_succ_apply]
    exact ih _ (ClockShiftRegister_lt r hr) (ClockShiftRegister_ne_zero r hr h0)

/-- The iterates of the step are injective on the 17-bit values. -/
theorem ClockShiftRegister_iterate_cancel (i : Nat) : ∀ a b : Nat, a < 2 ^ 17 → b < 2 ^ 17 →
    NoiseGenerator.ClockShiftRegister^[i] a = NoiseGenerator.ClockShiftRegister^[i] b →
    a = b := by
  induction i with
  | zero => intro a b _ _ h; exact h
  | succ i ih =>
    intro a b ha hb h
    rw [Function.iterate_succ_apply, Function.iterate_succ_apply] at h
    exact ClockShiftRegister_injOn a b ha hb
      (ih _ _ (ClockShiftRegister_lt a ha) (ClockShiftRegister_lt b hb) h)

/-- Every non-zero 17-bit value comes back to itself after at most 2^17 - 1
steps. -/
theorem ClockShiftRegister_periodic (r : Nat) (hr : r < 2 ^ 17) (h0 : r ≠ 0) :
    ∃ k, 0 < k ∧ k ≤ 2 ^ 17 - 1 ∧ NoiseGenerator.ClockShiftRegister^[k] r = r := by
  have hcard : (Finset.Ico 1 (2 ^ 17)).card < (Finset.range (2 ^ 17)).card := by
    rw [Nat.card_Ico, Finset.card_range]
    decide
  have hmaps : ∀ i ∈ Finset.range (2 ^ 17),
      NoiseGenerator.ClockShiftRegister^[i] r ∈ Finset.Ico 1 (2 ^ 17) := by
    intro i _
    obtain ⟨h1, h2⟩ := ClockShiftRegister_iterate_mem i r hr h0
    exact Finset.mem_Ico.mpr ⟨Nat.pos_of_ne_zero h2, h1⟩
  obtain ⟨x, hx, y, hy, hxy, hf⟩ :=
    Finset.exists_ne_map_eq_of_card_lt_of_maps_to hcard hmaps
  have key : ∀ i j : Nat, i < j → j < 2 ^ 17 →
      NoiseGenerator.ClockShiftRegister^[i] r = NoiseGenerator.ClockShiftRegister^[j] r →
      ∃ k, 0 < k ∧ k ≤ 2 ^ 17 - 1 ∧ NoiseGenerator.ClockShiftRegister^[k] r = r := by
    intro i j hij hj h
    refine ⟨j - i, by omega, by omega, ?_⟩
    have hsplit : NoiseGenerator.ClockShiftRegister^[j] r
        = NoiseGenerator.ClockShiftRegister^[i] (NoiseGenerator.ClockShiftRegister^[j - i] r) := by
      rw [← Function.iterate_add_apply]
      congr 1
      omega
    rw [hsplit] at h
    exact (ClockShiftRegister_iterate_cancel i _ _ hr
      (ClockShiftRegister_iterate_mem (j - i) r hr h0).1 h).symm
  rcases Nat.lt_or_gt_of_ne hxy with h | h
  · exact key x y h (Finset.mem_range.mp hy) hf
  · exact key y x h (Finset.mem_range.mp hx) hf.symm

/-- Clocking a noise generator keeps its shift register among the non-zero
17-bit values, whatever its period and counter. -/
theorem noise_shift_nonzero (n : Nat) : ∀ g : NoiseGenerator, g.m_shiftRegister < 2 ^ 17 →
    g.m_shiftRegister ≠ 0 →
    (NoiseGenerator.Clock^[n] g).m_shiftRegister < 2 ^ 17
      ∧ (NoiseGenerator.Clock^[n] g).m_shiftRegister ≠ 0 := by
  induction n with
  | zero => intro g hr h0; exact ⟨hr, h0⟩
  | succ n ih =>
    intro g hr h0
    rw [Function.iterate_succ_apply]
    by_cases hc : g.m_counter - 1 = 0
    · have hclock : g.Clock.m_shiftRegister
          = NoiseGenerator.ClockShiftRegister g.m_shiftRegister := by
        simp [NoiseGenerator.Clock, hc]
      exact ih g.Clock (by rw [hclock]; exact ClockShiftRegister_lt _ hr)
        (by rw [hclock]; exact ClockShiftRegister_ne_zero _ hr h0)
    · have hclock : g.Clock.m_shiftRegister = g.m_shiftRegister := by
        simp [NoiseGenerator.Clock, hc]
      exact ih g.Clock (by rw [hclock]; exact hr) (by rw [hclock]; exact h0)

/-- C20 (the noise shift register never locks up): the step (feedback = bit 0
XOR bit 3, shift right by one, feedback inserted at bit 16) maps every non-zero
17-bit value to a non-zero 17-bit value; so the shift register of a noise
generator that starts non-zero, the default-constructed one with any period
setting in particular, is non-zero after any number of clocks.  The step is a
bijection on the 17-bit values, and every non-zero value recurs after at most
2^17 - 1 steps. -/
theorem noise_never_locks_up :
    (∀ r : Nat, r < 2 ^ 17 → r ≠ 0 →
        NoiseGenerator.ClockShiftRegister r ≠ 0
          ∧ NoiseGenerator.ClockShiftRegister r < 2 ^ 17)
    ∧ (∀ r : Nat, NoiseGenerator.ClockShiftRegister r
        = ((r % 2 ^ 17) >>> 1) ||| (((r &&& 1) ^^^ ((r >>> 3) &&& 1)) <<< 16))
    ∧ (∀ (g : NoiseGenerator) (n : Nat), g.m_shiftRegister < 2 ^ 17 →
        g.m_shiftRegister ≠ 0 → (NoiseGenerator.Clock^[n] g).m_shiftRegister ≠ 0)
    ∧ (∀ period n : Nat,
        (NoiseGenerator.Clock^[n] (({} : NoiseGenerator).SetPeriod period)).m_shiftRegister ≠ 0)
    ∧ Set.BijOn NoiseGenerator.ClockShiftRegister {r | r < 2 ^ 17} {r | r < 2 ^ 17}
    ∧ (∀ r : Nat, r < 2 ^ 17 → r ≠ 0 →
        ∃ k, 0 < k ∧ k ≤ 2 ^ 17 - 1 ∧ NoiseGenerator.ClockShiftRegister^[k] r = r) := by
  refine ⟨fun r hr h0 => ⟨ClockShiftRegister_ne_zero r hr h0, ClockShiftRegister_lt r hr⟩,
    fun _ => rfl, fun g n hr h0 => (noise_shift_nonzero n g hr h0).2, ?_, ?_,
    ClockShiftRegister_periodic⟩
  · intro period n
    exact (noise_shift_nonzero n _ (show (1 : Nat) < 2 ^ 17 by decide)
      (show (1 : Nat) ≠ 0 by decide)).2
  · refine ⟨fun r hr => ClockShiftRegister_lt r hr,
      fun a ha b hb h => ClockShiftRegister_injOn a b ha hb h, fun y hy => ?_⟩
    obtain ⟨r, hr, e⟩ := ClockShiftRegister_surjOn y hy
    exact ⟨r, hr, e⟩

/-- Witness of C20: the seed 1 steps to 0x10000. -/
theorem noise_never_locks_up_witness :
    (1 : Nat) < 2 ^ 17 ∧ (1 : Nat) ≠ 0
      ∧ NoiseGenerator.ClockShiftRegister 1 ≠ 0
      ∧ NoiseGenerator.ClockShiftRegister 1 < 2 ^ 17 :=
  ⟨by decide, by decide, noise_never_locks_up.1 1 (by decide) (by decide)⟩

/-! ## The end-to-end tone scenario -/

/-- While the counter is above 1 a clock only decrements it. -/
theorem envelope_countdown (k : Nat) : ∀ g : EnvelopeGenerator, k + 1 ≤ g.m_counter →
    EnvelopeGenerator.Clock^[k] g = { g with m_counter := g.m_counter - k } := by
  induction k with
  | zero => intro g _; rfl
  | succ k ih =>
    intro g hk
    have hne : ¬ (g.m_counter - 1 = 0) := by omega
    have hclock : g.Clock = { g with m_counter := g.m_counter - 1 } := by
      simp [EnvelopeGenerator.Clock, hne]
    have hk1 : k + 1 ≤ g.Clock.m_counter := by
      rw [hclock]; show k + 1 ≤ g.m_counter - 1; omega
    rw [Function.iterate_succ_apply, ih g.Clock hk1, hclock]
    show ({ g with m_counter := g.m_counter - 1 - k } : EnvelopeGenerator) = _
    rw [Nat.sub_sub, Nat.add_comm 1 k]

/-- From a counter c of at least 1, the c-th clock reloads the counter and
advances the step. -/
theorem envelope_expiry (g : EnvelopeGenerator) (hc : 1 ≤ g.m_counter) :
    EnvelopeGenerator.Clock^[g.m_counter] g
      = EnvelopeGenerator.advance { g with m_counter := max g.m_period 1 } := by
  obtain ⟨c, hcc⟩ : ∃ c, g.m_counter = c + 1 := ⟨g.m_counter - 1, by omega⟩
  have h1 := envelope_countdown c g (by omega)
  have hz : g.m_counter - c - 1 = 0 := by omega
  rw [hcc, Function.iterate_succ_apply', h1]
  simp [EnvelopeGenerator.Clock, hz]

/-- Once the generator holds, clocks change neither the hold state nor the
level. -/
theorem envelope_hold_frozen (n : Nat) : ∀ g : EnvelopeGenerator, g.m_holding = true →
    (EnvelopeGenerator.Clock^[n] g).m_holding = true
      ∧ (EnvelopeGenerator.Clock^[n] g).m_value = g.m_value := by
  induction n with
  | zero => intro g h; exact ⟨h, rfl⟩
  | succ n ih =>
    intro g h
    have hclock : g.Clock.m_holding = true ∧ g.Clock.m_value = g.m_value := by
      by_cases hz : g.m_counter - 1 = 0 <;>
        simp [EnvelopeGenerator.Clock, EnvelopeGenerator.advance, hz, h]
    obtain ⟨i1, i2⟩ := ih g.Clock hclock.1
    rw [Function.iterate_succ_apply]
    exact ⟨i1, i2.trans hclock.2⟩

/-- The shapes with continue = 0 and attack = 0 are the shapes 0..3. -/
theorem decay_shape_bits (shape : Nat) (hs : shape < 4) :
    EnvelopeGenerator.shapeContinue shape = false
      ∧ EnvelopeGenerator.shapeAttack shape = false := by
  interval_cases shape <;> exact ⟨rfl, rfl⟩

theorem decay_shape_lt (shape : Nat) (h16 : shape < 16)
    (hc : EnvelopeGenerator.shapeContinue shape = false)
    (ha : EnvelopeGenerator.shapeAttack shape = false) : shape < 4 := by
  revert hc ha
  interval_cases shape <;> decide

/-- One period of clocks moves the decay ramp from step j to step j + 1. -/
theorem decay_next_phase (P shape j : Nat) (hP : 1 ≤ P) (hs : shape < 4) (hj : j < 15) :
    EnvelopeGenerator.Clock^[P] (EnvelopeGenerator.decayPhase P shape j)
      = EnvelopeGenerator.decayPhase P shape (j + 1) := by
  obtain ⟨hc, ha⟩ := decay_shape_bits shape hs
  have hexp := envelope_expiry (EnvelopeGenerator.decayPhase P shape j) hP
  have hcount : (EnvelopeGenerator.decayPhase P shape j).m_counter = P := rfl
  rw [hcount] at hexp
  rw [hexp]
  have hmax : max P 1 = P := by omega
  have h16 : ¬ (j + 1 = 16) := by omega
  have hm32 : (j + 1) % 32 = j + 1 := by omega
  have hm16 : (j + 1) % 16 = j + 1 := by omega
  have hlt : j + 1 < 16 := by omega
  have h15 : ¬ (j = 15) := by omega
  simp [EnvelopeGenerator.decayPhase, EnvelopeGenerator.advance, EnvelopeGenerator.levelAt,
    hc, ha, hmax, h16, hm32, hm16, hlt, h15]

/-- One period of clocks after step 15 completes the single pass: the generator
holds at level 0. -/
theorem decay_last_phase (P shape : Nat) (hP : 1 ≤ P) (hs : shape < 4) :
    EnvelopeGenerator.Clock^[P] (EnvelopeGenerator.decayPhase P shape 15)
      = EnvelopeGenerator.decayHeld P shape := by
  obtain ⟨hc, ha⟩ := decay_shape_bits shape hs
  have hexp := envelope_expiry (EnvelopeGenerator.decayPhase P shape 15) hP
  have hcount : (EnvelopeGenerator.decayPhase P shape 15).m_counter = P := rfl
  rw [hcount] at hexp
  rw [hexp]
  have hmax : max P 1 = P := by omega
  simp [EnvelopeGenerator.decayPhase, EnvelopeGenerator.decayHeld, EnvelopeGenerator.advance,
    hc, ha, hmax]

/-- After q whole periods (q at most 15) the decay ramp is at step q. -/
theorem decay_whole_periods (P shape : Nat) (hP : 1 ≤ P) (hs : shape < 4) :
    ∀ q, q ≤ 15 → EnvelopeGenerator.Clock^[q * P] (EnvelopeGenerator.decayPhase P shape 0)
      = EnvelopeGenerator.decayPhase P shape q := by
  intro q
  induction q with
  | zero => intro _; rw [Nat.zero_mul]; rfl
  | succ q ih =>
    intro hq
    have hsplit : (q + 1) * P = P + q * P := by rw [Nat.succ_mul, Nat.add_comm]
    rw [hsplit, Function.iterate_add_apply, ih (by omega)]
    exact decay_next_phase P shape q hP hs (by omega)

/-- The generator after t clocks of the decay ramp, for t below 16 periods. -/
theorem decay_during_ramp (P shape t : Nat) (hP : 1 ≤ P) (hs : shape < 4)
    (ht : t < 16 * P) :
    EnvelopeGenerator.Clock^[t] (EnvelopeGenerator.decayPhase P shape 0)
      = { EnvelopeGenerator.decayPhase P shape (t / P) with m_counter := P - t % P } := by
  have hq : t / P ≤ 15 := by
    have : t / P < 16 := (Nat.div_lt_iff_lt_mul hP).mpr ht
    omega
  have hr : t % P < P := Nat.mod_lt _ hP
  have hsplit : t = t % P + t / P * P := by
    rw [Nat.add_comm, Nat.mul_comm]; exact (Nat.div_add_mod t P).symm
  conv_lhs => rw [hsplit]
  rw [Function.iterate_add_apply, decay_whole_periods P shape hP hs _ hq]
  exact envelope_countdown (t % P) _ (by
    show t % P + 1 ≤ P
    omega)

/-- The generator holds at level 0 from 16 periods on. -/
theorem decay_after_ramp (P shape t : Nat) (hP : 1 ≤ P) (hs : shape < 4)
    (ht : 16 * P ≤ t) :
    (EnvelopeGenerator.Clock^[t] (EnvelopeGenerator.decayPhase P shape 0)).m_holding = true
      ∧ (EnvelopeGenerator.Clock^[t] (EnvelopeGenerator.decayPhase P shape 0)).m_value = 0 := by
  have h16 : EnvelopeGenerator.Clock^[16 * P] (EnvelopeGenerator.decayPhase P shape 0)
      = EnvelopeGenerator.decayHeld P shape := by
    have hsplit : 16 * P = P + 15 * P := by omega
    rw [hsplit, Function.iterate_add_apply, decay_whole_periods P shape hP hs 15 (le_refl _)]
    exact decay_last_phase P shape hP hs
  obtain ⟨d, hd⟩ : ∃ d, t = d + 16 * P := ⟨t - 16 * P, by omega⟩
  rw [hd, Function.iterate_add_apply, h16]
  exact envelope_hold_frozen d _ rfl

/-- A write of a shape with continue = 0 and attack = 0 starts the decay
ramp. -/
theorem SetShape_decay (g : EnvelopeGenerator) (shape : Nat) (hP : 1 ≤ g.m_period)
    (hs : shape < 4) :
    g.SetShape shape = EnvelopeGenerator.decayPhase g.m_period shape 0 := by
  have hm : shape % 16 = shape := by omega
  have hmax : max g.m_period 1 = g.m_period := by omega
  obtain ⟨_, ha⟩ := decay_shape_bits shape hs
  simp [EnvelopeGenerator.SetShape, EnvelopeGenerator.decayPhase, EnvelopeGenerator.levelAt,
    hm, hmax, ha]

/-- The level of the one-shot decay t clocks after the shape write. -/
theorem decay_value (g0 : EnvelopeGenerator) (shape t : Nat) (hP : 1 ≤ g0.m_period)
    (hs : shape < 4) :
    (t < 16 * g0.m_period →
        (EnvelopeGenerator.Clock^[t] (g0.SetShape shape)).Value = 15 - t / g0.m_period
          ∧ (EnvelopeGenerator.Clock^[t] (g0.SetShape shape)).m_holding = false)
      ∧ (16 * g0.m_period ≤ t →
        (EnvelopeGenerator.Clock^[t] (g0.SetShape shape)).Value = 0
          ∧ (EnvelopeGenerator.Clock^[t] (g0.SetShape shape)).m_holding = true) := by
  rw [SetShape_decay g0 shape hP hs]
  constructor
  · intro ht
    rw [decay_during_ramp g0.m_period shape t hP hs ht]
    exact ⟨rfl, rfl⟩
  · intro ht
    obtain ⟨h1, h2⟩ := decay_after_ramp g0.m_period shape t hP hs ht
    exact ⟨h2, h1⟩

/-- C21, as stated, fails: with period 1, after a write of shape 0 (continue = 0,
attack = 0) the level starts at 15 and is already 0 after 15 generator ticks,
one period before the 16 ticks of the claim; the hold state is not reached
yet. -/
theorem decay_reaches_zero_early_counterexample :
    exampleDecay1.m_period = 1 ∧ exampleDecay1.Value = 15
      ∧ (EnvelopeGenerator.Clock^[15] exampleDecay1).Value = 0
      ∧ (EnvelopeGenerator.Clock^[15] exampleDecay1).m_holding = false
      ∧ 15 < 16 * exampleDecay1.m_period := by
  decide

/-- C21, amended: for every envelope period P >= 1, after a shape write with
continue = 0 and attack = 0 the envelope level starts at 15 and is
non-increasing; after t < 16 * P generator ticks it is 15 - t / P, so it
reaches 0 after exactly 15 * P ticks; the hold state is reached after exactly
16 * P ticks; and the level is 0 at every tick from 15 * P on, no matter how
many further clocks occur.  The levels are the same for all four such shapes,
whatever the alternate and hold bits.  A register write with latched address 13
is this shape write. -/
theorem envelope_one_shot_decay (g0 : EnvelopeGenerator) (shape t : Nat)
    (hP : 1 ≤ g0.m_period) (h16 : shape < 16)
    (hc : EnvelopeGenerator.shapeContinue shape = false)
    (ha : EnvelopeGenerator.shapeAttack shape = false) :
    (g0.SetShape shape).Value = 15
    ∧ (t < 16 * g0.m_period →
        (EnvelopeGenerator.Clock^[t] (g0.SetShape shape)).Value = 15 - t / g0.m_period)
    ∧ ((EnvelopeGenerator.Clock^[t] (g0.SetShape shape)).Value = 0 ↔ 15 * g0.m_period ≤ t)
    ∧ ((EnvelopeGenerator.Clock^[t] (g0.SetShape shape)).m_holding = true
        ↔ 16 * g0.m_period ≤ t)
    ∧ (EnvelopeGenerator.Clock^[t + 1] (g0.SetShape shape)).Value
        ≤ (EnvelopeGenerator.Clock^[t] (g0.SetShape shape)).Value
    ∧ (∀ shape2 : Nat, shape2 < 16 → EnvelopeGenerator.shapeContinue shape2 = false →
        EnvelopeGenerator.shapeAttack shape2 = false →
        (EnvelopeGenerator.Clock^[t] (g0.SetShape shape2)).Value
          = (EnvelopeGenerator.Clock^[t] (g0.SetShape shape)).Value)
    ∧ (∀ s : Psg, s.m_latchedAddress = 13 → s.m_envelopeGenerator = g0 →
        ∃ s1, s.Write s.m_latchedAddress shape = some s1
          ∧ s1.m_envelopeGenerator = g0.SetShape shape) := by
  have hs : shape < 4 := decay_shape_lt shape h16 hc ha
  have hval : ∀ (sh : Nat), sh < 4 → ∀ u : Nat,
      (EnvelopeGenerator.Clock^[u] (g0.SetShape sh)).Value
        = if u < 16 * g0.m_period then 15 - u / g0.m_period else 0 := by
    intro sh hsh u
    obtain ⟨d1, d2⟩ := decay_value g0 sh u hP hsh
    by_cases hu : u < 16 * g0.m_period
    · rw [if_pos hu]; exact (d1 hu).1
    · rw [if_neg hu]; exact (d2 (by omega)).1
  have hdiv : ∀ u : Nat, 15 ≤ u / g0.m_period ↔ 15 * g0.m_period ≤ u := fun u =>
    Nat.le_div_iff_mul_le (by omega)
  obtain ⟨d1, d2⟩ := decay_value g0 shape t hP hs
  refine ⟨?_, fun ht => (d1 ht).1, ?_, ?_, ?_, ?_, ?_⟩
  · have h0 := hval shape hs 0
    rw [if_pos (by omega), Nat.zero_div] at h0
    exact h0
  · rw [hval shape hs t]
    by_cases ht : t < 16 * g0.m_period
    · rw [if_pos ht, ← hdiv t]
      omega
    · rw [if_neg ht]
      exact ⟨fun _ => by omega, fun _ => rfl⟩
  · by_cases ht : t < 16 * g0.m_period
    · rw [(d1 ht).2]
      exact ⟨fun h => Bool.noConfusion h, fun h => by omega⟩
    · rw [(d2 (by omega)).2]
      exact ⟨fun _ => by omega, fun _ => rfl⟩
  · rw [hval shape hs t, hval shape hs (t + 1)]
    by_cases ht1 : t + 1 < 16 * g0.m_period
    · rw [if_pos ht1, if_pos (by omega)]
      have hmono : t / g0.m_period ≤ (t + 1) / g0.m_period :=
        Nat.div_le_div_right (Nat.le_succ t)
      omega
    · rw [if_neg ht1]
      exact Nat.zero_le _
  · intro shape2 h2 hc2 ha2
    rw [hval shape hs t, hval shape2 (decay_shape_lt shape2 h2 hc2 ha2) t]
  · intro s hl hg
    refine ⟨{ s with m_envelopeGenerator := s.m_envelopeGenerator.SetShape shape }, ?_, ?_⟩
    · simp [Psg.Write, hl]
    · rw [← hg]

/-- Witness of C21 amended: period 3, shape 1 (continue = 0, attack = 0, hold
set), 20 ticks after the write: the level is 15 - 20 / 3 = 9. -/
theorem envelope_one_shot_decay_witness :
    1 ≤ exampleEnvelopeBusy.m_period ∧ 1 < 16
      ∧ EnvelopeGenerator.shapeContinue 1 = false ∧ EnvelopeGenerator.shapeAttack 1 = false
      ∧ 20 < 16 * exampleEnvelopeBusy.m_period
      ∧ (EnvelopeGenerator.Clock^[20] (exampleEnvelopeBusy.SetShape 1)).Value
          = 15 - 20 / exampleEnvelopeBusy.m_period :=
  ⟨by decide, by decide, rfl, rfl, by decide,
    (envelope_one_shot_decay exampleEnvelopeBusy 1 20 (by decide) (by decide) rfl rfl).2.1
      (by decide)⟩

/-! ## Safety of the register dispatch -/

/-- The operations of the public interface other than `Update` keep the latched
address. -/
theorem apply_latchedAddress (s : Psg) (op : HostOp) :
    (s.apply op).m_latchedAddress = s.m_latchedAddress := by
  cases op <;> rfl

/-- From a start state whose latched address is in 0..15, every reachable state
has its latched address in 0..15. -/
theorem reachable_latchedAddress_lt (start s : Psg) (h0 : start.m_latchedAddress < 16)
    (h : Psg.ReachableFrom start s) : s.m_latchedAddress < 16 := by
  induction h with
  | start => exact h0
  | apply op _ ih => rw [apply_latchedAddress]; exact ih
  | update cycles _ hu ih =>
    obtain ⟨t, ht, hlt, _⟩ := Update_total cycles _ ih
    rw [hu] at ht
    rw [Option.some.inj ht]
    exact hlt

/-- A script that runs to its end leads from a reachable state to a reachable
state: each of its operations is one of the public interface. -/
theorem run_reachable (start : Psg) : ∀ (script : List ScriptOp) (s t : Psg),
    Psg.ReachableFrom start s → s.run script = some t → Psg.ReachableFrom start t := by
  intro script
  induction script with
  | nil =>
    intro s t hs h
    simp only [Psg.run, Option.some.injEq] at h
    subst h
    exact hs
  | cons op rest ih =>
    intro s t hs h
    cases op with
    | WriteDA value => exact ih _ t (Psg.ReachableFrom.apply (HostOp.WriteDA value) hs) h
    | SetBDIR enable => exact ih _ t (Psg.ReachableFrom.apply (HostOp.SetBDIR enable) hs) h
    | SetBC1 enable => exact ih _ t (Psg.ReachableFrom.apply (HostOp.SetBC1 enable) hs) h
    | Update cycles =>
      simp only [Psg.run] at h
      cases hu : s.Update cycles with
      | none => rw [hu] at h; exact absurd h (by simp)
      | some s1 =>
        rw [hu] at h
        exact ih s1 t (Psg.ReachableFrom.update cycles hs hu) h
    | Sample => exact ih _ t (Psg.ReachableFrom.apply HostOp.Sample hs) h

/-- C22 (the register dispatch never hits its fatal branch): in every state
reachable from a constructed and Reset chip by WriteDA, ReadDA, Sample, the
control-line setters, Reset, Init and Update, the latched address is in 0..15;
therefore the register read and the register write at the latched address
return (they match one of the 16 named cases and index the backing array
within bounds), the clock step returns a state that is reachable again, and
`Update(n)` returns for every n.  The bound does not rest on the value the
constructor gives the latched address: from any start state whose latched
address is in 0..15, every reachable state has its latched address in 0..15. -/
theorem dispatch_never_fatal (s : Psg) (h : Psg.ReachableFrom Psg.construct.Reset s) :
    s.m_latchedAddress < 16
    ∧ (∃ r, s.Read s.m_latchedAddress = some r)
    ∧ (∀ v, ∃ t, s.Write s.m_latchedAddress v = some t)
    ∧ (∃ r, s.registerAt s.m_latchedAddress = some r)
    ∧ (∀ v, ∃ t, s.setRegister s.m_latchedAddress v = some t)
    ∧ (∃ s1, s.Clock = some s1 ∧ Psg.ReachableFrom Psg.construct.Reset s1)
    ∧ (∀ n, ∃ t, s.Update n = some t ∧ Psg.ReachableFrom Psg.construct.Reset t)
    ∧ (∀ start t : Psg, start.m_latchedAddress < 16 → Psg.ReachableFrom start t →
        t.m_latchedAddress < 16) := by
  have hlt : s.m_latchedAddress < 16 :=
    reachable_latchedAddress_lt Psg.construct.Reset s (by decide) h
  refine ⟨hlt, (Read_Write_total s 0 hlt).1, fun v => (Read_Write_total s v hlt).2, ?_, ?_,
    ?_, ?_, fun start t h0 ht => reachable_latchedAddress_lt start t h0 ht⟩
  · simp [Psg.registerAt, hlt]
  · intro v
    simp [Psg.setRegister, hlt]
  · obtain ⟨s1, h1, _⟩ := Clock_total s hlt
    exact ⟨s1, h1, Psg.ReachableFrom.update 1 h (by rw [Update_one]; exact h1)⟩
  · intro n
    obtain ⟨t, ht, _⟩ := Update_total n s hlt
    exact ⟨t, ht, Psg.ReachableFrom.update n h ht⟩

/-- Witness of C22: on a constructed and Reset chip, the bus script WriteDA(0xFF);
tick in LatchAddress; tick in Inactive; WriteDA(0xA5); tick in Write; tick in
Inactive runs to its end.  The chip it reaches has latched address 15 (the low
4 bits of 0xFF) and holds 0xA5 in backing register 15, through the dispatch of
`Write`; there the latched address is below 16, the register read returns
0xA5, and a further clock step returns. -/
theorem dispatch_never_fatal_witness :
    ∃ s, Psg.construct.Reset.run (writeRegisterScript 0xFF 0xA5) = some s
      ∧ Psg.ReachableFrom Psg.construct.Reset s
      ∧ s.m_latchedAddress = 15 ∧ s.registerAt 15 = some 0xA5
      ∧ s.Read s.m_latchedAddress = some 0xA5
      ∧ s.m_latchedAddress < 16
      ∧ (∃ r, s.Read s.m_latchedAddress = some r)
      ∧ (∀ v, ∃ t, s.Write s.m_latchedAddress v = some t)
      ∧ ∃ s1, s.Clock = some s1 ∧ Psg.ReachableFrom Psg.construct.Reset s1 :=
  have key : ∃ s, Psg.construct.Reset.run (writeRegisterScript 0xFF 0xA5) = some s
      ∧ s.m_latchedAddress = 15 ∧ s.registerAt 15 = some 0xA5
      ∧ s.Read s.m_latchedAddress = some 0xA5 :=
    ⟨_, rfl, rfl, rfl, rfl⟩
  match key with
  | ⟨s, hrun, hl, hr, hread⟩ =>
    have hreach : Psg.ReachableFrom Psg.construct.Reset s :=
      run_reachable Psg.construct.Reset _ _ _ Psg.ReachableFrom.start hrun
    ⟨s, hrun, hreach, hl, hr, hread, (dispatch_never_fatal s hreach).1,
      (dispatch_never_fatal s hreach).2.1, (dispatch_never_fatal s hreach).2.2.1,
      (dispatch_never_fatal s hreach).2.2.2.2.2.1⟩

/-! ## What Reset does not touch -/

/-- C23 (what Reset does not touch): for every state, `Reset` leaves the
tone-enabled and noise-enabled flags, the debug override flags, the amplitude
mode and the fixed volume of each of the three channels exactly as they were
(and also the latched address, the control lines and the diagnostics); it
assigns only the mode, DA, the backing registers, the master divider and the
five generators; so after `Reset` the backing mixer register (address 7) holds
0 and reads 0 whatever the enable flags of the channels are. -/
theorem Reset_frame (s : Psg) :
    (∀ i : Fin 3,
        (s.Reset.m_channels i).m_toneEnabled = (s.m_channels i).m_toneEnabled
        ∧ (s.Reset.m_channels i).m_noiseEnabled = (s.m_channels i).m_noiseEnabled
        ∧ (s.Reset.m_channels i).OverrideToneEnabled = (s.m_channels i).OverrideToneEnabled
        ∧ (s.Reset.m_channels i).OverrideNoiseEnabled = (s.m_channels i).OverrideNoiseEnabled
        ∧ (s.Reset.m_channels i).m_amplitudeControl.m_mode
            = (s.m_channels i).m_amplitudeControl.m_mode
        ∧ (s.Reset.m_channels i).m_amplitudeControl.m_fixedVolume
            = (s.m_channels i).m_amplitudeControl.m_fixedVolume)
    ∧ s.Reset.m_channels = s.m_channels
    ∧ s.Reset.m_latchedAddress = s.m_latchedAddress
    ∧ s.Reset.m_BDIR = s.m_BDIR ∧ s.Reset.m_BC1 = s.m_BC1
    ∧ s.Reset.undefinedLog = s.undefinedLog
    ∧ s.Reset =
        { s with
          m_mode := PsgMode.Inactive
          m_DA := 0
          m_registers := fun _ => 0
          m_masterDivider := { m_time := 0 }
          m_toneGenerators := fun _ => {}
          m_noiseGenerator := {}
          m_envelopeGenerator := {} }
    ∧ s.Reset.registerAt 7 = some 0
    ∧ (s.m_latchedAddress = 7 → s.Reset.Read s.Reset.m_latchedAddress = some 0)
    ∧ Psg.Read { s.Reset with m_latchedAddress := 7 } 7 = some 0 := by
  refine ⟨fun i => ⟨rfl, rfl, rfl, rfl, rfl, rfl⟩, rfl, rfl, rfl, rfl, rfl, rfl, rfl, ?_, rfl⟩
  intro hl
  have hl2 : s.Reset.m_latchedAddress = 7 := hl
  rw [hl2]
  simp [Psg.Read, hl, Psg.registerAt, Psg.Reset]

/-- Witness of C23: on `exampleConfigured` (latched address 7, backing mixer
register 0x3F, channel A in Envelope mode with its overrides set) the mixer
register reads 0 after `Reset` while the channels are as before. -/
theorem Reset_frame_witness :
    exampleConfigured.m_latchedAddress = 7
      ∧ exampleConfigured.registerAt 7 = some 0x3F
      ∧ exampleConfigured.Reset.Read exampleConfigured.Reset.m_latchedAddress = some 0
      ∧ exampleConfigured.Reset.m_channels = exampleConfigured.m_channels
      ∧ (exampleConfigured.Reset.m_channels 0).m_toneEnabled = true :=
  ⟨rfl, rfl, (Reset_frame exampleConfigured).2.2.2.2.2.2.2.2.1 rfl,
    (Reset_frame exampleConfigured).2.1, rfl⟩

end Vectrexy
